import Mathlib

/-!
The storage layer of just-label-it (package `internal/db`) and the request
handlers that drive it (package `internal/server`).

A shallow embedding of the SQLite-backed store of `monorkin/just-label-it`.

* The database is a record of its five relations (each a list of rows in
  insertion order) together with the three `sqlite_sequence` counters that the
  `AUTOINCREMENT` primary keys of `media_files`, `labels` and `keyframes` use.
* Every Go method of `*DB` becomes a function taking the database first.  A
  method that writes returns its Go result paired with the database after the
  call; a method that only reads returns its Go result.
* `CURRENT_TIMESTAMP` is an explicit argument `now`.
* TEXT values are Lean strings, integers of the schema and of the Go
  signatures (`int64`, `int`) are unbounded integers; no arithmetic is done on
  them apart from drawing the next rowid.
* Engine failures (I/O errors, a full disk, the engine's limit of 10^9 bytes
  on a statement or a value, exhaustion of the 63-bit rowid space) are outside
  the model: a branch `if err != nil` that only such a failure can take is left
  out.  Failures that depend on the data or on the arguments of a call are
  modelled: `FOREIGN KEY constraint failed`, and `LIKE or GLOB pattern too
  complex` for a search pattern of more than 50000 bytes.
* Statements run one after the other (the connection pool is limited to one
  connection by `Open`); interleavings of concurrent requests are not modelled.
* `Open` and `migrate` run over a database file with an explicit transaction:
  the committed file, the view of the open transaction, and an oracle telling
  which statement fails.
* A handler becomes a function from the parsed request to the response and the
  database after it.  The functions of the Go library that a handler calls
  (`filepath.Clean`, `Join`, `Abs`, `strings.HasPrefix`, `strings.TrimSpace`,
  and the check of `http.ServeFile` on the request path) follow their
  documentation, for Unix paths; the file system itself (symbolic links, the
  existence of a file) is outside the model.
-/

namespace JustLabelIt

/-! ## Engine-level notions -/

/-- Decision procedure for `a ≤ b` on TEXT values.  The default BINARY collation
compares the UTF-8 bytes with `memcmp`, which is the lexicographic order of the
code points; the procedure compares the two code point lists. -/
instance (priority := 2000) textDecLE (a b : String) : Decidable (a ≤ b) :=
  decidable_of_iff (a.toList ≤ b.toList) String.le_iff_toList_le.symm

/-- Decision procedure for `a < b` on TEXT values (BINARY collation). -/
instance (priority := 2000) textDecLT (a b : String) : Decidable (a < b) :=
  decidable_of_iff (a.toList < b.toList) String.lt_iff_toList_lt.symm

/-- Clause `ORDER BY key ASC`: the rows sorted by ascending key. -/
def orderByAsc {α κ : Type} [LE κ] [DecidableRel (fun (a b : κ) => a ≤ b)]
    (key : α → κ) (rows : List α) : List α :=
  rows.insertionSort (fun a b => key a ≤ key b)

/-- Clause `ORDER BY key DESC`: the rows sorted by descending key. -/
def orderByDesc {α κ : Type} [LE κ] [DecidableRel (fun (a b : κ) => a ≤ b)]
    (key : α → κ) (rows : List α) : List α :=
  rows.insertionSort (fun a b => key b ≤ key a)

/-- The largest rowid present in a table (0 for an empty table). -/
def maxRowid (ids : List Int) : Int := ids.foldr max 0

/-- The rowid an `INTEGER PRIMARY KEY AUTOINCREMENT` column gives to the next
row: one more than the largest rowid the table has ever held (`seq` is the
table's entry in `sqlite_sequence`). -/
def newRowid (seq : Int) (ids : List Int) : Int := max seq (maxRowid ids) + 1

/-- Character comparison of the LIKE operator: equal, or equal after folding
the case of ASCII letters (both characters below 0x80). -/
def likeCharEq (c d : Char) : Bool :=
  c == d || (decide (c.val < 128) && decide (d.val < 128) && c.toLower == d.toLower)

/-- Some suffix of the string (the string itself included) satisfies `f`. -/
def anySuffix (f : List Char → Bool) : List Char → Bool
  | [] => f []
  | c :: s => f (c :: s) || anySuffix f s

/-- The LIKE matcher on code point lists: `%` matches any sequence of zero or
more characters, `_` matches exactly one character, any other character
matches itself up to ASCII case.  No escape character is in force. -/
def likeMatch : List Char → List Char → Bool
  | [], s => s.isEmpty
  | p :: ps, s =>
    if p = '%' then anySuffix (likeMatch ps) s
    else
      match s with
      | [] => false
      | c :: s' => (p == '_' || likeCharEq p c) && likeMatch ps s'

/-- The part of a text value before its first NUL character: the LIKE operator
reads both of its operands as NUL-terminated strings. -/
def cString (s : List Char) : List Char := s.takeWhile (fun c => c != Char.ofNat 0)

/-- SQL expression `value LIKE pattern` with the engine's default settings
(case-insensitive for ASCII, no ESCAPE clause). -/
def like (pattern value : String) : Bool :=
  likeMatch (cString pattern.toList) (cString value.toList)

/-- The engine's default limit `SQLITE_MAX_LIKE_PATTERN_LENGTH` on the length
of a LIKE pattern, in bytes of its UTF-8 encoding (a NUL in the pattern and
what follows it count). -/
def maxLikePatternLength : Nat := 50000

/-! ## Data model -/

/-- Row of `media_files`, and the Go struct `MediaFile`. -/
structure MediaFile where
  ID : Int
  Path : String
  MediaType : String
  Description : String
  CreatedAt : Nat
  UpdatedAt : Nat
  deriving DecidableEq, Repr

/-- Row of `labels`, and the Go struct `Label`. -/
structure Label where
  ID : Int
  Name : String
  deriving DecidableEq, Repr

/-- Row of `keyframes`. -/
structure KeyframeRow where
  ID : Int
  MediaFileID : Int
  TimestampMs : Int
  Description : String
  Pinned : Bool
  deriving DecidableEq, Repr

/-- Go struct `Keyframe`: a row of `keyframes` with its labels loaded. -/
structure Keyframe where
  ID : Int
  MediaFileID : Int
  TimestampMs : Int
  Description : String
  Pinned : Bool
  Labels : List Label
  deriving DecidableEq, Repr

/-- Go struct `NavigationInfo`. -/
structure NavigationInfo where
  PrevID : Int
  NextID : Int
  Index : Nat
  TotalCount : Nat
  deriving DecidableEq, Repr

/-- The database after `migrateV1`: five relations and the `sqlite_sequence`
counters of the three AUTOINCREMENT tables.  `media_labels` holds pairs
`(media_file_id, label_id)`, `keyframe_labels` pairs `(keyframe_id, label_id)`. -/
structure DB where
  media_files : List MediaFile
  labels : List Label
  media_labels : List (Int × Int)
  keyframes : List KeyframeRow
  keyframe_labels : List (Int × Int)
  seq_media_files : Int
  seq_labels : Int
  seq_keyframes : Int
  deriving DecidableEq, Repr

deriving instance DecidableEq for Except

/-- Errors a store method returns. -/
inductive Error where
  /-- The variable `ErrPinnedKeyframe` of keyframes.go. -/
  | ErrPinnedKeyframe
  /-- The value `sql.ErrNoRows` (wrapped by the caller). -/
  | ErrNoRows
  /-- An error built by `fmt.Errorf("... %d not found", id)`. -/
  | NotFound
  /-- The engine rejected the statement: FOREIGN KEY constraint failed. -/
  | ForeignKey
  /-- The engine rejected the statement: LIKE or GLOB pattern too complex. -/
  | LikePatternTooComplex
  deriving DecidableEq, Repr

/-- The freshly migrated, empty database. -/
def DB.empty : DB :=
  { media_files := [], labels := [], media_labels := [], keyframes := [],
    keyframe_labels := [], seq_media_files := 0, seq_labels := 0, seq_keyframes := 0 }

/-! ## media.go -/

/-- Method `UpsertMediaFile`:
`INSERT INTO media_files (path, media_type) VALUES (?, ?) ON CONFLICT (path) DO NOTHING`.
The rowid is drawn before the uniqueness check, so the sequence counter
advances in both cases. -/
def UpsertMediaFile (d : DB) (now : Nat) (path mediaType : String) : Except Error Unit × DB :=
  let id := newRowid d.seq_media_files (d.media_files.map (fun m => m.ID))
  if d.media_files.any (fun m => m.Path == path) then
    (.ok (), { d with seq_media_files := id })
  else
    (.ok (), { d with
      media_files := d.media_files ++
        [{ ID := id, Path := path, MediaType := mediaType, Description := "",
           CreatedAt := now, UpdatedAt := now }],
      seq_media_files := id })

/-- Method `GetMediaFile`: `SELECT ... FROM media_files WHERE id = ?`;
`none` is the Go result `nil, nil`. -/
def GetMediaFile (d : DB) (id : Int) : Option MediaFile :=
  d.media_files.find? (fun m => m.ID == id)

/-- Method `FirstMediaFile`: `SELECT ... FROM media_files ORDER BY path ASC LIMIT 1`. -/
def FirstMediaFile (d : DB) : Option MediaFile :=
  (orderByAsc (fun m => m.Path) d.media_files).head?

/-- The previous-file query of `GetNavigation`:
`SELECT id FROM media_files WHERE path < ? ORDER BY path DESC LIMIT 1`, and when
that yields no row (`sql.ErrNoRows`) the wrap-around query
`SELECT id FROM media_files ORDER BY path DESC LIMIT 1`, whose error is ignored
(the field keeps its zero value). -/
def prevID (media_files : List MediaFile) (currentPath : String) : Int :=
  match (orderByDesc (fun m => m.Path)
          (media_files.filter (fun m => m.Path < currentPath))).head? with
  | some m => m.ID
  | none =>
    match (orderByDesc (fun m => m.Path) media_files).head? with
    | some m => m.ID
    | none => 0

/-- The next-file query of `GetNavigation`:
`SELECT id FROM media_files WHERE path > ? ORDER BY path ASC LIMIT 1`, and when
that yields no row the wrap-around query
`SELECT id FROM media_files ORDER BY path ASC LIMIT 1`, whose error is ignored. -/
def nextID (media_files : List MediaFile) (currentPath : String) : Int :=
  match (orderByAsc (fun m => m.Path)
          (media_files.filter (fun m => currentPath < m.Path))).head? with
  | some m => m.ID
  | none =>
    match (orderByAsc (fun m => m.Path) media_files).head? with
    | some m => m.ID
    | none => 0

/-- Method `GetNavigation`: the path of the current file
(`SELECT path FROM media_files WHERE id = ?`, an error when there is no row), the
total `SELECT COUNT(*) FROM media_files`, the index
`SELECT COUNT(*) FROM media_files WHERE path <= ?`, and the two neighbours. -/
def GetNavigation (d : DB) (currentID : Int) : Except Error NavigationInfo :=
  match (d.media_files.find? (fun m => m.ID == currentID)).map (fun m => m.Path) with
  | none => .error .ErrNoRows
  | some currentPath =>
    .ok { PrevID := prevID d.media_files currentPath,
          NextID := nextID d.media_files currentPath,
          Index := (d.media_files.filter (fun m => m.Path ≤ currentPath)).length,
          TotalCount := d.media_files.length }

/-- Method `UpdateDescription`:
`UPDATE media_files SET description = ?, updated_at = CURRENT_TIMESTAMP WHERE id = ?`,
an error when no row was affected. -/
def UpdateDescription (d : DB) (now : Nat) (id : Int) (description : String) :
    Except Error Unit × DB :=
  let d' := { d with media_files := d.media_files.map (fun m =>
    if m.ID = id then { m with Description := description, UpdatedAt := now } else m) }
  let rows := (d.media_files.filter (fun m => m.ID == id)).length
  if rows = 0 then (.error .NotFound, d') else (.ok (), d')

/-- Method `MediaFileCount`: `SELECT COUNT(*) FROM media_files`. -/
def MediaFileCount (d : DB) : Nat := d.media_files.length

/-! ## labels.go -/

/-- Method `FindOrCreateLabel`:
`INSERT INTO labels (name) VALUES (?) ON CONFLICT (name) DO NOTHING`, then
`SELECT id, name FROM labels WHERE name = ?`. -/
def FindOrCreateLabel (d : DB) (name : String) : Except Error Label × DB :=
  let id := newRowid d.seq_labels (d.labels.map (fun l => l.ID))
  let d' : DB :=
    if d.labels.any (fun l => l.Name == name) then
      { d with seq_labels := id }
    else
      { d with labels := d.labels ++ [{ ID := id, Name := name }], seq_labels := id }
  match d'.labels.find? (fun l => l.Name == name) with
  | none => (.error .ErrNoRows, d')
  | some l => (.ok l, d')

/-- Method `SearchLabels`:
`SELECT id, name FROM labels WHERE name LIKE ? ORDER BY name ASC LIMIT 10`
with the argument `query+"%"`.  The engine tests the length of the pattern
each time it evaluates `LIKE` on a row: with a pattern longer than the limit
the statement fails at the first row with `LIKE or GLOB pattern too complex`
and the method returns the error; on an empty table nothing is evaluated and
the statement succeeds. -/
def SearchLabels (d : DB) (query : String) : Except Error (List Label) :=
  if decide (maxLikePatternLength < (query ++ "%").utf8ByteSize) && !d.labels.isEmpty then
    .error .LikePatternTooComplex
  else
    .ok ((orderByAsc (fun l => l.Name)
      (d.labels.filter (fun l => like (query ++ "%") l.Name))).take 10)

/-- Method `AddMediaLabel`:
`INSERT INTO media_labels (media_file_id, label_id) VALUES (?, ?) ON CONFLICT DO NOTHING`.
Both columns are foreign keys. -/
def AddMediaLabel (d : DB) (mediaFileID labelID : Int) : Except Error Unit × DB :=
  if d.media_labels.any (fun ml => ml.1 == mediaFileID && ml.2 == labelID) then
    (.ok (), d)
  else if d.media_files.any (fun m => m.ID == mediaFileID)
      && d.labels.any (fun l => l.ID == labelID) then
    (.ok (), { d with media_labels := d.media_labels ++ [(mediaFileID, labelID)] })
  else
    (.error .ForeignKey, d)

/-- Method `RemoveMediaLabel`:
`DELETE FROM media_labels WHERE media_file_id = ? AND label_id = ?`. -/
def RemoveMediaLabel (d : DB) (mediaFileID labelID : Int) : Except Error Unit × DB :=
  (.ok (), { d with media_labels :=
    d.media_labels.filter (fun ml => !(ml.1 == mediaFileID && ml.2 == labelID)) })

/-- Method `LabelsForMediaFile`:
`SELECT l.id, l.name FROM labels l JOIN media_labels ml ON ml.label_id = l.id
 WHERE ml.media_file_id = ? ORDER BY l.name ASC`. -/
def LabelsForMediaFile (d : DB) (mediaFileID : Int) : List Label :=
  orderByAsc (fun l => l.Name)
    (d.labels.flatMap (fun l =>
      (d.media_labels.filter (fun ml => ml.2 == l.ID && ml.1 == mediaFileID)).map (fun _ => l)))

/-- Method `AddKeyframeLabel`:
`INSERT INTO keyframe_labels (keyframe_id, label_id) VALUES (?, ?) ON CONFLICT DO NOTHING`.
Both columns are foreign keys. -/
def AddKeyframeLabel (d : DB) (keyframeID labelID : Int) : Except Error Unit × DB :=
  if d.keyframe_labels.any (fun kl => kl.1 == keyframeID && kl.2 == labelID) then
    (.ok (), d)
  else if d.keyframes.any (fun k => k.ID == keyframeID)
      && d.labels.any (fun l => l.ID == labelID) then
    (.ok (), { d with keyframe_labels := d.keyframe_labels ++ [(keyframeID, labelID)] })
  else
    (.error .ForeignKey, d)

/-- Method `RemoveKeyframeLabel`:
`DELETE FROM keyframe_labels WHERE keyframe_id = ? AND label_id = ?`. -/
def RemoveKeyframeLabel (d : DB) (keyframeID labelID : Int) : Except Error Unit × DB :=
  (.ok (), { d with keyframe_labels :=
    d.keyframe_labels.filter (fun kl => !(kl.1 == keyframeID && kl.2 == labelID)) })

/-- Method `LabelsForKeyframe`:
`SELECT l.id, l.name FROM labels l JOIN keyframe_labels kl ON kl.label_id = l.id
 WHERE kl.keyframe_id = ? ORDER BY l.name ASC`. -/
def LabelsForKeyframe (d : DB) (keyframeID : Int) : List Label :=
  orderByAsc (fun l => l.Name)
    (d.labels.flatMap (fun l =>
      (d.keyframe_labels.filter (fun kl => kl.2 == l.ID && kl.1 == keyframeID)).map (fun _ => l)))

/-! ## keyframes.go -/

/-- Statement `INSERT INTO keyframes (media_file_id, timestamp_ms, pinned) VALUES (?, ?, ?)`
(the description takes its default, the empty string).  The result is the
rowid of the new row, or the foreign-key failure when `media_file_id` names
no media file; a failed statement leaves the database as it was. -/
def insertKeyframe (d : DB) (mediaFileID timestampMs : Int) (pinned : Bool) :
    Except Error Int × DB :=
  if d.media_files.any (fun m => m.ID == mediaFileID) then
    let id := newRowid d.seq_keyframes (d.keyframes.map (fun k => k.ID))
    (.ok id, { d with
      keyframes := d.keyframes ++
        [{ ID := id, MediaFileID := mediaFileID, TimestampMs := timestampMs,
           Description := "", Pinned := pinned }],
      seq_keyframes := id })
  else
    (.error .ForeignKey, d)

/-- Method `EnsurePinnedKeyframe`:
`SELECT COUNT(*) FROM keyframes WHERE media_file_id = ? AND pinned = 1`, and when
the count is zero
`INSERT INTO keyframes (media_file_id, timestamp_ms, pinned) VALUES (?, 0, 1)`. -/
def EnsurePinnedKeyframe (d : DB) (mediaFileID : Int) : Except Error Unit × DB :=
  let count := (d.keyframes.filter
    (fun k => k.MediaFileID == mediaFileID && k.Pinned == true)).length
  if count > 0 then
    (.ok (), d)
  else
    match insertKeyframe d mediaFileID 0 true with
    | (.error e, d') => (.error e, d')
    | (.ok _, d') => (.ok (), d')

/-- Method `GetKeyframe`:
`SELECT ... FROM keyframes WHERE id = ?` followed by `LabelsForKeyframe`;
`none` is the Go result `nil, nil`. -/
def GetKeyframe (d : DB) (id : Int) : Option Keyframe :=
  match d.keyframes.find? (fun k => k.ID == id) with
  | none => none
  | some k =>
    some { ID := k.ID, MediaFileID := k.MediaFileID, TimestampMs := k.TimestampMs,
           Description := k.Description, Pinned := k.Pinned,
           Labels := LabelsForKeyframe d k.ID }

/-- Method `KeyframesForMediaFile`:
`SELECT ... FROM keyframes WHERE media_file_id = ? ORDER BY timestamp_ms ASC`,
then the labels of each keyframe. -/
def KeyframesForMediaFile (d : DB) (mediaFileID : Int) : List Keyframe :=
  (orderByAsc (fun k => k.TimestampMs)
    (d.keyframes.filter (fun k => k.MediaFileID == mediaFileID))).map (fun k =>
      { ID := k.ID, MediaFileID := k.MediaFileID, TimestampMs := k.TimestampMs,
        Description := k.Description, Pinned := k.Pinned,
        Labels := LabelsForKeyframe d k.ID })

/-- Method `CreateKeyframe`:
`INSERT INTO keyframes (media_file_id, timestamp_ms) VALUES (?, ?)` (pinned takes
its default 0), then `GetKeyframe` on the last inserted rowid. -/
def CreateKeyframe (d : DB) (mediaFileID timestampMs : Int) :
    Except Error (Option Keyframe) × DB :=
  match insertKeyframe d mediaFileID timestampMs false with
  | (.error e, d') => (.error e, d')
  | (.ok id, d') => (.ok (GetKeyframe d' id), d')

/-- Method `UpdateKeyframeTimestamp`: rejects a missing and a pinned keyframe,
else `UPDATE keyframes SET timestamp_ms = ? WHERE id = ?`. -/
def UpdateKeyframeTimestamp (d : DB) (id timestampMs : Int) : Except Error Unit × DB :=
  match GetKeyframe d id with
  | none => (.error .NotFound, d)
  | some kf =>
    if kf.Pinned then
      (.error .ErrPinnedKeyframe, d)
    else
      (.ok (), { d with keyframes := d.keyframes.map (fun k =>
        if k.ID = id then { k with TimestampMs := timestampMs } else k) })

/-- Method `UpdateKeyframeDescription`:
`UPDATE keyframes SET description = ? WHERE id = ?`, an error when no row was
affected. -/
def UpdateKeyframeDescription (d : DB) (id : Int) (description : String) :
    Except Error Unit × DB :=
  let d' := { d with keyframes := d.keyframes.map (fun k =>
    if k.ID = id then { k with Description := description } else k) }
  let rows := (d.keyframes.filter (fun k => k.ID == id)).length
  if rows = 0 then (.error .NotFound, d') else (.ok (), d')

/-- Method `DeleteKeyframe`: rejects a missing and a pinned keyframe, else
`DELETE FROM keyframes WHERE id = ?`; the rows of `keyframe_labels` that
reference the keyframe go with it (ON DELETE CASCADE). -/
def DeleteKeyframe (d : DB) (id : Int) : Except Error Unit × DB :=
  match GetKeyframe d id with
  | none => (.error .NotFound, d)
  | some kf =>
    if kf.Pinned then
      (.error .ErrPinnedKeyframe, d)
    else
      (.ok (), { d with
        keyframes := d.keyframes.filter (fun k => !(k.ID == id)),
        keyframe_labels := d.keyframe_labels.filter (fun kl => !(kl.1 == id)) })

/-! ## db.go -/

/-- Constant `currentVersion`. -/
def currentVersion : Int := 1

/-- The statements that `Open`, `migrate` and `migrateV1` pass to `Exec`. -/
inductive Stmt where
  /-- Statement `PRAGMA journal_mode=WAL`. -/
  | journalModeWAL
  /-- Statement `PRAGMA foreign_keys=ON`. -/
  | foreignKeysOn
  /-- One of the `CREATE TABLE` statements of `migrateV1`. -/
  | createTable (name : String)
  /-- Statement `PRAGMA user_version = %d`. -/
  | setUserVersion (version : Int)
  deriving DecidableEq, Repr

/-- Errors of `Open` and `migrate`. -/
inductive OpenError where
  /-- The engine failed to execute the statement. -/
  | execFailed (stmt : Stmt)
  /-- The transaction has already been committed or rolled back. -/
  | txDone
  deriving DecidableEq, Repr

/-- What the database file persists, as far as `Open` is concerned: the schema
version marker, the tables of the schema in creation order, and the journal
mode. -/
structure DBFile where
  user_version : Int
  tables : List String
  wal : Bool
  deriving DecidableEq, Repr

/-- A connection to the database file: the committed content of the file, the
content as seen inside the open transaction (if one is open), the connection's
foreign-key setting, and the statements passed to `Exec` so far. -/
structure Conn where
  file : DBFile
  tx : Option DBFile
  foreign_keys : Bool
  log : List Stmt
  deriving DecidableEq, Repr

/-- The effect of a statement on the content of the file (both PRAGMAs of `Open`
are handled by the connection).  `CREATE TABLE` fails when the table exists. -/
def Stmt.apply (s : Stmt) (f : DBFile) : Except OpenError DBFile :=
  match s with
  | .journalModeWAL => .ok { f with wal := true }
  | .foreignKeysOn => .ok f
  | .createTable name =>
    if name ∈ f.tables then .error (.execFailed s)
    else .ok { f with tables := f.tables ++ [name] }
  | .setUserVersion v => .ok { f with user_version := v }

/-- Call `conn.Exec(stmt)` outside a transaction: the statement is committed at
once.  `fails` tells which statements the engine fails to execute for a reason
outside the model. -/
def Conn.exec (fails : Stmt → Bool) (c : Conn) (s : Stmt) : Except OpenError Unit × Conn :=
  if fails s then
    (.error (.execFailed s), { c with log := c.log ++ [s] })
  else
    match s.apply c.file with
    | .error e => (.error e, { c with log := c.log ++ [s] })
    | .ok f =>
      (.ok (), { c with file := f, log := c.log ++ [s],
                        foreign_keys := c.foreign_keys || s == .foreignKeysOn })

/-- Call `conn.Begin()`: the transaction starts from the committed content. -/
def Conn.begin (c : Conn) : Conn := { c with tx := some c.file }

/-- Call `tx.Exec(stmt)`: the statement changes what the transaction sees; a
failing statement changes nothing and leaves the transaction open. -/
def Conn.txExec (fails : Stmt → Bool) (c : Conn) (s : Stmt) : Except OpenError Unit × Conn :=
  match c.tx with
  | none => (.error .txDone, c)
  | some view =>
    if fails s then
      (.error (.execFailed s), { c with log := c.log ++ [s] })
    else
      match s.apply view with
      | .error e => (.error e, { c with log := c.log ++ [s] })
      | .ok view' => (.ok (), { c with tx := some view', log := c.log ++ [s] })

/-- Call `tx.Rollback()`: the changes of the open transaction are dropped; on a
transaction that is already finished the call does nothing. -/
def Conn.rollback (c : Conn) : Conn := { c with tx := none }

/-- Call `tx.Commit()`: what the transaction sees becomes the committed content. -/
def Conn.commit (c : Conn) : Conn :=
  match c.tx with
  | none => c
  | some view => { c with file := view, tx := none }

/-- Call `conn.Close()`: an open transaction is rolled back. -/
def Conn.close (c : Conn) : Conn := { c with tx := none }

/-- The slice `statements` of `migrateV1`. -/
def migrateV1Statements : List Stmt :=
  [.createTable "media_files", .createTable "labels", .createTable "media_labels",
   .createTable "keyframes", .createTable "keyframe_labels"]

/-- The loop `for _, stmt := range statements` of `migrateV1`: each statement is
executed in the transaction, the first error is returned. -/
def execAll (fails : Stmt → Bool) : List Stmt → Conn → Except OpenError Unit × Conn
  | [], c => (.ok (), c)
  | s :: rest, c =>
    match c.txExec fails s with
    | (.error e, c') => (.error e, c')
    | (.ok _, c') => execAll fails rest c'

/-- Function `migrateV1`. -/
def migrateV1 (fails : Stmt → Bool) (c : Conn) : Except OpenError Unit × Conn :=
  execAll fails migrateV1Statements c

/-- Method `migrate`: reads `PRAGMA user_version`, returns when it is current,
else begins a transaction, runs the missing migrations and the version update
in it and commits; the deferred `tx.Rollback()` runs on every way out. -/
def migrate (fails : Stmt → Bool) (c : Conn) : Except OpenError Unit × Conn :=
  let version := c.file.user_version
  if version ≥ currentVersion then
    (.ok (), c)
  else
    let c1 := c.begin
    match (if version < 1 then migrateV1 fails c1 else (.ok (), c1)) with
    | (.error e, c2) => (.error e, c2.rollback)
    | (.ok _, c2) =>
      match c2.txExec fails (.setUserVersion currentVersion) with
      | (.error e, c3) => (.error e, c3.rollback)
      | (.ok _, c3) => (.ok (), c3.commit.rollback)

/-- Function `Open` on a database file: the connection with both PRAGMAs set and
the migrations run, or the error, after which the connection is closed.  The
second component is the connection as `Open` leaves it. -/
def Open (fails : Stmt → Bool) (file : DBFile) : Except OpenError Unit × Conn :=
  let c0 : Conn := { file := file, tx := none, foreign_keys := false, log := [] }
  match c0.exec fails .journalModeWAL with
  | (.error e, c1) => (.error e, c1.close)
  | (.ok _, c1) =>
    match c1.exec fails .foreignKeysOn with
    | (.error e, c2) => (.error e, c2.close)
    | (.ok _, c2) =>
      match migrate fails c2 with
      | (.error e, c3) => (.error e, c3.close)
      | (.ok _, c3) => (.ok (), c3)

/-! ## Sequences of store operations -/

/-- The writing operations of the store, with their arguments (and the clock
reading where the statement uses `CURRENT_TIMESTAMP`). -/
inductive Op where
  | upsertMediaFile (now : Nat) (path mediaType : String)
  | updateDescription (now : Nat) (id : Int) (description : String)
  | ensurePinnedKeyframe (mediaFileID : Int)
  | createKeyframe (mediaFileID timestampMs : Int)
  | updateKeyframeTimestamp (id timestampMs : Int)
  | updateKeyframeDescription (id : Int) (description : String)
  | deleteKeyframe (id : Int)
  | findOrCreateLabel (name : String)
  | addMediaLabel (mediaFileID labelID : Int)
  | removeMediaLabel (mediaFileID labelID : Int)
  | addKeyframeLabel (keyframeID labelID : Int)
  | removeKeyframeLabel (keyframeID labelID : Int)
  deriving DecidableEq, Repr

/-- The database after one operation (whether it returned an error or not). -/
def Op.run (d : DB) : Op → DB
  | .upsertMediaFile now path mediaType => (UpsertMediaFile d now path mediaType).2
  | .updateDescription now id description => (UpdateDescription d now id description).2
  | .ensurePinnedKeyframe f => (EnsurePinnedKeyframe d f).2
  | .createKeyframe f t => (CreateKeyframe d f t).2
  | .updateKeyframeTimestamp id t => (UpdateKeyframeTimestamp d id t).2
  | .updateKeyframeDescription id description => (UpdateKeyframeDescription d id description).2
  | .deleteKeyframe id => (DeleteKeyframe d id).2
  | .findOrCreateLabel name => (FindOrCreateLabel d name).2
  | .addMediaLabel f l => (AddMediaLabel d f l).2
  | .removeMediaLabel f l => (RemoveMediaLabel d f l).2
  | .addKeyframeLabel k l => (AddKeyframeLabel d k l).2
  | .removeKeyframeLabel k l => (RemoveKeyframeLabel d k l).2

/-- The database after a sequence of operations, run from left to right. -/
def runOps (d : DB) (ops : List Op) : DB := ops.foldl Op.run d

/-- States reachable from the freshly migrated empty database by a sequence of
store operations. -/
inductive Reachable : DB → Prop where
  | empty : Reachable DB.empty
  | step {d : DB} (op : Op) : Reachable d → Reachable (op.run d)

/-! ## Library functions used by the server (Unix paths) -/

/-- Function `unicode.IsSpace`: the white space characters that
`strings.TrimSpace` removes. -/
def isSpace (c : Char) : Bool :=
  let n := c.toNat
  (9 ≤ n && n ≤ 13) || n == 32 || n == 0x85 || n == 0xA0 || n == 0x1680 ||
  (0x2000 ≤ n && n ≤ 0x200A) || n == 0x2028 || n == 0x2029 || n == 0x202F ||
  n == 0x205F || n == 0x3000

/-- Function `strings.TrimSpace`: the string without its leading and trailing
white space. -/
def TrimSpace (s : String) : String :=
  String.mk ((s.toList.dropWhile isSpace).reverse.dropWhile isSpace).reverse

/-- One step of `filepath.Clean` over the elements of a path, the elements kept
so far held last element first: an empty element and `.` are dropped, `..`
removes the last kept element (at the root it is dropped; in a relative path
it is kept when there is nothing to remove), any other element is kept. -/
def cleanStep (rooted : Bool) (stack : List (List Char)) (elem : List Char) :
    List (List Char) :=
  if elem = [] ∨ elem = ['.'] then stack
  else if elem = ['.', '.'] then
    match stack with
    | [] => if rooted then [] else [elem]
    | top :: rest => if !rooted && top == ['.', '.'] then elem :: stack else rest
  else elem :: stack

/-- The elements of the cleaned path, first element first. -/
def cleanElems (rooted : Bool) (elems : List (List Char)) : List (List Char) :=
  (elems.foldl (cleanStep rooted) []).reverse

/-- Function `filepath.Clean` on a path with separator `/`. -/
def Clean (path : String) : String :=
  if path.toList = [] then "."
  else
    let rooted : Bool := path.toList.head? == some '/'
    let out := cleanElems rooted (path.toList.splitOn '/')
    if rooted then String.mk ('/' :: ['/'].intercalate out)
    else if out = [] then "."
    else String.mk (['/'].intercalate out)

/-- Function `filepath.IsAbs`. -/
def IsAbs (path : String) : Bool := path.toList.head? == some '/'

/-- Function `filepath.Join` of two elements: the non-empty elements joined by
the separator, then cleaned. -/
def Join (a b : String) : String :=
  if a.toList ≠ [] then Clean (a ++ "/" ++ b)
  else if b.toList ≠ [] then Clean b
  else ""

/-- Function `filepath.Abs`; `wd` is the result of `os.Getwd`, `none` when it
fails, and the result is `none` when `Abs` returns an error. -/
def Abs (wd : Option String) (path : String) : Option String :=
  if IsAbs path then some (Clean path)
  else
    match wd with
    | none => none
    | some w => some (Join w path)

/-- Function `strings.HasPrefix`. -/
def HasPrefix (s pre : String) : Bool := pre.toList.isPrefixOf s.toList

/-- Function `containsDotDot` of `net/http`: some field of the path between
slashes or backslashes is `..`. -/
def containsDotDot (v : String) : Bool :=
  (v.toList.splitOnP (fun c => c == '/' || c == Char.ofNat 92)).any
    (fun field => field == ['.', '.'])

/-! ## server.go and handlers.go -/

/-- Go struct `Server`; the database is passed to the handlers separately and
the templates are left out. -/
structure Server where
  mediaRoot : String
  deriving DecidableEq, Repr

/-- Function `New`: the server over the absolute media root, or `none` when
`filepath.Abs` fails. -/
def New (wd : Option String) (mediaRoot : String) : Option Server :=
  match Abs wd mediaRoot with
  | none => none
  | some absRoot => some { mediaRoot := absRoot }

/-- Go struct `viewerData`. -/
structure viewerData where
  File : MediaFile
  Labels : List Label
  Keyframes : List Keyframe
  Nav : NavigationInfo
  deriving DecidableEq, Repr

/-- The value a handler passes to `respondJSON`. -/
inductive Payload where
  | label (l : Label)
  | keyframe (k : Option Keyframe)
  | labels (ls : List Label)
  deriving DecidableEq, Repr

/-- What a handler answers. -/
inductive Response where
  /-- Call `http.Error(w, message, code)`. -/
  | error (code : Nat)
  /-- Call `w.WriteHeader(http.StatusNoContent)`. -/
  | noContent
  /-- Call `http.Redirect` to `/files/{id}` with `http.StatusFound`. -/
  | found (id : Int)
  /-- Call `respondJSON(w, code, data)`. -/
  | json (code : Nat) (data : Payload)
  /-- Call `renderTemplate(w, "viewer.html", data)`; `none` is the nil data. -/
  | viewer (data : Option viewerData)
  /-- Call `http.ServeFile` getting past its guard: the answer is made from the
  file or directory `name` (its content, its index page, a listing, a redirect
  or a not-found answer). -/
  | file (name : String)
  deriving DecidableEq, Repr

/-- A request as its handler sees it: the results of `parseID` on the path
values (`none` when `strconv.ParseInt` fails), the value decoded from the JSON
body (`none` when decoding fails), the path value or the query value. -/
inductive Request where
  | index
  | viewFile (id : Option Int)
  | serveMedia (path : String)
  | addFileLabel (id : Option Int) (name : Option String)
  | removeFileLabel (id lid : Option Int)
  | updateFileDescription (id : Option Int) (description : Option String)
  | createKeyframe (id : Option Int) (timestampMs : Option Int)
  | updateKeyframe (id : Option Int) (timestampMs : Option Int)
  | deleteKeyframe (id : Option Int)
  | addKeyframeLabel (id : Option Int) (name : Option String)
  | removeKeyframeLabel (id lid : Option Int)
  | updateKeyframeDescription (id : Option Int) (description : Option String)
  | searchLabels (q : String)
  deriving DecidableEq, Repr

/-- Handler `handleIndex`. -/
def handleIndex (d : DB) : Response × DB :=
  match FirstMediaFile d with
  | none => (.viewer none, d)
  | some first => (.found first.ID, d)

/-- Handler `handleViewFile`. -/
def handleViewFile (d : DB) (id : Option Int) : Response × DB :=
  match id with
  | none => (.error 400, d)
  | some id =>
    match GetMediaFile d id with
    | none => (.error 404, d)
    | some file =>
      let labels := LabelsForMediaFile d id
      match GetNavigation d id with
      | .error _ => (.error 500, d)
      | .ok nav =>
        if file.MediaType = "video" ∨ file.MediaType = "audio" then
          match EnsurePinnedKeyframe d id with
          | (.error _, d1) => (.error 500, d1)
          | (.ok _, d1) =>
            (.viewer (some { File := file, Labels := labels,
                             Keyframes := KeyframesForMediaFile d1 id, Nav := nav }), d1)
        else
          (.viewer (some { File := file, Labels := labels, Keyframes := [], Nav := nav }), d)

/-- Handler `handleServeMedia`; the request path is `/media/` followed by the
path value.  The last two branches are the call `http.ServeFile(w, r, absPath)`:
before it opens anything, `ServeFile` answers 400 (`invalid URL path`) when
`r.URL.Path` has a `..` element, and otherwise serves the named file. -/
def handleServeMedia (wd : Option String) (s : Server) (relPath : String) : Response :=
  if relPath.toList = [] then .error 400
  else
    match Abs wd (Join s.mediaRoot relPath) with
    | none => .error 403
    | some absPath =>
      if !HasPrefix absPath s.mediaRoot then .error 403
      -- the guard of http.ServeFile on r.URL.Path
      else if containsDotDot ("/media/" ++ relPath) then .error 400
      else .file absPath

/-- Handler `handleAddFileLabel`. -/
def handleAddFileLabel (d : DB) (id : Option Int) (name : Option String) : Response × DB :=
  match id with
  | none => (.error 400, d)
  | some id =>
    match name with
    | none => (.error 400, d)
    | some name =>
      if name = "" then (.error 400, d)
      else
        match FindOrCreateLabel d (TrimSpace name) with
        | (.error _, d1) => (.error 500, d1)
        | (.ok label, d1) =>
          match AddMediaLabel d1 id label.ID with
          | (.error _, d2) => (.error 500, d2)
          | (.ok _, d2) => (.json 201 (.label label), d2)

/-- Handler `handleRemoveFileLabel`. -/
def handleRemoveFileLabel (d : DB) (id lid : Option Int) : Response × DB :=
  match id with
  | none => (.error 400, d)
  | some fileID =>
    match lid with
    | none => (.error 400, d)
    | some labelID =>
      match RemoveMediaLabel d fileID labelID with
      | (.error _, d1) => (.error 500, d1)
      | (.ok _, d1) => (.noContent, d1)

/-- Handler `handleUpdateFileDescription`. -/
def handleUpdateFileDescription (d : DB) (now : Nat) (id : Option Int)
    (description : Option String) : Response × DB :=
  match id with
  | none => (.error 400, d)
  | some id =>
    match description with
    | none => (.error 400, d)
    | some description =>
      match UpdateDescription d now id description with
      | (.error _, d1) => (.error 500, d1)
      | (.ok _, d1) => (.noContent, d1)

/-- Handler `handleCreateKeyframe`. -/
def handleCreateKeyframe (d : DB) (id : Option Int) (timestampMs : Option Int) :
    Response × DB :=
  match id with
  | none => (.error 400, d)
  | some fileID =>
    match timestampMs with
    | none => (.error 400, d)
    | some timestampMs =>
      match CreateKeyframe d fileID timestampMs with
      | (.error _, d1) => (.error 500, d1)
      | (.ok kf, d1) => (.json 201 (.keyframe kf), d1)

/-- Handler `handleUpdateKeyframe`. -/
def handleUpdateKeyframe (d : DB) (id : Option Int) (timestampMs : Option Int) :
    Response × DB :=
  match id with
  | none => (.error 400, d)
  | some id =>
    match timestampMs with
    | none => (.error 400, d)
    | some timestampMs =>
      match UpdateKeyframeTimestamp d id timestampMs with
      | (.error e, d1) => if e = .ErrPinnedKeyframe then (.error 403, d1) else (.error 500, d1)
      | (.ok _, d1) => (.noContent, d1)

/-- Handler `handleDeleteKeyframe`. -/
def handleDeleteKeyframe (d : DB) (id : Option Int) : Response × DB :=
  match id with
  | none => (.error 400, d)
  | some id =>
    match DeleteKeyframe d id with
    | (.error e, d1) => if e = .ErrPinnedKeyframe then (.error 403, d1) else (.error 500, d1)
    | (.ok _, d1) => (.noContent, d1)

/-- Handler `handleAddKeyframeLabel`. -/
def handleAddKeyframeLabel (d : DB) (id : Option Int) (name : Option String) :
    Response × DB :=
  match id with
  | none => (.error 400, d)
  | some kfID =>
    match name with
    | none => (.error 400, d)
    | some name =>
      if name = "" then (.error 400, d)
      else
        match FindOrCreateLabel d (TrimSpace name) with
        | (.error _, d1) => (.error 500, d1)
        | (.ok label, d1) =>
          match AddKeyframeLabel d1 kfID label.ID with
          | (.error _, d2) => (.error 500, d2)
          | (.ok _, d2) => (.json 201 (.label label), d2)

/-- Handler `handleRemoveKeyframeLabel`. -/
def handleRemoveKeyframeLabel (d : DB) (id lid : Option Int) : Response × DB :=
  match id with
  | none => (.error 400, d)
  | some kfID =>
    match lid with
    | none => (.error 400, d)
    | some labelID =>
      match RemoveKeyframeLabel d kfID labelID with
      | (.error _, d1) => (.error 500, d1)
      | (.ok _, d1) => (.noContent, d1)

/-- Handler `handleUpdateKeyframeDescription`. -/
def handleUpdateKeyframeDescription (d : DB) (id : Option Int)
    (description : Option String) : Response × DB :=
  match id with
  | none => (.error 400, d)
  | some id =>
    match description with
    | none => (.error 400, d)
    | some description =>
      match UpdateKeyframeDescription d id description with
      | (.error _, d1) => (.error 500, d1)
      | (.ok _, d1) => (.noContent, d1)

/-- Handler `handleSearchLabels`. -/
def handleSearchLabels (d : DB) (q : String) : Response × DB :=
  if q = "" then (.json 200 (.labels []), d)
  else
    match SearchLabels d q with
    | .error _ => (.error 500, d)
    | .ok labels => (.json 200 (.labels labels), d)

/-- The routes of `Server.routes`: each request goes to its handler. -/
def Server.handle (s : Server) (wd : Option String) (d : DB) (now : Nat) :
    Request → Response × DB
  | .index => handleIndex d
  | .viewFile id => handleViewFile d id
  | .serveMedia path => (handleServeMedia wd s path, d)
  | .addFileLabel id name => handleAddFileLabel d id name
  | .removeFileLabel id lid => handleRemoveFileLabel d id lid
  | .updateFileDescription id description => handleUpdateFileDescription d now id description
  | .createKeyframe id timestampMs => handleCreateKeyframe d id timestampMs
  | .updateKeyframe id timestampMs => handleUpdateKeyframe d id timestampMs
  | .deleteKeyframe id => handleDeleteKeyframe d id
  | .addKeyframeLabel id name => handleAddKeyframeLabel d id name
  | .removeKeyframeLabel id lid => handleRemoveKeyframeLabel d id lid
  | .updateKeyframeDescription id description => handleUpdateKeyframeDescription d id description
  | .searchLabels q => handleSearchLabels d q

/-- Go struct `scanner.File`. -/
structure File where
  Path : String
  MediaType : String
  deriving DecidableEq, Repr

/-- The loop of `startServer` over the scanned files: each is upserted. -/
def upsertScanned (d : DB) (now : Nat) (files : List File) : DB :=
  files.foldl (fun d f => (UpsertMediaFile d now f.Path f.MediaType).2) d

/-- What happens to the store of a running installation: a start of the
program, which feeds the scanned files to the store, or a request. -/
inductive Event where
  | startup (now : Nat) (files : List File)
  | request (now : Nat) (r : Request)
  deriving DecidableEq, Repr

/-- The database after an event. -/
def Event.run (s : Server) (wd : Option String) (d : DB) : Event → DB
  | .startup now files => upsertScanned d now files
  | .request now r => (s.handle wd d now r).2

/-- The database after a sequence of events, from left to right. -/
def runEvents (s : Server) (wd : Option String) (d : DB) (events : List Event) : DB :=
  events.foldl (Event.run s wd) d

/-- States reachable from the freshly migrated empty database through starts of
the program and requests. -/
inductive Served (s : Server) (wd : Option String) : DB → Prop where
  | empty : Served s wd DB.empty
  | step {d : DB} (e : Event) : Served s wd d → Served s wd (e.run s wd d)

/-! ## Schema constraints and invariants -/

/-- The uniqueness constraints of the schema: the primary keys of the five
relations and the UNIQUE columns `media_files.path` and `labels.name`. -/
def DB.Valid (d : DB) : Prop :=
  (d.media_files.map (fun m => m.ID)).Nodup ∧
  (d.media_files.map (fun m => m.Path)).Nodup ∧
  (d.labels.map (fun l => l.ID)).Nodup ∧
  (d.labels.map (fun l => l.Name)).Nodup ∧
  (d.keyframes.map (fun k => k.ID)).Nodup ∧
  d.media_labels.Nodup ∧
  d.keyframe_labels.Nodup

instance DB.decidableValid (d : DB) : Decidable d.Valid := by
  unfold DB.Valid; infer_instance

/-- Number of pinned keyframes of a media file (the count that
`EnsurePinnedKeyframe` selects). -/
def pinnedCount (d : DB) (mediaFileID : Int) : Nat :=
  (d.keyframes.filter (fun k => k.MediaFileID == mediaFileID && k.Pinned == true)).length

/-- The pinned-keyframe invariant: at most one pinned keyframe per media file,
and every pinned keyframe sits at `timestamp_ms = 0`. -/
def PinnedInv (d : DB) : Prop :=
  (∀ f : Int, pinnedCount d f ≤ 1) ∧
  (∀ k ∈ d.keyframes, k.Pinned = true → k.TimestampMs = 0)

/-- Every pinned keyframe belongs to a stored media file of type video or
audio. -/
def PinnedTemporal (d : DB) : Prop :=
  ∀ k ∈ d.keyframes, k.Pinned = true →
    ∃ m ∈ d.media_files, m.ID = k.MediaFileID ∧ (m.MediaType = "video" ∨ m.MediaType = "audio")

/-- No stored keyframe has a negative timestamp. -/
def NonnegTimestamps (d : DB) : Prop := ∀ k ∈ d.keyframes, 0 ≤ k.TimestampMs

/-- The timestamp an operation stores, if it stores one, is not negative. -/
def Op.timestampNonneg : Op → Prop
  | .createKeyframe _ t => 0 ≤ t
  | .updateKeyframeTimestamp _ t => 0 ≤ t
  | _ => True

/-- The timestamp decoded from the body of the request, if there is one, is not
negative. -/
def Request.timestampNonneg : Request → Prop
  | .createKeyframe _ (some t) => 0 ≤ t
  | .updateKeyframe _ (some t) => 0 ≤ t
  | _ => True

/-- The event carries no negative timestamp. -/
def Event.timestampNonneg : Event → Prop
  | .startup _ _ => True
  | .request _ r => r.timestampNonneg

instance Op.decidableTimestampNonneg (op : Op) : Decidable op.timestampNonneg := by
  cases op <;> unfold Op.timestampNonneg <;> infer_instance

instance Request.decidableTimestampNonneg (r : Request) : Decidable r.timestampNonneg := by
  unfold Request.timestampNonneg
  split <;> infer_instance

instance Event.decidableTimestampNonneg (e : Event) : Decidable e.timestampNonneg := by
  cases e <;> unfold Event.timestampNonneg <;> infer_instance

/-! ## Notions of the specification -/

/-- The 1-based rank of `p` among `paths` as the specification words it: the
position of `p` in the ascending byte-wise ordering of all paths, counted
from 1. -/
def rankOf (paths : List String) (p : String) : Nat :=
  (paths.insertionSort (fun a b => a ≤ b)).indexOf p + 1

/-- The text `value` starts with `query` when the case of ASCII letters is
ignored: character by character, the two agree after the letters A to Z are
turned into lower case. -/
def startsWithIgnoreAsciiCase : List Char → List Char → Bool
  | [], _ => true
  | _ :: _, [] => false
  | c :: q, v :: s => c.toLower == v.toLower && startsWithIgnoreAsciiCase q s

/-- The row of `keyframes` from which a loaded keyframe was read. -/
def Keyframe.row (k : Keyframe) : KeyframeRow :=
  { ID := k.ID, MediaFileID := k.MediaFileID, TimestampMs := k.TimestampMs,
    Description := k.Description, Pinned := k.Pinned }

/-- A proper path element: not empty, not `.`, not `..`, without a slash. -/
def properElem (e : List Char) : Prop :=
  e ≠ [] ∧ e ≠ ['.'] ∧ e ≠ ['.', '.'] ∧ '/' ∉ e

/-- The elements of a path: its non-empty parts between slashes. -/
def pathElems (p : String) : List (List Char) :=
  (p.toList.splitOn '/').filter (fun e => e != [])

/-- The path `name` is the directory `root` or lies below it: the elements of
`root` are the first elements of `name`. -/
def isWithin (root name : String) : Bool := (pathElems root).isPrefixOf (pathElems name)

/-- The characters of the absolute path with the given elements. -/
def renderAbs (elems : List (List Char)) : List Char := '/' :: ['/'].intercalate elems

/-! ## Example states -/

/-- A catalogue of three files discovered in the order b, c, a, with one label
and two keyframes on the video. -/
def exampleDB : DB :=
  { media_files :=
      [{ ID := 1, Path := "b", MediaType := "image", Description := "", CreatedAt := 0,
         UpdatedAt := 0 },
       { ID := 2, Path := "c", MediaType := "video", Description := "", CreatedAt := 0,
         UpdatedAt := 0 },
       { ID := 3, Path := "a", MediaType := "audio", Description := "", CreatedAt := 0,
         UpdatedAt := 0 }],
    labels := [{ ID := 1, Name := "Apple" }],
    media_labels := [(1, 1)],
    keyframes :=
      [{ ID := 1, MediaFileID := 2, TimestampMs := 0, Description := "", Pinned := true },
       { ID := 2, MediaFileID := 2, TimestampMs := 1500, Description := "", Pinned := false }],
    keyframe_labels := [(2, 1)],
    seq_media_files := 3, seq_labels := 1, seq_keyframes := 2 }

/-- A fresh store after the scan discovered one video. -/
def videoDB : DB := runOps DB.empty [.upsertMediaFile 0 "v.mp4" "video"]

/-- A session on a fresh store: a video is discovered and viewed twice, a
keyframe is added, the client tries to move and to delete the pinned keyframe,
and moves the other one. -/
def exampleSession : List Op :=
  [.upsertMediaFile 0 "v.mp4" "video",
   .ensurePinnedKeyframe 1,
   .ensurePinnedKeyframe 1,
   .createKeyframe 1 500,
   .updateKeyframeTimestamp 1 99,
   .deleteKeyframe 1,
   .updateKeyframeTimestamp 2 700]

/-- A store with thirteen labels, created in no particular order; twelve of
them start with the letter t in either case. -/
def twelveLabelsDB : DB :=
  { DB.empty with
    labels :=
      [{ ID := 1, Name := "t07" }, { ID := 2, Name := "t02" }, { ID := 3, Name := "t11" },
       { ID := 4, Name := "t01" }, { ID := 5, Name := "T12" }, { ID := 6, Name := "t05" },
       { ID := 7, Name := "t03" }, { ID := 8, Name := "t10" }, { ID := 9, Name := "t04" },
       { ID := 10, Name := "t09" }, { ID := 11, Name := "t06" }, { ID := 12, Name := "t08" },
       { ID := 13, Name := "u" }],
    seq_labels := 13 }

/-- A query of 50000 bytes: the letter a, 50000 times. -/
def longQuery : String := String.mk (List.replicate 50000 'a')

/-- A query of 50000 bytes that the label "Apple" matches: "Apple", a NUL (where
LIKE stops reading its pattern) and the letter z 49994 times. -/
def longAppleQuery : String := "Apple\x00" ++ String.mk (List.replicate 49994 'z')

/-- A server whose media root is `/srv/media`. -/
def exampleServer : Server := { mediaRoot := "/srv/media" }

/-- A start that discovers one video and one image, a view of each, and a
request that creates a keyframe at a negative timestamp on the video. -/
def negativeTimestampEvents : List Event :=
  [.startup 0 [{ Path := "v.mp4", MediaType := "video" }, { Path := "p.png", MediaType := "image" }],
   .request 1 (.viewFile (some 1)),
   .request 2 (.viewFile (some 2)),
   .request 3 (.createKeyframe (some 1) (some (-5)))]

/-- A start that discovers one video and one image, a view of each, and requests
that create and move a keyframe on each. -/
def exampleEvents : List Event :=
  [.startup 0 [{ Path := "v.mp4", MediaType := "video" }, { Path := "p.png", MediaType := "image" }],
   .request 1 (.viewFile (some 1)),
   .request 2 (.viewFile (some 2)),
   .request 3 (.createKeyframe (some 1) (some 1500)),
   .request 4 (.createKeyframe (some 2) (some 20)),
   .request 5 (.updateKeyframe (some 2) (some 30)),
   .request 6 (.updateKeyframe (some 1) (some 40))]

/-! ## Basic facts -/

theorem le_maxRowid (ids : List Int) (x : Int) (h : x ∈ ids) : x ≤ maxRowid ids := by
  induction ids with
  | nil => cases h
  | cons a t ih =>
    simp only [maxRowid, List.foldr_cons]
    rcases List.mem_cons.mp h with rfl | h
    · exact le_max_left _ _
    · exact le_trans (ih h) (le_max_right _ _)

theorem lt_newRowid (seq : Int) (ids : List Int) (x : Int) (h : x ∈ ids) :
    x < newRowid seq ids := by
  have := le_maxRowid ids x h
  unfold newRowid
  have := le_max_right seq (maxRowid ids)
  omega

theorem newRowid_not_mem (seq : Int) (ids : List Int) : newRowid seq ids ∉ ids := by
  intro h
  exact lt_irrefl _ (lt_newRowid seq ids _ h)

theorem nodup_map_append_singleton {α β : Type} (f : α → β) (l : List α) (x : α)
    (h : (l.map f).Nodup) (hx : ∀ y ∈ l, f y ≠ f x) : ((l ++ [x]).map f).Nodup := by
  rw [List.map_append, List.nodup_append]
  refine ⟨h, by simp, ?_⟩
  intro b hb hb'
  simp only [List.map_cons, List.map_nil, List.mem_singleton] at hb'
  obtain ⟨y, hy, rfl⟩ := List.mem_map.mp hb
  exact hx y hy hb'

theorem nodup_map_filter {α β : Type} (f : α → β) (p : α → Bool) (l : List α)
    (h : (l.map f).Nodup) : ((l.filter p).map f).Nodup :=
  h.sublist ((List.filter_sublist l).map f)

theorem eq_of_mem_of_key_eq {α β : Type} (f : α → β) (l : List α)
    (h : (l.map f).Nodup) {x y : α} (hx : x ∈ l) (hy : y ∈ l) (hxy : f x = f y) : x = y :=
  List.inj_on_of_nodup_map h hx hy hxy

theorem find?_key_of_mem {α β : Type} [DecidableEq β] (f : α → β) (l : List α)
    (h : (l.map f).Nodup) {x : α} (hx : x ∈ l) :
    l.find? (fun y => f y == f x) = some x := by
  induction l with
  | nil => cases hx
  | cons a t ih =>
    rw [List.map_cons, List.nodup_cons] at h
    rcases List.mem_cons.mp hx with rfl | hx'
    · simp
    · have hne : f a ≠ f x := by
        intro he
        exact h.1 (he ▸ List.mem_map_of_mem f hx')
      rw [List.find?_cons_of_neg _ (by simpa using hne)]
      exact ih h.2 hx'

theorem map_update_key {α β : Type} (f : α → β) (g : α → α) (l : List α)
    (hg : ∀ x, f (g x) = f x) : (l.map g).map f = l.map f := by
  rw [List.map_map]
  exact List.map_congr_left (fun x _ => hg x)

/-! ## The schema constraints hold in every reachable state -/

theorem UpsertMediaFile_valid (d : DB) (now : Nat) (path mediaType : String)
    (hv : d.Valid) : (UpsertMediaFile d now path mediaType).2.Valid := by
  obtain ⟨h1, h2, h3, h4, h5, h6, h7⟩ := hv
  unfold UpsertMediaFile
  split
  · exact ⟨h1, h2, h3, h4, h5, h6, h7⟩
  · rename_i hany
    refine ⟨?_, ?_, h3, h4, h5, h6, h7⟩
    · apply nodup_map_append_singleton _ _ _ h1
      intro y hy he
      have he' : y.ID = newRowid d.seq_media_files (d.media_files.map (fun m => m.ID)) := he
      exact newRowid_not_mem d.seq_media_files (d.media_files.map (fun m => m.ID))
        (he' ▸ List.mem_map_of_mem (fun m => m.ID) hy)
    · apply nodup_map_append_singleton _ _ _ h2
      intro y hy he
      apply hany
      simp only [List.any_eq_true, beq_iff_eq]
      exact ⟨y, hy, he⟩

theorem UpdateDescription_valid (d : DB) (now : Nat) (id : Int) (description : String)
    (hv : d.Valid) : (UpdateDescription d now id description).2.Valid := by
  obtain ⟨h1, h2, h3, h4, h5, h6, h7⟩ := hv
  have e1 : ∀ (g : MediaFile → MediaFile), (∀ x, (g x).ID = x.ID) →
      ((d.media_files.map g).map (fun m => m.ID)) = d.media_files.map (fun m => m.ID) :=
    fun g hg => map_update_key (fun m => m.ID) g _ hg
  have e2 : ∀ (g : MediaFile → MediaFile), (∀ x, (g x).Path = x.Path) →
      ((d.media_files.map g).map (fun m => m.Path)) = d.media_files.map (fun m => m.Path) :=
    fun g hg => map_update_key (fun m => m.Path) g _ hg
  have k1 := e1 (fun m => if m.ID = id then
      { m with Description := description, UpdatedAt := now } else m)
    (by intro x; by_cases hx : x.ID = id <;> simp [hx])
  have k2 := e2 (fun m => if m.ID = id then
      { m with Description := description, UpdatedAt := now } else m)
    (by intro x; by_cases hx : x.ID = id <;> simp [hx])
  unfold UpdateDescription
  dsimp only
  split
  · exact ⟨k1 ▸ h1, k2 ▸ h2, h3, h4, h5, h6, h7⟩
  · exact ⟨k1 ▸ h1, k2 ▸ h2, h3, h4, h5, h6, h7⟩

theorem insertKeyframe_valid (d : DB) (f t : Int) (pinned : Bool)
    (hv : d.Valid) : (insertKeyframe d f t pinned).2.Valid := by
  obtain ⟨h1, h2, h3, h4, h5, h6, h7⟩ := hv
  unfold insertKeyframe
  split
  · refine ⟨h1, h2, h3, h4, ?_, h6, h7⟩
    apply nodup_map_append_singleton _ _ _ h5
    intro y hy he
    have he' : y.ID = newRowid d.seq_keyframes (d.keyframes.map (fun k => k.ID)) := he
    exact newRowid_not_mem d.seq_keyframes (d.keyframes.map (fun k => k.ID))
      (he' ▸ List.mem_map_of_mem (fun k => k.ID) hy)
  · exact ⟨h1, h2, h3, h4, h5, h6, h7⟩

theorem EnsurePinnedKeyframe_snd (d : DB) (f : Int) :
    (EnsurePinnedKeyframe d f).2 = d ∨
    (EnsurePinnedKeyframe d f).2 = (insertKeyframe d f 0 true).2 := by
  by_cases hc : (d.keyframes.filter
      (fun k => k.MediaFileID == f && k.Pinned == true)).length > 0
  · left
    simp only [EnsurePinnedKeyframe, hc, if_true]
  · right
    simp only [EnsurePinnedKeyframe, hc, if_false]
    rcases insertKeyframe d f 0 true with ⟨r, d'⟩
    cases r <;> rfl

theorem CreateKeyframe_snd (d : DB) (f t : Int) :
    (CreateKeyframe d f t).2 = (insertKeyframe d f t false).2 := by
  unfold CreateKeyframe
  rcases insertKeyframe d f t false with ⟨r, d'⟩
  cases r <;> rfl

theorem UpdateKeyframeTimestamp_valid (d : DB) (id t : Int)
    (hv : d.Valid) : (UpdateKeyframeTimestamp d id t).2.Valid := by
  obtain ⟨h1, h2, h3, h4, h5, h6, h7⟩ := hv
  have k := map_update_key (fun k : KeyframeRow => k.ID)
    (fun k => if k.ID = id then { k with TimestampMs := t } else k) d.keyframes
    (by intro x; by_cases hx : x.ID = id <;> simp [hx])
  unfold UpdateKeyframeTimestamp
  split
  · exact ⟨h1, h2, h3, h4, h5, h6, h7⟩
  · split
    · exact ⟨h1, h2, h3, h4, h5, h6, h7⟩
    · exact ⟨h1, h2, h3, h4, k ▸ h5, h6, h7⟩

theorem UpdateKeyframeDescription_valid (d : DB) (id : Int) (description : String)
    (hv : d.Valid) : (UpdateKeyframeDescription d id description).2.Valid := by
  obtain ⟨h1, h2, h3, h4, h5, h6, h7⟩ := hv
  have k := map_update_key (fun k : KeyframeRow => k.ID)
    (fun k => if k.ID = id then { k with Description := description } else k) d.keyframes
    (by intro x; by_cases hx : x.ID = id <;> simp [hx])
  unfold UpdateKeyframeDescription
  dsimp only
  split
  · exact ⟨h1, h2, h3, h4, k ▸ h5, h6, h7⟩
  · exact ⟨h1, h2, h3, h4, k ▸ h5, h6, h7⟩

theorem DeleteKeyframe_valid (d : DB) (id : Int)
    (hv : d.Valid) : (DeleteKeyframe d id).2.Valid := by
  obtain ⟨h1, h2, h3, h4, h5, h6, h7⟩ := hv
  unfold DeleteKeyframe
  split
  · exact ⟨h1, h2, h3, h4, h5, h6, h7⟩
  · split
    · exact ⟨h1, h2, h3, h4, h5, h6, h7⟩
    · exact ⟨h1, h2, h3, h4, nodup_map_filter _ _ _ h5, h6, h7.filter _⟩

theorem FindOrCreateLabel_snd (d : DB) (name : String) :
    (FindOrCreateLabel d name).2 =
      (if d.labels.any (fun l => l.Name == name) then
        { d with seq_labels := newRowid d.seq_labels (d.labels.map (fun l => l.ID)) }
      else
        { d with
          labels := d.labels ++
            [{ ID := newRowid d.seq_labels (d.labels.map (fun l => l.ID)), Name := name }],
          seq_labels := newRowid d.seq_labels (d.labels.map (fun l => l.ID)) }) := by
  unfold FindOrCreateLabel
  dsimp only
  split <;> rfl

theorem FindOrCreateLabel_valid (d : DB) (name : String)
    (hv : d.Valid) : (FindOrCreateLabel d name).2.Valid := by
  obtain ⟨h1, h2, h3, h4, h5, h6, h7⟩ := hv
  rw [FindOrCreateLabel_snd]
  split
  · exact ⟨h1, h2, h3, h4, h5, h6, h7⟩
  · rename_i hany
    refine ⟨h1, h2, ?_, ?_, h5, h6, h7⟩
    · apply nodup_map_append_singleton _ _ _ h3
      intro y hy he
      have he' : y.ID = newRowid d.seq_labels (d.labels.map (fun l => l.ID)) := he
      exact newRowid_not_mem d.seq_labels (d.labels.map (fun l => l.ID))
        (he' ▸ List.mem_map_of_mem (fun l => l.ID) hy)
    · apply nodup_map_append_singleton _ _ _ h4
      intro y hy he
      apply hany
      simp only [List.any_eq_true, beq_iff_eq]
      exact ⟨y, hy, he⟩

theorem nodup_append_singleton {α : Type} (l : List α) (x : α)
    (h : l.Nodup) (hx : x ∉ l) : (l ++ [x]).Nodup := by
  have := nodup_map_append_singleton id l x (by simpa using h)
    (fun y hy he => hx ((show y = x from he) ▸ hy))
  simpa using this

theorem AddMediaLabel_valid (d : DB) (f l : Int)
    (hv : d.Valid) : (AddMediaLabel d f l).2.Valid := by
  obtain ⟨h1, h2, h3, h4, h5, h6, h7⟩ := hv
  unfold AddMediaLabel
  split
  · exact ⟨h1, h2, h3, h4, h5, h6, h7⟩
  · rename_i hany
    split
    · refine ⟨h1, h2, h3, h4, h5, nodup_append_singleton _ _ h6 ?_, h7⟩
      intro hm
      apply hany
      simp only [List.any_eq_true, Bool.and_eq_true, beq_iff_eq]
      exact ⟨(f, l), hm, rfl, rfl⟩
    · exact ⟨h1, h2, h3, h4, h5, h6, h7⟩

theorem AddKeyframeLabel_valid (d : DB) (k l : Int)
    (hv : d.Valid) : (AddKeyframeLabel d k l).2.Valid := by
  obtain ⟨h1, h2, h3, h4, h5, h6, h7⟩ := hv
  unfold AddKeyframeLabel
  split
  · exact ⟨h1, h2, h3, h4, h5, h6, h7⟩
  · rename_i hany
    split
    · refine ⟨h1, h2, h3, h4, h5, h6, nodup_append_singleton _ _ h7 ?_⟩
      intro hm
      apply hany
      simp only [List.any_eq_true, Bool.and_eq_true, beq_iff_eq]
      exact ⟨(k, l), hm, rfl, rfl⟩
    · exact ⟨h1, h2, h3, h4, h5, h6, h7⟩

theorem Op.run_valid (d : DB) (op : Op) (hv : d.Valid) : (op.run d).Valid := by
  cases op with
  | upsertMediaFile now path mediaType => exact UpsertMediaFile_valid d now path mediaType hv
  | updateDescription now id description => exact UpdateDescription_valid d now id description hv
  | ensurePinnedKeyframe f =>
    show (EnsurePinnedKeyframe d f).2.Valid
    rcases EnsurePinnedKeyframe_snd d f with h | h <;> rw [h]
    · exact hv
    · exact insertKeyframe_valid d f 0 true hv
  | createKeyframe f t =>
    show (CreateKeyframe d f t).2.Valid
    rw [CreateKeyframe_snd]
    exact insertKeyframe_valid d f t false hv
  | updateKeyframeTimestamp id t => exact UpdateKeyframeTimestamp_valid d id t hv
  | updateKeyframeDescription id description =>
    exact UpdateKeyframeDescription_valid d id description hv
  | deleteKeyframe id => exact DeleteKeyframe_valid d id hv
  | findOrCreateLabel name => exact FindOrCreateLabel_valid d name hv
  | addMediaLabel f l => exact AddMediaLabel_valid d f l hv
  | removeMediaLabel f l =>
    obtain ⟨h1, h2, h3, h4, h5, h6, h7⟩ := hv
    exact ⟨h1, h2, h3, h4, h5, h6.filter _, h7⟩
  | addKeyframeLabel k l => exact AddKeyframeLabel_valid d k l hv
  | removeKeyframeLabel k l =>
    obtain ⟨h1, h2, h3, h4, h5, h6, h7⟩ := hv
    exact ⟨h1, h2, h3, h4, h5, h6, h7.filter _⟩

theorem Reachable.valid {d : DB} (h : Reachable d) : d.Valid := by
  induction h with
  | empty => decide
  | step op _ ih => exact Op.run_valid _ op ih

/-! ## UpsertMediaFile -/

theorem filter_key_of_mem {α β : Type} [DecidableEq β] (f : α → β) (l : List α)
    (h : (l.map f).Nodup) {x : α} (hx : x ∈ l) :
    l.filter (fun y => f y == f x) = [x] := by
  induction l with
  | nil => cases hx
  | cons a t ih =>
    rw [List.map_cons, List.nodup_cons] at h
    rcases List.mem_cons.mp hx with rfl | hx'
    · have hnone : t.filter (fun y => f y == f x) = [] := by
        rw [List.filter_eq_nil_iff]
        intro y hy hyx
        exact h.1 ((beq_iff_eq.mp hyx) ▸ List.mem_map_of_mem f hy)
      simp [List.filter_cons, hnone]
    · have hne : f a ≠ f x := by
        intro he
        exact h.1 (he ▸ List.mem_map_of_mem f hx')
      rw [List.filter_cons_of_neg (by simpa using hne)]
      exact ih h.2 hx'

theorem UpsertMediaFile_of_seen (d : DB) (now : Nat) (p t : String)
    (h : ∃ m ∈ d.media_files, m.Path = p) :
    UpsertMediaFile d now p t =
      (.ok (),
       { d with
         seq_media_files := newRowid d.seq_media_files (d.media_files.map (fun m => m.ID)) }) := by
  have hany : (d.media_files.any (fun m => m.Path == p)) = true := by
    simpa only [List.any_eq_true, beq_iff_eq] using h
  simp only [UpsertMediaFile, hany, if_true]

theorem UpsertMediaFile_of_unseen (d : DB) (now : Nat) (p t : String)
    (h : ∀ m ∈ d.media_files, m.Path ≠ p) :
    UpsertMediaFile d now p t =
      (.ok (), { d with
        media_files := d.media_files ++
          [{ ID := newRowid d.seq_media_files (d.media_files.map (fun m => m.ID)),
             Path := p, MediaType := t, Description := "", CreatedAt := now, UpdatedAt := now }],
        seq_media_files := newRowid d.seq_media_files (d.media_files.map (fun m => m.ID)) }) := by
  have hany : (d.media_files.any (fun m => m.Path == p)) = false := by
    rw [Bool.eq_false_iff]
    simp only [ne_eq, List.any_eq_true, beq_iff_eq, not_exists, not_and]
    exact h
  simp [UpsertMediaFile, hany]

/-- C1, the claim as stated fails in its last clause: in the example catalogue
the second call for the path "b" leaves every row in place but not the store:
the engine draws a rowid before it finds the conflict, so the entry of
`media_files` in `sqlite_sequence` goes from 4 to 5, and the file "z"
discovered afterwards gets the id 6, where it gets the id 5 after the first
call alone. -/
theorem UpsertMediaFile_idempotent_counterexample :
    (UpsertMediaFile (UpsertMediaFile exampleDB 7 "b" "video").2 8 "b" "audio").2
      ≠ (UpsertMediaFile exampleDB 7 "b" "video").2 ∧
    (UpsertMediaFile exampleDB 7 "b" "video").2.seq_media_files = 4 ∧
    (UpsertMediaFile (UpsertMediaFile exampleDB 7 "b" "video").2 8 "b" "audio").2.seq_media_files
      = 5 ∧
    ((UpsertMediaFile (UpsertMediaFile exampleDB 7 "b" "video").2 9 "z" "image").2.media_files.filter
      (fun m => m.Path == "z")).map (fun m => m.ID) = [5] ∧
    ((UpsertMediaFile (UpsertMediaFile (UpsertMediaFile exampleDB 7 "b" "video").2
        8 "b" "audio").2 9 "z" "image").2.media_files.filter
      (fun m => m.Path == "z")).map (fun m => m.ID) = [6] := by
  decide

/-- C1 as amended: for every store state, path `p` and media types `t1`, `t2`:
the call `UpsertMediaFile(p, t2)` made after `UpsertMediaFile(p, t1)` returns no
error and changes no row: all five relations are as the first call left them,
and so are the rowid counters of `labels` and `keyframes`, while the rowid
counter of `media_files` does not go back; afterwards exactly one record has
path `p`, it is the record that was there after the first call (same id, media
type and description), its media type is `t1` when `p` was unseen before the
first call, and it is the record already stored when `p` was seen before. -/
theorem UpsertMediaFile_idempotent (d : DB) (hv : d.Valid) (now1 now2 : Nat)
    (p t1 t2 : String) :
    (UpsertMediaFile (UpsertMediaFile d now1 p t1).2 now2 p t2).1 = .ok () ∧
    (UpsertMediaFile (UpsertMediaFile d now1 p t1).2 now2 p t2).2.seq_labels
      = (UpsertMediaFile d now1 p t1).2.seq_labels ∧
    (UpsertMediaFile (UpsertMediaFile d now1 p t1).2 now2 p t2).2.seq_keyframes
      = (UpsertMediaFile d now1 p t1).2.seq_keyframes ∧
    (UpsertMediaFile d now1 p t1).2.seq_media_files
      ≤ (UpsertMediaFile (UpsertMediaFile d now1 p t1).2 now2 p t2).2.seq_media_files ∧
    (UpsertMediaFile (UpsertMediaFile d now1 p t1).2 now2 p t2).2.media_files
      = (UpsertMediaFile d now1 p t1).2.media_files ∧
    (UpsertMediaFile (UpsertMediaFile d now1 p t1).2 now2 p t2).2.labels
      = (UpsertMediaFile d now1 p t1).2.labels ∧
    (UpsertMediaFile (UpsertMediaFile d now1 p t1).2 now2 p t2).2.media_labels
      = (UpsertMediaFile d now1 p t1).2.media_labels ∧
    (UpsertMediaFile (UpsertMediaFile d now1 p t1).2 now2 p t2).2.keyframes
      = (UpsertMediaFile d now1 p t1).2.keyframes ∧
    (UpsertMediaFile (UpsertMediaFile d now1 p t1).2 now2 p t2).2.keyframe_labels
      = (UpsertMediaFile d now1 p t1).2.keyframe_labels ∧
    ∃ m : MediaFile,
      (UpsertMediaFile (UpsertMediaFile d now1 p t1).2 now2 p t2).2.media_files.filter
        (fun x => x.Path == p) = [m] ∧
      (UpsertMediaFile d now1 p t1).2.media_files.filter (fun x => x.Path == p) = [m] ∧
      ((∀ x ∈ d.media_files, x.Path ≠ p) → m.MediaType = t1) ∧
      ((∃ x ∈ d.media_files, x.Path = p) → m ∈ d.media_files) := by
  have hv1 := UpsertMediaFile_valid d now1 p t1 hv
  have hseen1 : ∃ m ∈ (UpsertMediaFile d now1 p t1).2.media_files, m.Path = p := by
    by_cases h : ∃ m ∈ d.media_files, m.Path = p
    · rw [UpsertMediaFile_of_seen d now1 p t1 h]
      exact h
    · have h' : ∀ m ∈ d.media_files, m.Path ≠ p := by
        intro m hm he
        exact h ⟨m, hm, he⟩
      rw [UpsertMediaFile_of_unseen d now1 p t1 h']
      exact ⟨_, List.mem_append_right _ (List.mem_singleton_self _), rfl⟩
  rw [UpsertMediaFile_of_seen _ now2 p t2 hseen1]
  refine ⟨rfl, rfl, rfl, ?_, rfl, rfl, rfl, rfl, rfl, ?_⟩
  · show (UpsertMediaFile d now1 p t1).2.seq_media_files
      ≤ newRowid (UpsertMediaFile d now1 p t1).2.seq_media_files _
    unfold newRowid
    have := le_max_left (UpsertMediaFile d now1 p t1).2.seq_media_files
      (maxRowid ((UpsertMediaFile d now1 p t1).2.media_files.map (fun m => m.ID)))
    omega
  obtain ⟨m, hm, hmp⟩ := hseen1
  have hf := filter_key_of_mem (fun x : MediaFile => x.Path) _ hv1.2.1 hm
  simp only [hmp] at hf
  refine ⟨m, hf, hf, ?_, ?_⟩
  · intro hun
    rw [UpsertMediaFile_of_unseen d now1 p t1 hun] at hm
    rcases List.mem_append.mp hm with h | h
    · exact absurd hmp (hun m h)
    · rw [List.mem_singleton.mp h]
  · intro hs
    rw [UpsertMediaFile_of_seen d now1 p t1 hs] at hm
    exact hm

/-- Witness for amended C1: the catalogue a, b, c, rediscovering "b" first as a
video and then as an audio file. -/
theorem UpsertMediaFile_idempotent_witness :
    exampleDB.Valid ∧
    (UpsertMediaFile (UpsertMediaFile exampleDB 7 "b" "video").2 8 "b" "audio").2.media_files
      = exampleDB.media_files ∧
    ∃ m : MediaFile,
      (UpsertMediaFile (UpsertMediaFile exampleDB 7 "b" "video").2 8 "b" "audio").2.media_files.filter
        (fun x => x.Path == "b") = [m] ∧ m.MediaType = "image" :=
  ⟨by decide,
   (UpsertMediaFile_idempotent exampleDB (by decide) 7 8 "b" "video" "audio").2.2.2.2.1.trans
     (by decide),
   ⟨{ ID := 1, Path := "b", MediaType := "image", Description := "", CreatedAt := 0,
      UpdatedAt := 0 }, by decide, by decide⟩⟩

/-! ## Pinned keyframes -/

theorem GetKeyframe_of_mem (d : DB) (hv : d.Valid) (k : KeyframeRow) (hk : k ∈ d.keyframes) :
    GetKeyframe d k.ID =
      some { ID := k.ID, MediaFileID := k.MediaFileID, TimestampMs := k.TimestampMs,
             Description := k.Description, Pinned := k.Pinned,
             Labels := LabelsForKeyframe d k.ID } := by
  have h := find?_key_of_mem (fun x : KeyframeRow => x.ID) d.keyframes hv.2.2.2.2.1 hk
  simp only at h
  simp only [GetKeyframe, h]

theorem GetKeyframe_eq_some (d : DB) (id : Int) (kf : Keyframe)
    (h : GetKeyframe d id = some kf) :
    ∃ k ∈ d.keyframes, k.ID = id ∧ kf.Pinned = k.Pinned ∧ kf.TimestampMs = k.TimestampMs := by
  unfold GetKeyframe at h
  split at h
  · cases h
  · rename_i k hfind
    have hm := List.mem_of_find?_eq_some hfind
    have hid := List.find?_some hfind
    simp only [beq_iff_eq] at hid
    cases h
    exact ⟨k, hm, hid, rfl, rfl⟩

/-- C2: for every store state and every keyframe whose record is pinned, both
`UpdateKeyframeTimestamp(id, t)` (for every `t`) and `DeleteKeyframe(id)` return
`ErrPinnedKeyframe` and leave the whole database unchanged; in particular the
keyframe is still there, pinned, with its original `timestamp_ms`. -/
theorem pinned_keyframe_protected (d : DB) (hv : d.Valid) (k : KeyframeRow)
    (hk : k ∈ d.keyframes) (hp : k.Pinned = true) (t : Int) :
    UpdateKeyframeTimestamp d k.ID t = (.error .ErrPinnedKeyframe, d) ∧
    DeleteKeyframe d k.ID = (.error .ErrPinnedKeyframe, d) ∧
    (∃ kf, GetKeyframe (UpdateKeyframeTimestamp d k.ID t).2 k.ID = some kf ∧
      kf.TimestampMs = k.TimestampMs ∧ kf.Pinned = true) ∧
    (∃ kf, GetKeyframe (DeleteKeyframe d k.ID).2 k.ID = some kf ∧
      kf.TimestampMs = k.TimestampMs ∧ kf.Pinned = true) := by
  have hg := GetKeyframe_of_mem d hv k hk
  have h1 : UpdateKeyframeTimestamp d k.ID t = (.error .ErrPinnedKeyframe, d) := by
    simp only [UpdateKeyframeTimestamp, hg, hp, if_true]
  have h2 : DeleteKeyframe d k.ID = (.error .ErrPinnedKeyframe, d) := by
    simp only [DeleteKeyframe, hg, hp, if_true]
  refine ⟨h1, h2, ?_, ?_⟩
  · rw [h1]
    exact ⟨_, hg, rfl, hp⟩
  · rw [h2]
    exact ⟨_, hg, rfl, hp⟩

/-- Witness for C2: the pinned keyframe 1 of the example catalogue. -/
theorem pinned_keyframe_protected_witness :
    exampleDB.Valid ∧
    UpdateKeyframeTimestamp exampleDB 1 2500 = (.error .ErrPinnedKeyframe, exampleDB) ∧
    DeleteKeyframe exampleDB 1 = (.error .ErrPinnedKeyframe, exampleDB) :=
  ⟨by decide,
   (pinned_keyframe_protected exampleDB (by decide)
     { ID := 1, MediaFileID := 2, TimestampMs := 0, Description := "", Pinned := true }
     (by decide) rfl 2500).1,
   (pinned_keyframe_protected exampleDB (by decide)
     { ID := 1, MediaFileID := 2, TimestampMs := 0, Description := "", Pinned := true }
     (by decide) rfl 2500).2.1⟩

theorem insertKeyframe_of_exists (d : DB) (f t : Int) (pinned : Bool)
    (hf : ∃ m ∈ d.media_files, m.ID = f) :
    insertKeyframe d f t pinned =
      (.ok (newRowid d.seq_keyframes (d.keyframes.map (fun k => k.ID))),
       { d with
         keyframes := d.keyframes ++
           [{ ID := newRowid d.seq_keyframes (d.keyframes.map (fun k => k.ID)),
              MediaFileID := f, TimestampMs := t, Description := "", Pinned := pinned }],
         seq_keyframes := newRowid d.seq_keyframes (d.keyframes.map (fun k => k.ID)) }) := by
  have hany : (d.media_files.any (fun m => m.ID == f)) = true := by
    simpa only [List.any_eq_true, beq_iff_eq] using hf
  simp only [insertKeyframe, hany, if_true]

theorem insertKeyframe_of_missing (d : DB) (f t : Int) (pinned : Bool)
    (hf : ∀ m ∈ d.media_files, m.ID ≠ f) :
    insertKeyframe d f t pinned = (.error .ForeignKey, d) := by
  have hany : (d.media_files.any (fun m => m.ID == f)) = false := by
    rw [Bool.eq_false_iff]
    simp only [ne_eq, List.any_eq_true, beq_iff_eq, not_exists, not_and]
    exact hf
  simp [insertKeyframe, hany]

theorem insertKeyframe_pinnedInv (d : DB) (f t : Int) (pinned : Bool)
    (hi : PinnedInv d) (hp : pinned = true → t = 0 ∧ pinnedCount d f = 0) :
    PinnedInv (insertKeyframe d f t pinned).2 := by
  by_cases hf : ∃ m ∈ d.media_files, m.ID = f
  · rw [insertKeyframe_of_exists d f t pinned hf]
    constructor
    · intro g
      have hg := hi.1 g
      simp only [pinnedCount, List.filter_append, List.length_append] at hg ⊢
      by_cases hc : (f == g && pinned == true) = true
      · simp only [Bool.and_eq_true, beq_iff_eq] at hc
        have h0 := (hp hc.2).2
        rw [hc.1] at h0
        simp only [pinnedCount] at h0
        have hlast := List.length_filter_le
          (fun k : KeyframeRow => k.MediaFileID == g && k.Pinned == true)
          [{ ID := newRowid d.seq_keyframes (d.keyframes.map (fun k => k.ID)),
             MediaFileID := f, TimestampMs := t, Description := "", Pinned := pinned }]
        simp only [List.length_singleton] at hlast
        omega
      · simp only [List.filter_cons, hc, List.filter_nil]
        simpa using hg
    · intro k hk hkp
      rcases List.mem_append.mp hk with h | h
      · exact hi.2 k h hkp
      · rw [List.mem_singleton.mp h] at hkp ⊢
        exact (hp hkp).1
  · have hf' : ∀ m ∈ d.media_files, m.ID ≠ f := fun m hm he => hf ⟨m, hm, he⟩
    rw [insertKeyframe_of_missing d f t pinned hf']
    exact hi

theorem EnsurePinnedKeyframe_pinnedInv (d : DB) (f : Int) (hi : PinnedInv d) :
    PinnedInv (EnsurePinnedKeyframe d f).2 := by
  by_cases hc : pinnedCount d f > 0
  · have : (EnsurePinnedKeyframe d f).2 = d := by
      simp only [pinnedCount] at hc
      simp only [EnsurePinnedKeyframe, hc, if_true]
    rw [this]
    exact hi
  · rcases EnsurePinnedKeyframe_snd d f with h | h <;> rw [h]
    · exact hi
    · apply insertKeyframe_pinnedInv d f 0 true hi
      intro _
      exact ⟨rfl, by omega⟩

theorem UpdateKeyframeTimestamp_pinnedInv (d : DB) (id t : Int) (hv : d.Valid)
    (hi : PinnedInv d) : PinnedInv (UpdateKeyframeTimestamp d id t).2 := by
  unfold UpdateKeyframeTimestamp
  split
  · exact hi
  · rename_i kf hget
    split
    · exact hi
    · rename_i hnp
      obtain ⟨k0, hk0, hid0, hp0, _⟩ := GetKeyframe_eq_some d id kf hget
      have hunp : ∀ x ∈ d.keyframes, x.ID = id → x.Pinned = false := by
        intro x hx hxid
        have : x = k0 :=
          eq_of_mem_of_key_eq (fun k : KeyframeRow => k.ID) d.keyframes hv.2.2.2.2.1 hx hk0
            (hxid.trans hid0.symm)
        rw [this, ← hp0]
        simpa using hnp
      constructor
      · intro g
        have hg := hi.1 g
        simp only [pinnedCount] at hg ⊢
        rw [List.filter_map, List.length_map]
        have : ((fun k : KeyframeRow => k.MediaFileID == g && k.Pinned == true) ∘
            (fun k : KeyframeRow => if k.ID = id then { k with TimestampMs := t } else k)) =
            (fun k : KeyframeRow => k.MediaFileID == g && k.Pinned == true) := by
          funext x
          by_cases hx : x.ID = id <;> simp [hx]
        rw [this]
        exact hg
      · intro k hk hkp
        obtain ⟨x, hx, rfl⟩ := List.mem_map.mp hk
        by_cases hxid : x.ID = id
        · simp only [hxid, if_true] at hkp
          rw [hunp x hx hxid] at hkp
          cases hkp
        · simp only [hxid, if_false] at hkp ⊢
          exact hi.2 x hx hkp

theorem UpdateKeyframeDescription_pinnedInv (d : DB) (id : Int) (description : String)
    (hi : PinnedInv d) : PinnedInv (UpdateKeyframeDescription d id description).2 := by
  have key : PinnedInv { d with keyframes := d.keyframes.map (fun k =>
      if k.ID = id then { k with Description := description } else k) } := by
    constructor
    · intro g
      have hg := hi.1 g
      simp only [pinnedCount] at hg ⊢
      rw [List.filter_map, List.length_map]
      have : ((fun k : KeyframeRow => k.MediaFileID == g && k.Pinned == true) ∘
          (fun k : KeyframeRow => if k.ID = id then { k with Description := description }
            else k)) =
          (fun k : KeyframeRow => k.MediaFileID == g && k.Pinned == true) := by
        funext x
        by_cases hx : x.ID = id <;> simp [hx]
      rw [this]
      exact hg
    · intro k hk hkp
      obtain ⟨x, hx, rfl⟩ := List.mem_map.mp hk
      by_cases hxid : x.ID = id
      · simp only [hxid, if_true] at hkp ⊢
        exact hi.2 x hx hkp
      · simp only [hxid, if_false] at hkp ⊢
        exact hi.2 x hx hkp
  unfold UpdateKeyframeDescription
  dsimp only
  split
  · exact key
  · exact key

theorem DeleteKeyframe_pinnedInv (d : DB) (id : Int)
    (hi : PinnedInv d) : PinnedInv (DeleteKeyframe d id).2 := by
  unfold DeleteKeyframe
  split
  · exact hi
  · split
    · exact hi
    · constructor
      · intro g
        have hg := hi.1 g
        simp only [pinnedCount] at hg ⊢
        have hsub : (List.filter (fun k : KeyframeRow => k.MediaFileID == g && k.Pinned == true)
            (List.filter (fun k => !(k.ID == id)) d.keyframes)).Sublist
            (List.filter (fun k : KeyframeRow => k.MediaFileID == g && k.Pinned == true)
              d.keyframes) :=
          (List.filter_sublist _).filter _
        exact le_trans hsub.length_le hg
      · intro k hk hkp
        exact hi.2 k (List.mem_of_mem_filter hk) hkp

theorem PinnedInv_of_keyframes_eq (d d' : DB) (h : d'.keyframes = d.keyframes)
    (hi : PinnedInv d) : PinnedInv d' := by
  unfold PinnedInv pinnedCount at *
  rw [h]
  exact hi

theorem Op.run_pinnedInv (d : DB) (op : Op) (hv : d.Valid) (hi : PinnedInv d) :
    PinnedInv (op.run d) := by
  cases op with
  | upsertMediaFile now path mediaType =>
    apply PinnedInv_of_keyframes_eq d _ _ hi
    show (UpsertMediaFile d now path mediaType).2.keyframes = d.keyframes
    unfold UpsertMediaFile
    dsimp only
    split <;> rfl
  | updateDescription now id description =>
    apply PinnedInv_of_keyframes_eq d _ _ hi
    show (UpdateDescription d now id description).2.keyframes = d.keyframes
    unfold UpdateDescription
    dsimp only
    split <;> rfl
  | ensurePinnedKeyframe f => exact EnsurePinnedKeyframe_pinnedInv d f hi
  | createKeyframe f t =>
    show PinnedInv (CreateKeyframe d f t).2
    rw [CreateKeyframe_snd]
    exact insertKeyframe_pinnedInv d f t false hi (by intro h; cases h)
  | updateKeyframeTimestamp id t => exact UpdateKeyframeTimestamp_pinnedInv d id t hv hi
  | updateKeyframeDescription id description =>
    exact UpdateKeyframeDescription_pinnedInv d id description hi
  | deleteKeyframe id => exact DeleteKeyframe_pinnedInv d id hi
  | findOrCreateLabel name =>
    apply PinnedInv_of_keyframes_eq d _ _ hi
    show (FindOrCreateLabel d name).2.keyframes = d.keyframes
    rw [FindOrCreateLabel_snd]
    split <;> rfl
  | addMediaLabel f l =>
    apply PinnedInv_of_keyframes_eq d _ _ hi
    show (AddMediaLabel d f l).2.keyframes = d.keyframes
    unfold AddMediaLabel
    split
    · rfl
    · split <;> rfl
  | removeMediaLabel f l => exact PinnedInv_of_keyframes_eq d _ rfl hi
  | addKeyframeLabel k l =>
    apply PinnedInv_of_keyframes_eq d _ _ hi
    show (AddKeyframeLabel d k l).2.keyframes = d.keyframes
    unfold AddKeyframeLabel
    split
    · rfl
    · split <;> rfl
  | removeKeyframeLabel k l => exact PinnedInv_of_keyframes_eq d _ rfl hi

theorem Reachable.pinnedInv {d : DB} (h : Reachable d) : PinnedInv d := by
  induction h with
  | empty =>
    constructor
    · intro f
      simp [pinnedCount, DB.empty]
    · intro k hk
      cases hk
  | step op hr ih => exact Op.run_pinnedInv _ op hr.valid ih

theorem reachable_runOps (d : DB) (ops : List Op) (h : Reachable d) :
    Reachable (runOps d ops) := by
  induction ops generalizing d with
  | nil => exact h
  | cons op rest ih => exact ih (op.run d) (Reachable.step op h)

theorem pinnedCount_eq_zero_iff (d : DB) (f : Int) :
    pinnedCount d f = 0 ↔ ∀ k ∈ d.keyframes, k.MediaFileID = f → k.Pinned = false := by
  simp only [pinnedCount, List.length_eq_zero, List.filter_eq_nil_iff, Bool.and_eq_true,
    beq_iff_eq, not_and, Bool.not_eq_true]

theorem EnsurePinnedKeyframe_of_pinned (d : DB) (f : Int) (h : 0 < pinnedCount d f) :
    EnsurePinnedKeyframe d f = (.ok (), d) := by
  simp only [pinnedCount] at h
  simp only [EnsurePinnedKeyframe, gt_iff_lt, h, if_true]

theorem EnsurePinnedKeyframe_of_unpinned (d : DB) (f : Int) (h : pinnedCount d f = 0)
    (hf : ∃ m ∈ d.media_files, m.ID = f) :
    EnsurePinnedKeyframe d f =
      (.ok (),
       { d with
         keyframes := d.keyframes ++
           [{ ID := newRowid d.seq_keyframes (d.keyframes.map (fun k => k.ID)),
              MediaFileID := f, TimestampMs := 0, Description := "", Pinned := true }],
         seq_keyframes := newRowid d.seq_keyframes (d.keyframes.map (fun k => k.ID)) }) := by
  simp only [pinnedCount] at h
  simp only [EnsurePinnedKeyframe, h, gt_iff_lt, lt_irrefl, if_false,
    insertKeyframe_of_exists d f 0 true hf]

theorem EnsurePinnedKeyframe_pinnedCount_pos (d : DB) (f : Int)
    (hf : ∃ m ∈ d.media_files, m.ID = f) :
    0 < pinnedCount (EnsurePinnedKeyframe d f).2 f := by
  by_cases h : 0 < pinnedCount d f
  · rw [EnsurePinnedKeyframe_of_pinned d f h]
    exact h
  · rw [EnsurePinnedKeyframe_of_unpinned d f (by omega) hf]
    simp [pinnedCount, List.filter_append]

/-- C3: in every reachable store state, for every existing media file id `f`:
when `f` has no pinned keyframe, `EnsurePinnedKeyframe(f)` succeeds and the new
state is the old one with exactly one more keyframe row, owned by `f`, with
`timestamp_ms = 0`, `pinned = true`, the default description and a fresh id
(and the rowid counter of `keyframes` set to that id); when `f` has a pinned
keyframe the call succeeds and changes nothing.  Hence a second call changes
nothing, and after the call `f` has exactly one pinned keyframe. -/
theorem EnsurePinnedKeyframe_once (d : DB) (hr : Reachable d) (f : Int)
    (hf : ∃ m ∈ d.media_files, m.ID = f) :
    ((∀ k ∈ d.keyframes, k.MediaFileID = f → k.Pinned = false) →
      ∃ id : Int, (∀ k ∈ d.keyframes, k.ID ≠ id) ∧
        EnsurePinnedKeyframe d f =
          (.ok (),
           { d with
             keyframes := d.keyframes ++
               [{ ID := id, MediaFileID := f, TimestampMs := 0, Description := "",
                  Pinned := true }],
             seq_keyframes := id })) ∧
    ((∃ k ∈ d.keyframes, k.MediaFileID = f ∧ k.Pinned = true) →
      EnsurePinnedKeyframe d f = (.ok (), d)) ∧
    EnsurePinnedKeyframe (EnsurePinnedKeyframe d f).2 f
      = (.ok (), (EnsurePinnedKeyframe d f).2) ∧
    ((EnsurePinnedKeyframe d f).2.keyframes.filter
      (fun k => k.MediaFileID == f && k.Pinned == true)).length = 1 := by
  refine ⟨?_, ?_, ?_, ?_⟩
  · intro hnone
    refine ⟨newRowid d.seq_keyframes (d.keyframes.map (fun k => k.ID)), ?_, ?_⟩
    · intro k hk he
      exact newRowid_not_mem d.seq_keyframes (d.keyframes.map (fun k => k.ID))
        (he ▸ List.mem_map_of_mem (fun k => k.ID) hk)
    · exact EnsurePinnedKeyframe_of_unpinned d f ((pinnedCount_eq_zero_iff d f).mpr hnone) hf
  · intro hsome
    apply EnsurePinnedKeyframe_of_pinned
    rcases Nat.eq_zero_or_pos (pinnedCount d f) with h0 | hpos
    · obtain ⟨k, hk, hkf, hkp⟩ := hsome
      have := (pinnedCount_eq_zero_iff d f).mp h0 k hk hkf
      rw [hkp] at this
      cases this
    · exact hpos
  · exact EnsurePinnedKeyframe_of_pinned _ f (EnsurePinnedKeyframe_pinnedCount_pos d f hf)
  · have hle := (Reachable.step (.ensurePinnedKeyframe f) hr).pinnedInv.1 f
    have hpos := EnsurePinnedKeyframe_pinnedCount_pos d f hf
    have hle' : pinnedCount (EnsurePinnedKeyframe d f).2 f ≤ 1 := hle
    simp only [pinnedCount] at hle' hpos
    omega

/-- Witness for C3: the first and the second view of a freshly scanned video. -/
theorem EnsurePinnedKeyframe_once_witness :
    Reachable videoDB ∧
    (∃ m ∈ videoDB.media_files, m.ID = 1) ∧
    EnsurePinnedKeyframe (EnsurePinnedKeyframe videoDB 1).2 1
      = (.ok (), (EnsurePinnedKeyframe videoDB 1).2) ∧
    ((EnsurePinnedKeyframe videoDB 1).2.keyframes.filter
      (fun k => k.MediaFileID == 1 && k.Pinned == true)).length = 1 :=
  ⟨reachable_runOps _ _ .empty, by decide,
   (EnsurePinnedKeyframe_once videoDB (reachable_runOps _ _ .empty) 1 (by decide)).2.2⟩

/-- C4: in every store state reachable from the freshly migrated empty store by
a sequence of store operations, every media file has at most one keyframe with
`pinned = true`, and every pinned keyframe has `timestamp_ms = 0`. -/
theorem pinned_invariant_reachable (d : DB) (hr : Reachable d) :
    (∀ f : Int, (d.keyframes.filter
      (fun k => k.MediaFileID == f && k.Pinned == true)).length ≤ 1) ∧
    (∀ k ∈ d.keyframes, k.Pinned = true → k.TimestampMs = 0) :=
  hr.pinnedInv

/-- Witness for C4: the state after the example session. -/
theorem pinned_invariant_reachable_witness :
    Reachable (runOps DB.empty exampleSession) ∧
    (runOps DB.empty exampleSession).keyframes =
      [{ ID := 1, MediaFileID := 1, TimestampMs := 0, Description := "", Pinned := true },
       { ID := 2, MediaFileID := 1, TimestampMs := 700, Description := "", Pinned := false }] ∧
    (∀ f : Int, ((runOps DB.empty exampleSession).keyframes.filter
      (fun k => k.MediaFileID == f && k.Pinned == true)).length ≤ 1) ∧
    (∀ k ∈ (runOps DB.empty exampleSession).keyframes, k.Pinned = true → k.TimestampMs = 0) :=
  ⟨reachable_runOps _ _ .empty, by decide,
   pinned_invariant_reachable _ (reachable_runOps _ _ .empty)⟩

/-! ## Ordering clauses -/

theorem orderByAsc_perm {α κ : Type} [LE κ] [DecidableRel (fun (a b : κ) => a ≤ b)]
    (key : α → κ) (l : List α) : (orderByAsc key l).Perm l :=
  List.perm_insertionSort _ l

theorem orderByDesc_perm {α κ : Type} [LE κ] [DecidableRel (fun (a b : κ) => a ≤ b)]
    (key : α → κ) (l : List α) : (orderByDesc key l).Perm l :=
  List.perm_insertionSort _ l

theorem orderByAsc_sorted {α κ : Type} [LinearOrder κ] [DecidableRel (fun (a b : κ) => a ≤ b)]
    (key : α → κ) (l : List α) :
    (orderByAsc key l).Pairwise (fun a b => key a ≤ key b) := by
  have hT : IsTotal α (fun a b => key a ≤ key b) := ⟨fun a b => le_total (key a) (key b)⟩
  have hR : IsTrans α (fun a b => key a ≤ key b) := ⟨fun _ _ _ h1 h2 => le_trans h1 h2⟩
  exact List.sorted_insertionSort (fun a b => key a ≤ key b) l

theorem orderByDesc_sorted {α κ : Type} [LinearOrder κ] [DecidableRel (fun (a b : κ) => a ≤ b)]
    (key : α → κ) (l : List α) :
    (orderByDesc key l).Pairwise (fun a b => key b ≤ key a) := by
  have hT : IsTotal α (fun a b => key b ≤ key a) := ⟨fun a b => le_total (key b) (key a)⟩
  have hR : IsTrans α (fun a b => key b ≤ key a) := ⟨fun _ _ _ h1 h2 => le_trans h2 h1⟩
  exact List.sorted_insertionSort (fun a b => key b ≤ key a) l

theorem orderByAsc_head?_some {α κ : Type} [LinearOrder κ]
    [DecidableRel (fun (a b : κ) => a ≤ b)] (key : α → κ) (l : List α) (x : α)
    (h : (orderByAsc key l).head? = some x) : x ∈ l ∧ ∀ y ∈ l, key x ≤ key y := by
  have hs := orderByAsc_sorted key l
  have hp := orderByAsc_perm key l
  cases hl : orderByAsc key l with
  | nil => rw [hl] at h; cases h
  | cons a t =>
    rw [hl] at h hs hp
    cases h
    refine ⟨hp.subset (List.mem_cons_self _ _), ?_⟩
    intro y hy
    rcases List.mem_cons.mp (hp.symm.subset hy) with rfl | hyt
    · exact le_refl _
    · exact List.rel_of_pairwise_cons hs hyt

theorem orderByDesc_head?_some {α κ : Type} [LinearOrder κ]
    [DecidableRel (fun (a b : κ) => a ≤ b)] (key : α → κ) (l : List α) (x : α)
    (h : (orderByDesc key l).head? = some x) : x ∈ l ∧ ∀ y ∈ l, key y ≤ key x := by
  have hs := orderByDesc_sorted key l
  have hp := orderByDesc_perm key l
  cases hl : orderByDesc key l with
  | nil => rw [hl] at h; cases h
  | cons a t =>
    rw [hl] at h hs hp
    cases h
    refine ⟨hp.subset (List.mem_cons_self _ _), ?_⟩
    intro y hy
    rcases List.mem_cons.mp (hp.symm.subset hy) with rfl | hyt
    · exact le_refl _
    · exact List.rel_of_pairwise_cons hs hyt

theorem orderByAsc_head?_none {α κ : Type} [LE κ] [DecidableRel (fun (a b : κ) => a ≤ b)]
    (key : α → κ) (l : List α) (h : (orderByAsc key l).head? = none) : l = [] := by
  have hp := orderByAsc_perm key l
  rw [List.head?_eq_none_iff.mp h] at hp
  exact hp.symm.eq_nil

theorem orderByDesc_head?_none {α κ : Type} [LE κ] [DecidableRel (fun (a b : κ) => a ≤ b)]
    (key : α → κ) (l : List α) (h : (orderByDesc key l).head? = none) : l = [] := by
  have hp := orderByDesc_perm key l
  rw [List.head?_eq_none_iff.mp h] at hp
  exact hp.symm.eq_nil

/-! ## GetNavigation -/

theorem GetNavigation_of_mem (d : DB) (hv : d.Valid) (m : MediaFile)
    (hm : m ∈ d.media_files) :
    GetNavigation d m.ID = .ok
      { PrevID := prevID d.media_files m.Path,
        NextID := nextID d.media_files m.Path,
        Index := (d.media_files.filter (fun x => x.Path ≤ m.Path)).length,
        TotalCount := d.media_files.length } := by
  have h := find?_key_of_mem (fun x : MediaFile => x.ID) d.media_files hv.1 hm
  simp only at h
  simp only [GetNavigation, h, Option.map]

theorem GetNavigation_of_missing (d : DB) (id : Int) (h : ∀ m ∈ d.media_files, m.ID ≠ id) :
    GetNavigation d id = .error .ErrNoRows := by
  have hnone : d.media_files.find? (fun m => m.ID == id) = none := by
    rw [List.find?_eq_none]
    intro x hx
    simpa using h x hx
  simp only [GetNavigation, hnone, Option.map]

theorem prevID_of_first (files : List MediaFile)
    (hnd : (files.map (fun m => m.Path)).Nodup) (p : String)
    (hfirst : ∀ y ∈ files, p ≤ y.Path) (z : MediaFile) (hz : z ∈ files)
    (hmax : ∀ y ∈ files, y.Path ≤ z.Path) : prevID files p = z.ID := by
  have hnil : files.filter (fun m => m.Path < p) = [] := by
    rw [List.filter_eq_nil_iff]
    intro y hy
    simpa using hfirst y hy
  have h1 : (orderByDesc (fun m : MediaFile => m.Path) ([] : List MediaFile)).head? = none := rfl
  unfold prevID
  rw [hnil, h1]
  cases h2 : (orderByDesc (fun m : MediaFile => m.Path) files).head? with
  | none =>
    rw [orderByDesc_head?_none _ _ h2] at hz
    cases hz
  | some x =>
    obtain ⟨hx, hxmax⟩ := orderByDesc_head?_some _ _ _ h2
    have : x = z := eq_of_mem_of_key_eq (fun m : MediaFile => m.Path) files hnd hx hz
      (le_antisymm (hmax x hx) (hxmax z hz))
    simp only [this]

theorem nextID_of_last (files : List MediaFile)
    (hnd : (files.map (fun m => m.Path)).Nodup) (p : String)
    (hlast : ∀ y ∈ files, y.Path ≤ p) (a : MediaFile) (ha : a ∈ files)
    (hmin : ∀ y ∈ files, a.Path ≤ y.Path) : nextID files p = a.ID := by
  have hnil : files.filter (fun m => p < m.Path) = [] := by
    rw [List.filter_eq_nil_iff]
    intro y hy
    simpa using hlast y hy
  have h1 : (orderByAsc (fun m : MediaFile => m.Path) ([] : List MediaFile)).head? = none := rfl
  unfold nextID
  rw [hnil, h1]
  cases h2 : (orderByAsc (fun m : MediaFile => m.Path) files).head? with
  | none =>
    rw [orderByAsc_head?_none _ _ h2] at ha
    cases ha
  | some x =>
    obtain ⟨hx, hxmin⟩ := orderByAsc_head?_some _ _ _ h2
    have : x = a := eq_of_mem_of_key_eq (fun m : MediaFile => m.Path) files hnd hx ha
      (le_antisymm (hxmin a ha) (hmin x hx))
    simp only [this]

theorem prevID_of_not_first (files : List MediaFile) (p : String)
    (h : ∃ y ∈ files, y.Path < p) :
    ∃ x ∈ files, prevID files p = x.ID ∧ x.Path < p ∧
      ∀ y ∈ files, y.Path < p → y.Path ≤ x.Path := by
  unfold prevID
  cases h1 : (orderByDesc (fun m : MediaFile => m.Path)
      (files.filter (fun m => m.Path < p))).head? with
  | none =>
    obtain ⟨y, hy, hyp⟩ := h
    have hnil := orderByDesc_head?_none _ _ h1
    have : y ∈ files.filter (fun m => m.Path < p) :=
      List.mem_filter.mpr ⟨hy, by simpa using hyp⟩
    rw [hnil] at this
    cases this
  | some x =>
    obtain ⟨hx, hxmax⟩ := orderByDesc_head?_some _ _ _ h1
    rw [List.mem_filter] at hx
    refine ⟨x, hx.1, rfl, by simpa using hx.2, ?_⟩
    intro y hy hyp
    exact hxmax y (List.mem_filter.mpr ⟨hy, by simpa using hyp⟩)

theorem nextID_of_not_last (files : List MediaFile) (p : String)
    (h : ∃ y ∈ files, p < y.Path) :
    ∃ x ∈ files, nextID files p = x.ID ∧ p < x.Path ∧
      ∀ y ∈ files, p < y.Path → x.Path ≤ y.Path := by
  unfold nextID
  cases h1 : (orderByAsc (fun m : MediaFile => m.Path)
      (files.filter (fun m => p < m.Path))).head? with
  | none =>
    obtain ⟨y, hy, hyp⟩ := h
    have hnil := orderByAsc_head?_none _ _ h1
    have : y ∈ files.filter (fun m => p < m.Path) :=
      List.mem_filter.mpr ⟨hy, by simpa using hyp⟩
    rw [hnil] at this
    cases this
  | some x =>
    obtain ⟨hx, hxmin⟩ := orderByAsc_head?_some _ _ _ h1
    rw [List.mem_filter] at hx
    refine ⟨x, hx.1, rfl, by simpa using hx.2, ?_⟩
    intro y hy hyp
    exact hxmin y (List.mem_filter.mpr ⟨hy, by simpa using hyp⟩)

/-- C5: for every non-empty catalogue, with `a` the file of lexically smallest
path and `z` the file of lexically greatest path: `GetNavigation(a.ID)` returns
`PrevID = z.ID` and `GetNavigation(z.ID)` returns `NextID = a.ID`; when exactly
one file exists, `GetNavigation` on it returns `PrevID = NextID =` its own id. -/
theorem GetNavigation_wraps (d : DB) (hv : d.Valid) (a z : MediaFile)
    (ha : a ∈ d.media_files) (hz : z ∈ d.media_files)
    (hmin : ∀ m ∈ d.media_files, a.Path ≤ m.Path)
    (hmax : ∀ m ∈ d.media_files, m.Path ≤ z.Path) :
    (∃ nav, GetNavigation d a.ID = .ok nav ∧ nav.PrevID = z.ID) ∧
    (∃ nav, GetNavigation d z.ID = .ok nav ∧ nav.NextID = a.ID) ∧
    (d.media_files.length = 1 →
      ∃ nav, GetNavigation d a.ID = .ok nav ∧ nav.PrevID = a.ID ∧ nav.NextID = a.ID) := by
  refine ⟨⟨_, GetNavigation_of_mem d hv a ha, ?_⟩, ⟨_, GetNavigation_of_mem d hv z hz, ?_⟩, ?_⟩
  · exact prevID_of_first d.media_files hv.2.1 a.Path hmin z hz hmax
  · exact nextID_of_last d.media_files hv.2.1 z.Path hmax a ha hmin
  · intro hone
    obtain ⟨x, hx⟩ := List.length_eq_one.mp hone
    have hax : a = x := by rw [hx] at ha; exact List.mem_singleton.mp ha
    have hzx : z = x := by rw [hx] at hz; exact List.mem_singleton.mp hz
    have haz : z = a := hzx.trans hax.symm
    refine ⟨_, GetNavigation_of_mem d hv a ha, ?_, ?_⟩
    · exact prevID_of_first d.media_files hv.2.1 a.Path hmin a ha (haz ▸ hmax)
    · exact nextID_of_last d.media_files hv.2.1 a.Path (haz ▸ hmax) a ha hmin

/-- Witness for C5: in the catalogue a, b, c (ids 3, 1, 2) the previous file of
"a" is "c" and the next file of "c" is "a". -/
theorem GetNavigation_wraps_witness :
    exampleDB.Valid ∧
    (∃ nav, GetNavigation exampleDB 3 = .ok nav ∧ nav.PrevID = 2) ∧
    (∃ nav, GetNavigation exampleDB 2 = .ok nav ∧ nav.NextID = 3) :=
  ⟨by decide,
   (GetNavigation_wraps exampleDB (by decide)
     { ID := 3, Path := "a", MediaType := "audio", Description := "", CreatedAt := 0,
       UpdatedAt := 0 }
     { ID := 2, Path := "c", MediaType := "video", Description := "", CreatedAt := 0,
       UpdatedAt := 0 }
     (by decide) (by decide) (by decide) (by decide)).1,
   (GetNavigation_wraps exampleDB (by decide)
     { ID := 3, Path := "a", MediaType := "audio", Description := "", CreatedAt := 0,
       UpdatedAt := 0 }
     { ID := 2, Path := "c", MediaType := "video", Description := "", CreatedAt := 0,
       UpdatedAt := 0 }
     (by decide) (by decide) (by decide) (by decide)).2.1⟩

theorem length_filter_le_eq_indexOf (l : List String) (p : String)
    (hs : l.Pairwise (fun a b => a < b)) (hp : p ∈ l) :
    (l.filter (fun x => x ≤ p)).length = l.indexOf p + 1 := by
  induction l with
  | nil => cases hp
  | cons a t ih =>
    rw [List.pairwise_cons] at hs
    by_cases hap : a = p
    · subst hap
      have hnil : t.filter (fun x => x ≤ a) = [] := by
        rw [List.filter_eq_nil_iff]
        intro y hy
        simpa using hs.1 y hy
      rw [List.indexOf_cons_self, List.filter_cons_of_pos (by simp), hnil]
      rfl
    · have hpt : p ∈ t := by
        rcases List.mem_cons.mp hp with h | h
        · exact absurd h.symm hap
        · exact h
      have hlt : a < p := hs.1 p hpt
      rw [List.indexOf_cons_ne _ hap, List.filter_cons_of_pos (by simpa using hlt.le),
        List.length_cons, ih hs.2 hpt]

theorem index_eq_rankOf (files : List MediaFile)
    (hnd : (files.map (fun m => m.Path)).Nodup) (m : MediaFile) (hm : m ∈ files) :
    (files.filter (fun x => x.Path ≤ m.Path)).length
      = rankOf (files.map (fun m => m.Path)) m.Path := by
  unfold rankOf
  have hperm := List.perm_insertionSort (fun (a b : String) => a ≤ b)
    (files.map (fun m => m.Path))
  have hT : IsTotal String (fun a b => a ≤ b) := ⟨fun a b => le_total a b⟩
  have hR : IsTrans String (fun a b => a ≤ b) := ⟨fun _ _ _ h1 h2 => le_trans h1 h2⟩
  have hsorted : List.Pairwise (fun (a b : String) => a ≤ b) _ :=
    List.sorted_insertionSort (fun (a b : String) => a ≤ b) (files.map (fun m => m.Path))
  have hnd' := hperm.nodup_iff.mpr hnd
  have hstrict : List.Pairwise (fun (a b : String) => a < b)
      ((files.map (fun m => m.Path)).insertionSort (fun a b => a ≤ b)) :=
    (hsorted.and hnd').imp (fun h => lt_of_le_of_ne h.1 h.2)
  have hmem : m.Path ∈ (files.map (fun m => m.Path)).insertionSort (fun a b => a ≤ b) :=
    hperm.symm.subset (List.mem_map_of_mem (fun m => m.Path) hm)
  rw [← length_filter_le_eq_indexOf _ _ hstrict hmem]
  rw [(hperm.filter (fun x => x ≤ m.Path)).length_eq, List.filter_map, List.length_map]
  rfl

/-- C6: for every catalogue and every existing file, `GetNavigation` returns
`TotalCount` equal to the number of media files and `Index` equal to the
1-based rank of the file's path in the byte-wise ordering of all paths, with
`1 ≤ Index ≤ TotalCount`; two files with the same index are the same file;
for an id that no media file has, `GetNavigation` returns an error. -/
theorem GetNavigation_index (d : DB) (hv : d.Valid) :
    (∀ m ∈ d.media_files, ∃ nav, GetNavigation d m.ID = .ok nav ∧
      nav.TotalCount = d.media_files.length ∧
      nav.Index = rankOf (d.media_files.map (fun x => x.Path)) m.Path ∧
      1 ≤ nav.Index ∧ nav.Index ≤ nav.TotalCount) ∧
    (∀ m ∈ d.media_files, ∀ m' ∈ d.media_files, ∀ nav nav',
      GetNavigation d m.ID = .ok nav → GetNavigation d m'.ID = .ok nav' →
      nav.Index = nav'.Index → m = m') ∧
    (∀ id : Int, (∀ m ∈ d.media_files, m.ID ≠ id) →
      GetNavigation d id = .error .ErrNoRows) := by
  refine ⟨?_, ?_, ?_⟩
  · intro m hm
    refine ⟨_, GetNavigation_of_mem d hv m hm, rfl, ?_, ?_, ?_⟩
    · exact index_eq_rankOf d.media_files hv.2.1 m hm
    · show 1 ≤ (d.media_files.filter (fun x => x.Path ≤ m.Path)).length
      rw [index_eq_rankOf d.media_files hv.2.1 m hm]
      unfold rankOf
      omega
    · exact List.length_filter_le _ _
  · intro m hm m' hm' nav nav' h h' hidx
    rw [GetNavigation_of_mem d hv m hm] at h
    rw [GetNavigation_of_mem d hv m' hm'] at h'
    cases h
    cases h'
    simp only at hidx
    rw [index_eq_rankOf d.media_files hv.2.1 m hm,
      index_eq_rankOf d.media_files hv.2.1 m' hm'] at hidx
    unfold rankOf at hidx
    have hperm := List.perm_insertionSort (fun (a b : String) => a ≤ b)
      (d.media_files.map (fun m => m.Path))
    have hp : m.Path = m'.Path :=
      (List.indexOf_inj
        (hperm.symm.subset (List.mem_map_of_mem (fun m => m.Path) hm))
        (hperm.symm.subset (List.mem_map_of_mem (fun m => m.Path) hm'))).mp
        (Nat.succ_injective hidx)
    exact eq_of_mem_of_key_eq (fun m : MediaFile => m.Path) d.media_files hv.2.1 hm hm' hp
  · intro id hid
    exact GetNavigation_of_missing d id hid

/-- Witness for C6: in the catalogue a, b, c the file "b" (id 1) has index 2 of
3, and id 9 is unknown. -/
theorem GetNavigation_index_witness :
    exampleDB.Valid ∧
    (∃ nav, GetNavigation exampleDB 1 = .ok nav ∧ nav.TotalCount = 3 ∧ nav.Index = 2) ∧
    GetNavigation exampleDB 9 = .error .ErrNoRows :=
  ⟨by decide,
   by
    obtain ⟨nav, h, ht, hi, _⟩ := (GetNavigation_index exampleDB (by decide)).1
      { ID := 1, Path := "b", MediaType := "image", Description := "", CreatedAt := 0,
        UpdatedAt := 0 } (by decide)
    exact ⟨nav, h, ht.trans (by decide), hi.trans (by decide)⟩,
   (GetNavigation_index exampleDB (by decide)).2.2 9 (by decide)⟩

/-- C7: for every catalogue and every file that is neither the lexically first
nor the lexically last by path, `GetNavigation` returns as `PrevID` the id of
the file with the greatest path strictly smaller than the current path and as
`NextID` the id of the file with the smallest path strictly greater than the
current path. -/
theorem GetNavigation_neighbours (d : DB) (hv : d.Valid) (m : MediaFile)
    (hm : m ∈ d.media_files)
    (hnotfirst : ∃ x ∈ d.media_files, x.Path < m.Path)
    (hnotlast : ∃ x ∈ d.media_files, m.Path < x.Path) :
    ∃ nav, GetNavigation d m.ID = .ok nav ∧
      (∃ p ∈ d.media_files, nav.PrevID = p.ID ∧ p.Path < m.Path ∧
        ∀ x ∈ d.media_files, x.Path < m.Path → x.Path ≤ p.Path) ∧
      (∃ n ∈ d.media_files, nav.NextID = n.ID ∧ m.Path < n.Path ∧
        ∀ x ∈ d.media_files, m.Path < x.Path → n.Path ≤ x.Path) :=
  ⟨_, GetNavigation_of_mem d hv m hm,
   prevID_of_not_first d.media_files m.Path hnotfirst,
   nextID_of_not_last d.media_files m.Path hnotlast⟩

/-- Witness for C7: in the catalogue a, b, c (ids 3, 1, 2) the neighbours of
"b" are "a" and "c". -/
theorem GetNavigation_neighbours_witness :
    exampleDB.Valid ∧
    GetNavigation exampleDB 1 = .ok { PrevID := 3, NextID := 2, Index := 2, TotalCount := 3 } ∧
    ∃ nav, GetNavigation exampleDB 1 = .ok nav ∧
      (∃ p ∈ exampleDB.media_files, nav.PrevID = p.ID ∧ p.Path < "b" ∧
        ∀ x ∈ exampleDB.media_files, x.Path < "b" → x.Path ≤ p.Path) ∧
      (∃ n ∈ exampleDB.media_files, nav.NextID = n.ID ∧ "b" < n.Path ∧
        ∀ x ∈ exampleDB.media_files, "b" < x.Path → n.Path ≤ x.Path) :=
  ⟨by decide, by decide,
   GetNavigation_neighbours exampleDB (by decide)
     { ID := 1, Path := "b", MediaType := "image", Description := "", CreatedAt := 0,
       UpdatedAt := 0 }
     (by decide) (by decide) (by decide)⟩

/-! ## FindOrCreateLabel -/

theorem FindOrCreateLabel_of_seen (d : DB) (hv : d.Valid) (l : Label) (hl : l ∈ d.labels) :
    FindOrCreateLabel d l.Name =
      (.ok l,
       { d with seq_labels := newRowid d.seq_labels (d.labels.map (fun l => l.ID)) }) := by
  have hany : (d.labels.any (fun x => x.Name == l.Name)) = true := by
    simp only [List.any_eq_true, beq_iff_eq]
    exact ⟨l, hl, rfl⟩
  have hfind := find?_key_of_mem (fun x : Label => x.Name) d.labels hv.2.2.2.1 hl
  simp only at hfind
  simp only [FindOrCreateLabel, hany, if_true, hfind]

theorem FindOrCreateLabel_of_unseen (d : DB) (name : String)
    (h : ∀ x ∈ d.labels, x.Name ≠ name) :
    FindOrCreateLabel d name =
      (.ok { ID := newRowid d.seq_labels (d.labels.map (fun l => l.ID)), Name := name },
       { d with
         labels := d.labels ++
           [{ ID := newRowid d.seq_labels (d.labels.map (fun l => l.ID)), Name := name }],
         seq_labels := newRowid d.seq_labels (d.labels.map (fun l => l.ID)) }) := by
  have hany : (d.labels.any (fun x => x.Name == name)) = false := by
    rw [Bool.eq_false_iff]
    simp only [ne_eq, List.any_eq_true, beq_iff_eq, not_exists, not_and]
    exact h
  have hnone : d.labels.find? (fun x => x.Name == name) = none := by
    rw [List.find?_eq_none]
    intro x hx
    simpa using h x hx
  simp [FindOrCreateLabel, hany, List.find?_append, hnone]

theorem filter_ne_append_singleton (l : List Label) (x : Label) (name : String)
    (hx : x.Name = name) :
    (l ++ [x]).filter (fun y => !(y.Name == name)) = l.filter (fun y => !(y.Name == name)) := by
  simp [List.filter_append, List.filter_cons, hx]

theorem FindOrCreateLabel_first (d : DB) (hv : d.Valid) (name : String) :
    ∃ l : Label,
      (FindOrCreateLabel d name).1 = .ok l ∧ l.Name = name ∧
      l ∈ (FindOrCreateLabel d name).2.labels ∧
      (FindOrCreateLabel d name).2.labels.filter (fun x => !(x.Name == name))
        = d.labels.filter (fun x => !(x.Name == name)) ∧
      ((∃ x ∈ d.labels, x.Name = name) → (FindOrCreateLabel d name).2.labels = d.labels) ∧
      ((∀ x ∈ d.labels, x.Name ≠ name) →
        (FindOrCreateLabel d name).2.labels = d.labels ++ [l]) := by
  by_cases h : ∃ x ∈ d.labels, x.Name = name
  · obtain ⟨x, hx, rfl⟩ := h
    rw [FindOrCreateLabel_of_seen d hv x hx]
    exact ⟨x, rfl, rfl, hx, rfl, fun _ => rfl, fun hno => absurd rfl (hno x hx)⟩
  · have h' : ∀ x ∈ d.labels, x.Name ≠ name := fun x hx he => h ⟨x, hx, he⟩
    rw [FindOrCreateLabel_of_unseen d name h']
    refine ⟨_, rfl, rfl, List.mem_append_right _ (List.mem_singleton_self _), ?_,
      fun hs => absurd hs h, fun _ => rfl⟩
    exact filter_ne_append_singleton _ _ name rfl

theorem FindOrCreateLabel_iterate (d : DB) (hv : d.Valid) (name : String) (n : Nat) :
    ((fun s => (FindOrCreateLabel s name).2)^[n + 1] d).Valid ∧
    ((fun s => (FindOrCreateLabel s name).2)^[n + 1] d).labels
      = (FindOrCreateLabel d name).2.labels := by
  induction n with
  | zero => exact ⟨FindOrCreateLabel_valid d name hv, rfl⟩
  | succ n ih =>
    rw [Function.iterate_succ_apply']
    obtain ⟨l, _, hname, hmem, _, _, _⟩ := FindOrCreateLabel_first d hv name
    rw [← ih.2] at hmem
    have hcall := FindOrCreateLabel_of_seen _ ih.1 l hmem
    rw [hname] at hcall
    refine ⟨FindOrCreateLabel_valid _ name ih.1, ?_⟩
    rw [hcall]
    exact ih.2

/-- C8: for every store state and every name, `FindOrCreateLabel(name)` succeeds
and returns a label whose name is exactly `name`; afterwards exactly one row of
`labels` has that name (the returned one), the rows with other names are the
same as before, and when the name was already stored the relation is
unchanged; every further call with the same name returns the same label (the
same id) and leaves the relation `labels` as the first call left it. -/
theorem FindOrCreateLabel_unique (d : DB) (hv : d.Valid) (name : String) :
    ∃ l : Label,
      (FindOrCreateLabel d name).1 = .ok l ∧ l.Name = name ∧
      (FindOrCreateLabel d name).2.labels.filter (fun x => x.Name == name) = [l] ∧
      (FindOrCreateLabel d name).2.labels.filter (fun x => !(x.Name == name))
        = d.labels.filter (fun x => !(x.Name == name)) ∧
      ((∃ x ∈ d.labels, x.Name = name) → (FindOrCreateLabel d name).2.labels = d.labels) ∧
      ((∀ x ∈ d.labels, x.Name ≠ name) →
        (FindOrCreateLabel d name).2.labels = d.labels ++ [l]) ∧
      ∀ n : Nat,
        (FindOrCreateLabel ((fun s => (FindOrCreateLabel s name).2)^[n] d) name).1 = .ok l ∧
        ((fun s => (FindOrCreateLabel s name).2)^[n + 1] d).labels
          = (FindOrCreateLabel d name).2.labels := by
  obtain ⟨l, hres, hname, hmem, hothers, hseen, hunseen⟩ := FindOrCreateLabel_first d hv name
  have hv1 := FindOrCreateLabel_valid d name hv
  have hone := filter_key_of_mem (fun x : Label => x.Name) _ hv1.2.2.2.1 hmem
  simp only [hname] at hone
  refine ⟨l, hres, hname, hone, hothers, hseen, hunseen, ?_⟩
  intro n
  refine ⟨?_, (FindOrCreateLabel_iterate d hv name n).2⟩
  cases n with
  | zero => exact hres
  | succ n =>
    obtain ⟨hvn, hln⟩ := FindOrCreateLabel_iterate d hv name n
    rw [← hln] at hmem
    have hcall := FindOrCreateLabel_of_seen _ hvn l hmem
    rw [hname] at hcall
    rw [hcall]

/-- Witness for C8: creating the label "x" in the example catalogue, which
already holds the label "Apple". -/
theorem FindOrCreateLabel_unique_witness :
    exampleDB.Valid ∧
    (FindOrCreateLabel exampleDB "x").1 = .ok { ID := 2, Name := "x" } ∧
    (FindOrCreateLabel (FindOrCreateLabel exampleDB "x").2 "x").1 = .ok { ID := 2, Name := "x" } ∧
    ∃ l : Label,
      (FindOrCreateLabel exampleDB "x").1 = .ok l ∧ l.Name = "x" ∧
      (FindOrCreateLabel exampleDB "x").2.labels.filter (fun x => x.Name == "x") = [l] :=
  ⟨by decide, by decide, by decide,
   by
    obtain ⟨l, h1, h2, h3, _⟩ := FindOrCreateLabel_unique exampleDB (by decide) "x"
    exact ⟨l, h1, h2, h3⟩⟩

/-! ## SearchLabels -/

theorem SearchLabels_of_short (d : DB) (q : String)
    (hq : (q ++ "%").utf8ByteSize ≤ maxLikePatternLength) :
    SearchLabels d q = .ok ((orderByAsc (fun l => l.Name)
      (d.labels.filter (fun l => like (q ++ "%") l.Name))).take 10) := by
  have hdec : decide (maxLikePatternLength < (q ++ "%").utf8ByteSize) = false :=
    decide_eq_false (Nat.not_lt.mpr hq)
  simp only [SearchLabels, hdec, Bool.false_and, Bool.false_eq_true, if_false]

theorem SearchLabels_of_long (d : DB) (q : String)
    (hq : maxLikePatternLength < (q ++ "%").utf8ByteSize) (hl : d.labels ≠ []) :
    SearchLabels d q = .error .LikePatternTooComplex := by
  have hdec : decide (maxLikePatternLength < (q ++ "%").utf8ByteSize) = true :=
    decide_eq_true hq
  have hne : d.labels.isEmpty = false := by
    cases hd : d.labels with
    | nil => exact absurd hd hl
    | cons a t => rfl
  simp only [SearchLabels, hdec, hne, Bool.not_false, Bool.and_self, if_true]

theorem SearchLabels_eq_ok (d : DB) (q : String) (ls : List Label)
    (h : SearchLabels d q = .ok ls) :
    ls = (orderByAsc (fun l => l.Name)
      (d.labels.filter (fun l => like (q ++ "%") l.Name))).take 10 := by
  unfold SearchLabels at h
  split at h
  · cases h
  · cases h
    rfl

theorem mem_SearchLabels (d : DB) (q : String) (ls : List Label)
    (h : SearchLabels d q = .ok ls) (l : Label) (hl : l ∈ ls) :
    l ∈ d.labels ∧ like (q ++ "%") l.Name = true := by
  rw [SearchLabels_eq_ok d q ls h] at hl
  have h1 := (orderByAsc_perm (fun l : Label => l.Name) _).subset (List.mem_of_mem_take hl)
  exact List.mem_filter.mp h1

theorem utf8ByteSize_go_append (a b : List Char) :
    String.utf8ByteSize.go (a ++ b) = String.utf8ByteSize.go a + String.utf8ByteSize.go b := by
  induction a with
  | nil => simp [String.utf8ByteSize.go]
  | cons c a ih =>
    show String.utf8ByteSize.go (a ++ b) + c.utf8Size
      = (String.utf8ByteSize.go a + c.utf8Size) + String.utf8ByteSize.go b
    rw [ih]
    omega

theorem utf8ByteSize_append (s t : String) :
    (s ++ t).utf8ByteSize = s.utf8ByteSize + t.utf8ByteSize := by
  show String.utf8ByteSize.go (s ++ t).data = _
  rw [String.data_append]
  exact utf8ByteSize_go_append s.data t.data

theorem utf8ByteSize_replicate (n : Nat) (c : Char) :
    (String.mk (List.replicate n c)).utf8ByteSize = n * c.utf8Size := by
  show String.utf8ByteSize.go (List.replicate n c) = _
  induction n with
  | zero => simp [String.utf8ByteSize.go]
  | succ n ih =>
    rw [List.replicate_succ]
    simp only [String.utf8ByteSize.go, ih]
    rw [Nat.succ_mul]

theorem cString_eq_self (s : List Char) (h : ∀ c ∈ s, c ≠ Char.ofNat 0) : cString s = s := by
  unfold cString
  rw [List.takeWhile_eq_self_iff]
  intro c hc
  simpa using h c hc

theorem toLower_eq_of_likeCharEq (c d : Char) (h : likeCharEq c d = true) :
    c.toLower = d.toLower := by
  simp only [likeCharEq, Bool.or_eq_true, beq_iff_eq, Bool.and_eq_true] at h
  rcases h with h | h
  · rw [h]
  · exact h.2

theorem startsWith_of_likeMatch (q s : List Char) (hq : ∀ c ∈ q, c ≠ '%' ∧ c ≠ '_')
    (h : likeMatch (q ++ ['%']) s = true) : startsWithIgnoreAsciiCase q s = true := by
  induction q generalizing s with
  | nil => rfl
  | cons c q ih =>
    have hc := hq c (List.mem_cons_self _ _)
    cases s with
    | nil => simp [likeMatch, hc.1] at h
    | cons v s =>
      simp only [List.cons_append, likeMatch, hc.1, if_false, Bool.and_eq_true,
        Bool.or_eq_true, beq_iff_eq, hc.2, false_or] at h
      simp only [startsWithIgnoreAsciiCase, Bool.and_eq_true, beq_iff_eq]
      exact ⟨toLower_eq_of_likeCharEq c v h.1,
        ih s (fun x hx => hq x (List.mem_cons_of_mem _ hx)) h.2⟩

theorem startsWith_of_takeWhile (p : Char → Bool) (q s : List Char)
    (h : startsWithIgnoreAsciiCase q (s.takeWhile p) = true) :
    startsWithIgnoreAsciiCase q s = true := by
  induction q generalizing s with
  | nil => rfl
  | cons c q ih =>
    cases s with
    | nil => simp [startsWithIgnoreAsciiCase] at h
    | cons v s =>
      by_cases hv : p v = true
      · rw [List.takeWhile_cons_of_pos hv] at h
        simp only [startsWithIgnoreAsciiCase, Bool.and_eq_true] at h ⊢
        exact ⟨h.1, ih s h.2⟩
      · rw [List.takeWhile_cons_of_neg hv] at h
        simp [startsWithIgnoreAsciiCase] at h

/-- C9, the claim as stated fails: in the example catalogue, whose only label
is "Apple", the queries "a" (another case), "_pp" (a LIKE wildcard) and
"Apple" followed by NUL and "zzz" (LIKE stops reading its pattern at NUL) all
return the label "Apple", whose name starts with none of them. -/
theorem SearchLabels_prefix_counterexample :
    (SearchLabels exampleDB "a" = .ok [{ ID := 1, Name := "Apple" }] ∧
      "a".toList.isPrefixOf "Apple".toList = false) ∧
    (SearchLabels exampleDB "_pp" = .ok [{ ID := 1, Name := "Apple" }] ∧
      "_pp".toList.isPrefixOf "Apple".toList = false) ∧
    (SearchLabels exampleDB "Apple\x00zzz" = .ok [{ ID := 1, Name := "Apple" }] ∧
      "Apple\x00zzz".toList.isPrefixOf "Apple".toList = false) := by
  decide

/-- C9 as amended: for every set of stored labels and every query `q` that
contains none of the characters `%`, `_` and NUL, every label returned by
`SearchLabels(q)` (every label of the list, whenever the call returns one) has
a name that starts with `q` when the case of ASCII letters is ignored. -/
theorem SearchLabels_prefix_ignoring_case (d : DB) (q : String)
    (hq : ∀ c ∈ q.toList, c ≠ '%' ∧ c ≠ '_' ∧ c ≠ Char.ofNat 0) :
    ∀ ls, SearchLabels d q = .ok ls →
      ∀ l ∈ ls, startsWithIgnoreAsciiCase q.toList l.Name.toList = true := by
  intro ls hls l hl
  have hlike := (mem_SearchLabels d q ls hls l hl).2
  unfold like at hlike
  have hpat : (q ++ "%").toList = q.toList ++ ['%'] := String.data_append q "%"
  have hnul : ∀ c ∈ q.toList ++ ['%'], c ≠ Char.ofNat 0 := by
    intro c hc
    rcases List.mem_append.mp hc with h | h
    · exact (hq c h).2.2
    · rw [List.mem_singleton.mp h]
      decide
  rw [hpat, cString_eq_self _ hnul] at hlike
  have hstart := startsWith_of_likeMatch q.toList _ (fun c hc => ⟨(hq c hc).1, (hq c hc).2.1⟩)
    hlike
  exact startsWith_of_takeWhile _ _ _ hstart

/-- Witness for amended C9: the query "app" in the example catalogue returns
"Apple". -/
theorem SearchLabels_prefix_ignoring_case_witness :
    (∀ c ∈ "app".toList, c ≠ '%' ∧ c ≠ '_' ∧ c ≠ Char.ofNat 0) ∧
    SearchLabels exampleDB "app" = .ok [{ ID := 1, Name := "Apple" }] ∧
    ∀ l ∈ [({ ID := 1, Name := "Apple" } : Label)],
      startsWithIgnoreAsciiCase "app".toList l.Name.toList = true :=
  ⟨by decide, by decide,
   SearchLabels_prefix_ignoring_case exampleDB "app" (by decide) _ (by decide)⟩

/-- C10, the claim as stated fails: in the example catalogue, whose only label
is "Apple", a query of 50000 bytes makes a pattern of 50001 bytes, which the
engine refuses: `SearchLabels` returns an error and no list of labels, and the
handler answers 500.  This happens for the letter a repeated 50000 times, which
no label matches, and for "Apple" followed by NUL and 49994 letters z, which the
stored label matches (so that one label was to be returned). -/
theorem SearchLabels_first_ten_counterexample :
    (longQuery.utf8ByteSize = 50000 ∧
      SearchLabels exampleDB longQuery = .error .LikePatternTooComplex ∧
      (handleSearchLabels exampleDB longQuery).1 = .error 500) ∧
    (longAppleQuery.utf8ByteSize = 50000 ∧
      (exampleDB.labels.filter (fun l => like (longAppleQuery ++ "%") l.Name)).length = 1 ∧
      SearchLabels exampleDB longAppleQuery = .error .LikePatternTooComplex ∧
      (handleSearchLabels exampleDB longAppleQuery).1 = .error 500) := by
  have hsize1 : longQuery.utf8ByteSize = 50000 := by
    unfold longQuery
    rw [utf8ByteSize_replicate]
    decide
  have hsize2 : longAppleQuery.utf8ByteSize = 50000 := by
    unfold longAppleQuery
    rw [utf8ByteSize_append, utf8ByteSize_replicate]
    decide
  have hlong1 : maxLikePatternLength < (longQuery ++ "%").utf8ByteSize := by
    rw [utf8ByteSize_append, hsize1]
    decide
  have hlong2 : maxLikePatternLength < (longAppleQuery ++ "%").utf8ByteSize := by
    rw [utf8ByteSize_append, hsize2]
    decide
  have hne : exampleDB.labels ≠ [] := by decide
  have herr1 := SearchLabels_of_long exampleDB longQuery hlong1 hne
  have herr2 := SearchLabels_of_long exampleDB longAppleQuery hlong2 hne
  have hq1 : longQuery ≠ "" := by
    intro h
    rw [h] at hsize1
    exact absurd hsize1 (by decide)
  have hq2 : longAppleQuery ≠ "" := by
    intro h
    rw [h] at hsize2
    exact absurd hsize2 (by decide)
  have hcut : cString (longAppleQuery ++ "%").toList = "Apple".toList := rfl
  have hlike : like (longAppleQuery ++ "%") "Apple" = true := by
    unfold like
    rw [hcut]
    decide
  refine ⟨⟨hsize1, herr1, ?_⟩, hsize2, ?_, herr2, ?_⟩
  · simp only [handleSearchLabels, hq1, if_false, herr1]
  · show ([({ ID := 1, Name := "Apple" } : Label)].filter
      (fun l => like (longAppleQuery ++ "%") l.Name)).length = 1
    simp only [List.filter_cons, hlike, if_true, List.filter_nil, List.length_singleton]
  · simp only [handleSearchLabels, hq2, if_false, herr2]

/-- C10 as amended: for every set of stored labels and every query `q` whose
pattern `q+"%"` is at most 50000 bytes long, `SearchLabels` returns a list of
`min(10, n)` labels, where `n` is the number of stored labels matching the
query, hence at most 10; they are in strictly ascending order of name (so
without duplicates), each is a stored label matching the query, and a matching
stored label that is not returned is left out only because ten are returned
already, all of them with smaller names. -/
theorem SearchLabels_first_ten (d : DB) (hv : d.Valid) (q : String)
    (hq : (q ++ "%").utf8ByteSize ≤ maxLikePatternLength) :
    ∃ ls : List Label, SearchLabels d q = .ok ls ∧
      ls.length = min 10 (d.labels.filter (fun l => like (q ++ "%") l.Name)).length ∧
      ls.length ≤ 10 ∧
      ls.Pairwise (fun a b => a.Name < b.Name) ∧
      ls.Nodup ∧
      (∀ l ∈ ls, l ∈ d.labels ∧ like (q ++ "%") l.Name = true) ∧
      (∀ l ∈ d.labels, like (q ++ "%") l.Name = true → l ∉ ls →
        ls.length = 10 ∧ ∀ x ∈ ls, x.Name < l.Name) := by
  have hok := SearchLabels_of_short d q hq
  refine ⟨_, hok, ?_⟩
  have hperm := orderByAsc_perm (fun l : Label => l.Name)
    (d.labels.filter (fun l => like (q ++ "%") l.Name))
  have hsorted := orderByAsc_sorted (fun l : Label => l.Name)
    (d.labels.filter (fun l => like (q ++ "%") l.Name))
  have hnd : ((orderByAsc (fun l : Label => l.Name)
      (d.labels.filter (fun l => like (q ++ "%") l.Name))).map (fun l => l.Name)).Nodup :=
    ((hperm.map (fun l : Label => l.Name)).nodup_iff).mpr
      (nodup_map_filter (fun l : Label => l.Name) _ d.labels hv.2.2.2.1)
  have hstrict : (orderByAsc (fun l : Label => l.Name)
      (d.labels.filter (fun l => like (q ++ "%") l.Name))).Pairwise
      (fun a b => a.Name < b.Name) :=
    (hsorted.and (List.pairwise_map.mp hnd)).imp (fun h => lt_of_le_of_ne h.1 h.2)
  have hlen : ((orderByAsc (fun l : Label => l.Name)
      (d.labels.filter (fun l => like (q ++ "%") l.Name))).take 10).length
      = min 10 (d.labels.filter (fun l => like (q ++ "%") l.Name)).length := by
    rw [List.length_take, hperm.length_eq]
  have hpair : ((orderByAsc (fun l : Label => l.Name)
      (d.labels.filter (fun l => like (q ++ "%") l.Name))).take 10).Pairwise
      (fun a b => a.Name < b.Name) :=
    hstrict.sublist (List.take_sublist 10 _)
  refine ⟨hlen, ?_, hpair, ?_, mem_SearchLabels d q _ hok, ?_⟩
  · rw [hlen]
    exact min_le_left _ _
  · exact hpair.imp (fun h he => (ne_of_lt h) (congrArg Label.Name he))
  · intro l hl hmatch hnot
    have hmem : l ∈ orderByAsc (fun l : Label => l.Name)
        (d.labels.filter (fun l => like (q ++ "%") l.Name)) :=
      hperm.symm.subset (List.mem_filter.mpr ⟨hl, hmatch⟩)
    rw [← List.take_append_drop 10 (orderByAsc (fun l : Label => l.Name)
      (d.labels.filter (fun l => like (q ++ "%") l.Name)))] at hmem hstrict
    have hdrop : l ∈ (orderByAsc (fun l : Label => l.Name)
        (d.labels.filter (fun l => like (q ++ "%") l.Name))).drop 10 := by
      rcases List.mem_append.mp hmem with h | h
      · exact absurd h hnot
      · exact h
    constructor
    · have hlong : 10 < (orderByAsc (fun l : Label => l.Name)
          (d.labels.filter (fun l => like (q ++ "%") l.Name))).length := by
        by_contra hle
        rw [List.drop_eq_nil_iff.mpr (not_lt.mp hle)] at hdrop
        cases hdrop
      rw [List.length_take]
      exact min_eq_left hlong.le
    · intro x hx
      exact (List.pairwise_append.mp hstrict).2.2 x hx l hdrop

/-- Witness for amended C10: of the twelve stored labels matching "t" (one of
them spelled "T12") the first ten in ascending name order are returned. -/
theorem SearchLabels_first_ten_witness :
    twelveLabelsDB.Valid ∧
    ("t" ++ "%").utf8ByteSize ≤ maxLikePatternLength ∧
    (SearchLabels twelveLabelsDB "t").map (fun ls => ls.map (fun l => l.Name))
      = .ok ["T12", "t01", "t02", "t03", "t04", "t05", "t06", "t07", "t08", "t09"] ∧
    ∃ ls : List Label, SearchLabels twelveLabelsDB "t" = .ok ls ∧
      ls.length = min 10 (twelveLabelsDB.labels.filter (fun l => like ("t" ++ "%") l.Name)).length ∧
      ls.Pairwise (fun a b => a.Name < b.Name) :=
  ⟨by decide, by decide, by decide,
   (SearchLabels_first_ten twelveLabelsDB (by decide) "t" (by decide)).imp
     (fun _ h => ⟨h.1, h.2.1, h.2.2.2.1⟩)⟩

/-! ## Label associations -/

theorem mem_joined (labels : List Label) (pairs : List (Int × Int)) (owner : Int) (l : Label) :
    l ∈ labels.flatMap (fun x =>
        (pairs.filter (fun p => p.2 == x.ID && p.1 == owner)).map (fun _ => x)) ↔
      l ∈ labels ∧ (owner, l.ID) ∈ pairs := by
  simp only [List.mem_flatMap, List.mem_map, List.mem_filter, Bool.and_eq_true, beq_iff_eq]
  constructor
  · rintro ⟨x, hx, ⟨a, b⟩, ⟨hp, h2, h1⟩, rfl⟩
    simp only at h1 h2
    subst h1 h2
    exact ⟨hx, hp⟩
  · rintro ⟨hl, hp⟩
    exact ⟨l, hl, (owner, l.ID), ⟨hp, rfl, rfl⟩, rfl⟩

theorem count_joined (labels : List Label) (pairs : List (Int × Int)) (owner : Int)
    (l : Label) (hnd : (labels.map (fun x => x.ID)).Nodup) (hl : l ∈ labels) :
    (labels.flatMap (fun x =>
        (pairs.filter (fun p => p.2 == x.ID && p.1 == owner)).map (fun _ => x))).count l
      = (pairs.filter (fun p => p.2 == l.ID && p.1 == owner)).length := by
  induction labels with
  | nil => cases hl
  | cons a t ih =>
    rw [List.map_cons, List.nodup_cons] at hnd
    rw [List.flatMap_cons, List.count_append]
    have hconst : ∀ (x : Label) (xs : List (Int × Int)),
        (xs.map (fun _ => x)).count l = if x = l then xs.length else 0 := by
      intro x xs
      have : xs.map (fun _ => x) = List.replicate xs.length x := List.map_const xs x
      rw [this, List.count_replicate]
      simp
    rw [hconst]
    by_cases hal : a = l
    · subst hal
      have hnot : a ∉ t.flatMap (fun x =>
          (pairs.filter (fun p => p.2 == x.ID && p.1 == owner)).map (fun _ => x)) := by
        intro hm
        exact hnd.1 (List.mem_map_of_mem (fun x => x.ID) ((mem_joined t pairs owner a).mp hm).1)
      rw [List.count_eq_zero_of_not_mem hnot, if_pos rfl, Nat.add_zero]
    · have hlt : l ∈ t := by
        rcases List.mem_cons.mp hl with h | h
        · exact absurd h.symm hal
        · exact h
      rw [if_neg hal, Nat.zero_add]
      exact ih hnd.2 hlt

theorem length_filter_pair (pairs : List (Int × Int)) (a b : Int) (hnd : pairs.Nodup)
    (h : (a, b) ∈ pairs) : (pairs.filter (fun p => p.2 == b && p.1 == a)).length = 1 := by
  induction pairs with
  | nil => cases h
  | cons x t ih =>
    rw [List.nodup_cons] at hnd
    by_cases hx : x = (a, b)
    · subst hx
      have hnil : t.filter (fun p => p.2 == b && p.1 == a) = [] := by
        rw [List.filter_eq_nil_iff]
        rintro ⟨y1, y2⟩ hy hc
        simp only [Bool.and_eq_true, beq_iff_eq] at hc
        obtain ⟨h2, h1⟩ := hc
        subst h1 h2
        exact hnd.1 hy
      rw [List.filter_cons_of_pos (by simp), hnil]
      rfl
    · have ht : (a, b) ∈ t := by
        rcases List.mem_cons.mp h with h' | h'
        · exact absurd h'.symm hx
        · exact h'
      have hneg : ¬ ((x.2 == b && x.1 == a) = true) := by
        intro hc
        simp only [Bool.and_eq_true, beq_iff_eq] at hc
        exact hx (Prod.ext hc.2 hc.1)
      rw [List.filter_cons]
      split
      · contradiction
      · exact ih hnd.2 ht

theorem count_LabelsForMediaFile (d : DB) (hv : d.Valid) (f : Int) (l : Label)
    (hl : l ∈ d.labels) (hp : (f, l.ID) ∈ d.media_labels) :
    (LabelsForMediaFile d f).count l = 1 := by
  unfold LabelsForMediaFile
  rw [(orderByAsc_perm (fun l : Label => l.Name) _).count_eq,
    count_joined d.labels d.media_labels f l hv.2.2.1 hl]
  exact length_filter_pair d.media_labels f l.ID hv.2.2.2.2.2.1 hp

theorem count_LabelsForKeyframe (d : DB) (hv : d.Valid) (k : Int) (l : Label)
    (hl : l ∈ d.labels) (hp : (k, l.ID) ∈ d.keyframe_labels) :
    (LabelsForKeyframe d k).count l = 1 := by
  unfold LabelsForKeyframe
  rw [(orderByAsc_perm (fun l : Label => l.Name) _).count_eq,
    count_joined d.labels d.keyframe_labels k l hv.2.2.1 hl]
  exact length_filter_pair d.keyframe_labels k l.ID hv.2.2.2.2.2.2 hp

theorem AddMediaLabel_of_attached (d : DB) (f l : Int) (h : (f, l) ∈ d.media_labels) :
    AddMediaLabel d f l = (.ok (), d) := by
  have hany : (d.media_labels.any (fun ml => ml.1 == f && ml.2 == l)) = true := by
    simp only [List.any_eq_true, Bool.and_eq_true, beq_iff_eq]
    exact ⟨(f, l), h, rfl, rfl⟩
  simp only [AddMediaLabel, hany, if_true]

theorem AddMediaLabel_of_new (d : DB) (f l : Int) (h : (f, l) ∉ d.media_labels)
    (hf : ∃ m ∈ d.media_files, m.ID = f) (hl : ∃ x ∈ d.labels, x.ID = l) :
    AddMediaLabel d f l =
      (.ok (), { d with media_labels := d.media_labels ++ [(f, l)] }) := by
  have hany : (d.media_labels.any (fun ml => ml.1 == f && ml.2 == l)) = false := by
    rw [Bool.eq_false_iff]
    simp only [ne_eq, List.any_eq_true, Bool.and_eq_true, beq_iff_eq, not_exists, not_and]
    rintro ⟨a, b⟩ hm h1 h2
    simp only at h1 h2
    subst h1 h2
    exact h hm
  have h1 : (d.media_files.any (fun m => m.ID == f)) = true := by
    simpa only [List.any_eq_true, beq_iff_eq] using hf
  have h2 : (d.labels.any (fun x => x.ID == l)) = true := by
    simpa only [List.any_eq_true, beq_iff_eq] using hl
  simp [AddMediaLabel, hany, h1, h2]

theorem AddKeyframeLabel_of_attached (d : DB) (k l : Int) (h : (k, l) ∈ d.keyframe_labels) :
    AddKeyframeLabel d k l = (.ok (), d) := by
  have hany : (d.keyframe_labels.any (fun kl => kl.1 == k && kl.2 == l)) = true := by
    simp only [List.any_eq_true, Bool.and_eq_true, beq_iff_eq]
    exact ⟨(k, l), h, rfl, rfl⟩
  simp only [AddKeyframeLabel, hany, if_true]

theorem AddKeyframeLabel_of_new (d : DB) (k l : Int) (h : (k, l) ∉ d.keyframe_labels)
    (hk : ∃ x ∈ d.keyframes, x.ID = k) (hl : ∃ x ∈ d.labels, x.ID = l) :
    AddKeyframeLabel d k l =
      (.ok (), { d with keyframe_labels := d.keyframe_labels ++ [(k, l)] }) := by
  have hany : (d.keyframe_labels.any (fun kl => kl.1 == k && kl.2 == l)) = false := by
    rw [Bool.eq_false_iff]
    simp only [ne_eq, List.any_eq_true, Bool.and_eq_true, beq_iff_eq, not_exists, not_and]
    rintro ⟨a, b⟩ hm h1 h2
    simp only at h1 h2
    subst h1 h2
    exact h hm
  have h1 : (d.keyframes.any (fun x => x.ID == k)) = true := by
    simpa only [List.any_eq_true, beq_iff_eq] using hk
  have h2 : (d.labels.any (fun x => x.ID == l)) = true := by
    simpa only [List.any_eq_true, beq_iff_eq] using hl
  simp [AddKeyframeLabel, hany, h1, h2]

theorem filter_pair_ne_self (pairs : List (Int × Int)) (a b : Int) (h : (a, b) ∉ pairs) :
    pairs.filter (fun p => !(p.1 == a && p.2 == b)) = pairs := by
  rw [List.filter_eq_self]
  rintro ⟨x, y⟩ hm
  by_cases h1 : x = a
  · by_cases h2 : y = b
    · subst h1 h2
      exact absurd hm h
    · simp [h2]
  · simp [h1]

theorem AddMediaLabel_attached_after (d : DB) (f l : Int)
    (hf : ∃ m ∈ d.media_files, m.ID = f) (hl : ∃ x ∈ d.labels, x.ID = l) :
    (AddMediaLabel d f l).1 = .ok () ∧ (f, l) ∈ (AddMediaLabel d f l).2.media_labels ∧
    (AddMediaLabel d f l).2.labels = d.labels ∧ (AddMediaLabel d f l).2.Valid = d.Valid := by
  by_cases h : (f, l) ∈ d.media_labels
  · rw [AddMediaLabel_of_attached d f l h]
    exact ⟨rfl, h, rfl, rfl⟩
  · rw [AddMediaLabel_of_new d f l h hf hl]
    refine ⟨rfl, List.mem_append_right _ (List.mem_singleton_self _), rfl, ?_⟩
    simp only [DB.Valid]
    have : (d.media_labels ++ [(f, l)]).Nodup ↔ d.media_labels.Nodup := by
      constructor
      · intro hn
        exact hn.sublist (List.sublist_append_left _ _)
      · intro hn
        exact nodup_append_singleton _ _ hn h
    rw [this]

theorem AddKeyframeLabel_attached_after (d : DB) (k l : Int)
    (hk : ∃ x ∈ d.keyframes, x.ID = k) (hl : ∃ x ∈ d.labels, x.ID = l) :
    (AddKeyframeLabel d k l).1 = .ok () ∧ (k, l) ∈ (AddKeyframeLabel d k l).2.keyframe_labels ∧
    (AddKeyframeLabel d k l).2.labels = d.labels := by
  by_cases h : (k, l) ∈ d.keyframe_labels
  · rw [AddKeyframeLabel_of_attached d k l h]
    exact ⟨rfl, h, rfl⟩
  · rw [AddKeyframeLabel_of_new d k l h hk hl]
    exact ⟨rfl, List.mem_append_right _ (List.mem_singleton_self _), rfl⟩

/-- C11: for every store state with an existing file `f`, an existing keyframe
`k` and a stored label `l`: `AddMediaLabel(f, l)` on an association that already
exists returns no error and leaves the database unchanged, so attaching twice
equals attaching once, and after attaching `LabelsForMediaFile(f)` lists `l`
exactly once; `RemoveMediaLabel(f, l)` on an association that does not exist
returns no error and leaves the database unchanged; the same holds for
`AddKeyframeLabel`, `RemoveKeyframeLabel` and `LabelsForKeyframe`. -/
theorem label_association_idempotent (d : DB) (hv : d.Valid) (f k : Int) (l : Label)
    (hf : ∃ m ∈ d.media_files, m.ID = f) (hk : ∃ x ∈ d.keyframes, x.ID = k)
    (hl : l ∈ d.labels) :
    (((f, l.ID) ∈ d.media_labels → AddMediaLabel d f l.ID = (.ok (), d)) ∧
      (AddMediaLabel d f l.ID).1 = .ok () ∧
      AddMediaLabel (AddMediaLabel d f l.ID).2 f l.ID = (.ok (), (AddMediaLabel d f l.ID).2) ∧
      (LabelsForMediaFile (AddMediaLabel d f l.ID).2 f).count l = 1 ∧
      ((f, l.ID) ∉ d.media_labels → RemoveMediaLabel d f l.ID = (.ok (), d))) ∧
    (((k, l.ID) ∈ d.keyframe_labels → AddKeyframeLabel d k l.ID = (.ok (), d)) ∧
      (AddKeyframeLabel d k l.ID).1 = .ok () ∧
      AddKeyframeLabel (AddKeyframeLabel d k l.ID).2 k l.ID
        = (.ok (), (AddKeyframeLabel d k l.ID).2) ∧
      (LabelsForKeyframe (AddKeyframeLabel d k l.ID).2 k).count l = 1 ∧
      ((k, l.ID) ∉ d.keyframe_labels → RemoveKeyframeLabel d k l.ID = (.ok (), d))) := by
  have hm := AddMediaLabel_attached_after d f l.ID hf ⟨l, hl, rfl⟩
  have hkk := AddKeyframeLabel_attached_after d k l.ID hk ⟨l, hl, rfl⟩
  refine ⟨⟨AddMediaLabel_of_attached d f l.ID, hm.1,
      AddMediaLabel_of_attached _ f l.ID hm.2.1, ?_, ?_⟩,
    ⟨AddKeyframeLabel_of_attached d k l.ID, hkk.1,
      AddKeyframeLabel_of_attached _ k l.ID hkk.2.1, ?_, ?_⟩⟩
  · exact count_LabelsForMediaFile _ (AddMediaLabel_valid d f l.ID hv) f l
      (hm.2.2.1 ▸ hl) hm.2.1
  · intro hno
    simp only [RemoveMediaLabel, filter_pair_ne_self d.media_labels f l.ID hno]
  · exact count_LabelsForKeyframe _ (AddKeyframeLabel_valid d k l.ID hv) k l
      (hkk.2.2 ▸ hl) hkk.2.1
  · intro hno
    simp only [RemoveKeyframeLabel, filter_pair_ne_self d.keyframe_labels k l.ID hno]

/-- Witness for C11: in the example catalogue the label "Apple" is attached to
file 1 already, and not yet to file 3 or to keyframe 1. -/
theorem label_association_idempotent_witness :
    exampleDB.Valid ∧
    AddMediaLabel exampleDB 1 1 = (.ok (), exampleDB) ∧
    AddMediaLabel (AddMediaLabel exampleDB 3 1).2 3 1 = (.ok (), (AddMediaLabel exampleDB 3 1).2) ∧
    (LabelsForMediaFile (AddMediaLabel exampleDB 3 1).2 3).count { ID := 1, Name := "Apple" } = 1 ∧
    RemoveKeyframeLabel exampleDB 1 1 = (.ok (), exampleDB) :=
  ⟨by decide,
   (label_association_idempotent exampleDB (by decide) 1 1 { ID := 1, Name := "Apple" }
     (by decide) (by decide) (by decide)).1.1 (by decide),
   (label_association_idempotent exampleDB (by decide) 3 1 { ID := 1, Name := "Apple" }
     (by decide) (by decide) (by decide)).1.2.2.1,
   (label_association_idempotent exampleDB (by decide) 3 1 { ID := 1, Name := "Apple" }
     (by decide) (by decide) (by decide)).1.2.2.2.1,
   (label_association_idempotent exampleDB (by decide) 3 1 { ID := 1, Name := "Apple" }
     (by decide) (by decide) (by decide)).2.2.2.2.2 (by decide)⟩

/-! ## KeyframesForMediaFile -/

/-- C12: for every store state and file id `f`, `KeyframesForMediaFile(f)`
returns exactly the rows of `keyframes` whose `media_file_id` is `f` (the same
rows with the same multiplicity, none of another file), in non-decreasing
order of `timestamp_ms` whatever the order of the rows in the table, and the
`Labels` field of each returned keyframe equals `LabelsForKeyframe` of its id,
which lists the stored labels attached to the keyframe in ascending order of
name. -/
theorem KeyframesForMediaFile_sorted (d : DB) (f : Int) :
    ((KeyframesForMediaFile d f).map Keyframe.row).Perm
      (d.keyframes.filter (fun k => k.MediaFileID == f)) ∧
    (KeyframesForMediaFile d f).Pairwise (fun a b => a.TimestampMs ≤ b.TimestampMs) ∧
    (∀ kf ∈ KeyframesForMediaFile d f,
      kf.MediaFileID = f ∧ kf.Labels = LabelsForKeyframe d kf.ID) ∧
    (∀ k : Int, (LabelsForKeyframe d k).Pairwise (fun a b => a.Name ≤ b.Name) ∧
      ∀ l : Label, l ∈ LabelsForKeyframe d k ↔ l ∈ d.labels ∧ (k, l.ID) ∈ d.keyframe_labels) := by
  have hperm := orderByAsc_perm (fun k : KeyframeRow => k.TimestampMs)
    (d.keyframes.filter (fun k => k.MediaFileID == f))
  have hsorted := orderByAsc_sorted (fun k : KeyframeRow => k.TimestampMs)
    (d.keyframes.filter (fun k => k.MediaFileID == f))
  refine ⟨?_, ?_, ?_, ?_⟩
  · unfold KeyframesForMediaFile
    rw [List.map_map]
    have hid : (Keyframe.row ∘ fun k : KeyframeRow =>
        ({ ID := k.ID, MediaFileID := k.MediaFileID, TimestampMs := k.TimestampMs,
           Description := k.Description, Pinned := k.Pinned,
           Labels := LabelsForKeyframe d k.ID } : Keyframe)) = id := by
      funext k
      rfl
    rw [hid, List.map_id]
    exact hperm
  · unfold KeyframesForMediaFile
    rw [List.pairwise_map]
    exact hsorted
  · intro kf hkf
    unfold KeyframesForMediaFile at hkf
    obtain ⟨k, hk, rfl⟩ := List.mem_map.mp hkf
    have hk' := (List.mem_filter.mp (hperm.subset hk)).2
    exact ⟨by simpa using hk', rfl⟩
  · intro k
    constructor
    · exact orderByAsc_sorted (fun l : Label => l.Name) _
    · intro l
      unfold LabelsForKeyframe
      rw [(orderByAsc_perm (fun l : Label => l.Name) _).mem_iff]
      exact mem_joined d.labels d.keyframe_labels k l

/-! ## Updating descriptions, deleting keyframes -/

theorem map_update_of_missing {α : Type} (key : α → Int) (g : α → α) (l : List α) (id : Int)
    (h : ∀ x ∈ l, key x ≠ id) : l.map (fun x => if key x = id then g x else x) = l := by
  have : l.map (fun x => if key x = id then g x else x) = l.map (fun x => x) :=
    List.map_congr_left (fun x hx => by simp [h x hx])
  rw [this, List.map_id']

theorem map_update_of_mem {α : Type} [DecidableEq α] (key : α → Int) (g : α → α)
    (l : List α) (hnd : (l.map key).Nodup) (k : α) (hk : k ∈ l) :
    l.map (fun x => if key x = key k then g x else x)
      = l.map (fun x => if x = k then g k else x) := by
  apply List.map_congr_left
  intro x hx
  by_cases hxk : x = k
  · subst hxk
    simp
  · have : key x ≠ key k := fun he => hxk (eq_of_mem_of_key_eq key l hnd hx hk he)
    simp [hxk, this]

theorem length_filter_key_eq_zero_iff {α : Type} (key : α → Int) (l : List α) (id : Int) :
    (l.filter (fun x => key x == id)).length = 0 ↔ ∀ x ∈ l, key x ≠ id := by
  simp only [List.length_eq_zero, List.filter_eq_nil_iff, beq_iff_eq, ne_eq]

/-- C13: for every store state, `UpdateKeyframeDescription(id, text)` returns an
error exactly when no keyframe has that id, and then the database is
unchanged; when the keyframe exists, pinned or not, the call succeeds and the
new database is the old one with that one row carrying the new description:
its id, owner, `timestamp_ms` and pinned flag, every other keyframe and every
other relation are unchanged. -/
theorem UpdateKeyframeDescription_effect (d : DB) (hv : d.Valid) (id : Int) (text : String) :
    ((UpdateKeyframeDescription d id text).1 = .error .NotFound ↔
      ∀ k ∈ d.keyframes, k.ID ≠ id) ∧
    ((UpdateKeyframeDescription d id text).1 = .ok () ↔ ∃ k ∈ d.keyframes, k.ID = id) ∧
    ((∀ k ∈ d.keyframes, k.ID ≠ id) →
      UpdateKeyframeDescription d id text = (.error .NotFound, d)) ∧
    (∀ k ∈ d.keyframes, k.ID = id →
      UpdateKeyframeDescription d id text =
        (.ok (),
         { d with
           keyframes := d.keyframes.map (fun x =>
             if x = k then { k with Description := text } else x) })) := by
  have hmiss : (∀ k ∈ d.keyframes, k.ID ≠ id) →
      UpdateKeyframeDescription d id text = (.error .NotFound, d) := by
    intro h
    have h0 := (length_filter_key_eq_zero_iff (fun k : KeyframeRow => k.ID) d.keyframes id).mpr h
    have hmap := map_update_of_missing (fun k : KeyframeRow => k.ID)
      (fun k => { k with Description := text }) d.keyframes id h
    simp only at h0 hmap
    simp only [UpdateKeyframeDescription, h0, if_true, hmap]
  have hfound : ∀ k ∈ d.keyframes, k.ID = id →
      UpdateKeyframeDescription d id text =
        (.ok (),
         { d with
           keyframes := d.keyframes.map (fun x =>
             if x = k then { k with Description := text } else x) }) := by
    intro k hk hid
    subst hid
    have h0 : (d.keyframes.filter (fun x => x.ID == k.ID)).length ≠ 0 := by
      intro hc
      exact (length_filter_key_eq_zero_iff (fun x : KeyframeRow => x.ID) d.keyframes k.ID).mp
        hc k hk rfl
    have hmap := map_update_of_mem (fun x : KeyframeRow => x.ID)
      (fun x => { x with Description := text }) d.keyframes hv.2.2.2.2.1 k hk
    simp only at hmap
    simp only [UpdateKeyframeDescription, h0, if_false, hmap]
  refine ⟨?_, ?_, hmiss, hfound⟩
  · constructor
    · intro herr k hk hid
      rw [hfound k hk hid] at herr
      cases herr
    · intro h
      rw [hmiss h]
  · constructor
    · intro hok
      by_contra hno
      have h : ∀ k ∈ d.keyframes, k.ID ≠ id := fun k hk hid => hno ⟨k, hk, hid⟩
      rw [hmiss h] at hok
      cases hok
    · rintro ⟨k, hk, hid⟩
      rw [hfound k hk hid]

/-- Witness for C13: describing the pinned keyframe 1 of the example catalogue
succeeds and changes only its description; keyframe 9 does not exist. -/
theorem UpdateKeyframeDescription_effect_witness :
    exampleDB.Valid ∧
    (UpdateKeyframeDescription exampleDB 1 "intro").1 = .ok () ∧
    (UpdateKeyframeDescription exampleDB 1 "intro").2.keyframes =
      [{ ID := 1, MediaFileID := 2, TimestampMs := 0, Description := "intro", Pinned := true },
       { ID := 2, MediaFileID := 2, TimestampMs := 1500, Description := "", Pinned := false }] ∧
    UpdateKeyframeDescription exampleDB 9 "intro" = (.error .NotFound, exampleDB) :=
  ⟨by decide,
   (UpdateKeyframeDescription_effect exampleDB (by decide) 1 "intro").2.1.mpr (by decide),
   by decide,
   (UpdateKeyframeDescription_effect exampleDB (by decide) 9 "intro").2.2.1 (by decide)⟩

/-- C18: for every store state, `UpdateDescription(id, text)` on media files
returns an error and leaves the database unchanged when no media file has that
id; otherwise it succeeds and the new database is the old one with that one
row carrying the new description and the current time as `updated_at`: its
id, path, media type and creation time, every other media file and every
other relation are unchanged. -/
theorem UpdateDescription_effect (d : DB) (hv : d.Valid) (now : Nat) (id : Int)
    (text : String) :
    ((∀ m ∈ d.media_files, m.ID ≠ id) →
      UpdateDescription d now id text = (.error .NotFound, d)) ∧
    (∀ m ∈ d.media_files, m.ID = id →
      UpdateDescription d now id text =
        (.ok (),
         { d with
           media_files := d.media_files.map (fun x =>
             if x = m then { m with Description := text, UpdatedAt := now } else x) })) := by
  constructor
  · intro h
    have h0 := (length_filter_key_eq_zero_iff (fun m : MediaFile => m.ID) d.media_files id).mpr h
    have hmap := map_update_of_missing (fun m : MediaFile => m.ID)
      (fun m => { m with Description := text, UpdatedAt := now }) d.media_files id h
    simp only at h0 hmap
    simp only [UpdateDescription, h0, if_true, hmap]
  · intro m hm hid
    subst hid
    have h0 : (d.media_files.filter (fun x => x.ID == m.ID)).length ≠ 0 := by
      intro hc
      exact (length_filter_key_eq_zero_iff (fun x : MediaFile => x.ID) d.media_files m.ID).mp
        hc m hm rfl
    have hmap := map_update_of_mem (fun x : MediaFile => x.ID)
      (fun x => { x with Description := text, UpdatedAt := now }) d.media_files hv.1 m hm
    simp only at hmap
    simp only [UpdateDescription, h0, if_false, hmap]

/-- Witness for C18: describing file 3 of the example catalogue at time 42, and
the unknown file 9. -/
theorem UpdateDescription_effect_witness :
    exampleDB.Valid ∧
    UpdateDescription exampleDB 42 3 "a song" =
      (.ok (),
       { exampleDB with
         media_files :=
           [{ ID := 1, Path := "b", MediaType := "image", Description := "", CreatedAt := 0,
              UpdatedAt := 0 },
            { ID := 2, Path := "c", MediaType := "video", Description := "", CreatedAt := 0,
              UpdatedAt := 0 },
            { ID := 3, Path := "a", MediaType := "audio", Description := "a song",
              CreatedAt := 0, UpdatedAt := 42 }] }) ∧
    UpdateDescription exampleDB 42 9 "a song" = (.error .NotFound, exampleDB) :=
  ⟨by decide,
   ((UpdateDescription_effect exampleDB (by decide) 42 3 "a song").2
     { ID := 3, Path := "a", MediaType := "audio", Description := "", CreatedAt := 0,
       UpdatedAt := 0 } (by decide) rfl).trans (by decide),
   (UpdateDescription_effect exampleDB (by decide) 42 9 "a song").1 (by decide)⟩

theorem GetKeyframe_of_missing (d : DB) (id : Int) (h : ∀ k ∈ d.keyframes, k.ID ≠ id) :
    GetKeyframe d id = none := by
  have hnone : d.keyframes.find? (fun k => k.ID == id) = none := by
    rw [List.find?_eq_none]
    intro x hx
    simpa using h x hx
  simp only [GetKeyframe, hnone]

theorem find?_filter_of_imp {α : Type} (l : List α) (p q : α → Bool)
    (h : ∀ x, q x = true → p x = true) : (l.filter p).find? q = l.find? q := by
  induction l with
  | nil => rfl
  | cons a t ih =>
    by_cases hq : q a = true
    · rw [List.filter_cons_of_pos (h a hq), List.find?_cons_of_pos _ hq,
        List.find?_cons_of_pos _ hq]
    · by_cases hp : p a = true
      · rw [List.filter_cons_of_pos hp, List.find?_cons_of_neg _ hq,
          List.find?_cons_of_neg _ hq, ih]
      · rw [List.filter_cons_of_neg hp, List.find?_cons_of_neg _ hq, ih]

theorem filter_filter_of_imp {α : Type} (l : List α) (p q : α → Bool)
    (h : ∀ x, q x = true → p x = true) : (l.filter p).filter q = l.filter q := by
  rw [List.filter_filter]
  apply List.filter_congr
  intro x _
  by_cases hq : q x = true
  · simp [hq, h x hq]
  · simp [hq]

theorem DeleteKeyframe_of_unpinned (d : DB) (hv : d.Valid) (k : KeyframeRow)
    (hk : k ∈ d.keyframes) (hp : k.Pinned = false) :
    DeleteKeyframe d k.ID =
      (.ok (),
       { d with
         keyframes := d.keyframes.filter (fun x => !(x.ID == k.ID)),
         keyframe_labels := d.keyframe_labels.filter (fun kl => !(kl.1 == k.ID)) }) := by
  have hg := GetKeyframe_of_mem d hv k hk
  simp [DeleteKeyframe, hg, hp]

/-- C14: for every store state, `DeleteKeyframe(id)` on an id that no keyframe
has returns the not-found error (not `ErrPinnedKeyframe`) and leaves the
database unchanged; on an existing unpinned keyframe it succeeds, afterwards
`GetKeyframe(id)` is absent and no row of `keyframe_labels` references the id,
the other rows of `keyframes` and of `keyframe_labels` are exactly the old
ones, every other keyframe reads as before (with the same labels), and the
relations `labels`, `media_files` and `media_labels` are unchanged. -/
theorem DeleteKeyframe_effect (d : DB) (hv : d.Valid) :
    (∀ id : Int, (∀ k ∈ d.keyframes, k.ID ≠ id) →
      DeleteKeyframe d id = (.error .NotFound, d) ∧
      (DeleteKeyframe d id).1 ≠ .error .ErrPinnedKeyframe) ∧
    (∀ k ∈ d.keyframes, k.Pinned = false →
      (DeleteKeyframe d k.ID).1 = .ok () ∧
      GetKeyframe (DeleteKeyframe d k.ID).2 k.ID = none ∧
      (∀ kl ∈ (DeleteKeyframe d k.ID).2.keyframe_labels, kl.1 ≠ k.ID) ∧
      (DeleteKeyframe d k.ID).2.keyframes = d.keyframes.filter (fun x => !(x.ID == k.ID)) ∧
      (DeleteKeyframe d k.ID).2.keyframe_labels
        = d.keyframe_labels.filter (fun kl => !(kl.1 == k.ID)) ∧
      (∀ id : Int, id ≠ k.ID →
        GetKeyframe (DeleteKeyframe d k.ID).2 id = GetKeyframe d id) ∧
      (DeleteKeyframe d k.ID).2.labels = d.labels ∧
      (DeleteKeyframe d k.ID).2.media_files = d.media_files ∧
      (DeleteKeyframe d k.ID).2.media_labels = d.media_labels) := by
  constructor
  · intro id h
    have hg := GetKeyframe_of_missing d id h
    have he : DeleteKeyframe d id = (.error .NotFound, d) := by
      simp only [DeleteKeyframe, hg]
    refine ⟨he, ?_⟩
    rw [he]
    intro hc
    cases hc
  · intro k hk hp
    rw [DeleteKeyframe_of_unpinned d hv k hk hp]
    refine ⟨rfl, ?_, ?_, rfl, rfl, ?_, rfl, rfl, rfl⟩
    · apply GetKeyframe_of_missing
      intro x hx
      simpa using (List.mem_filter.mp hx).2
    · intro kl hkl
      simpa using (List.mem_filter.mp hkl).2
    · intro id hid
      have hfind : (d.keyframes.filter (fun x => !(x.ID == k.ID))).find? (fun x => x.ID == id)
          = d.keyframes.find? (fun x => x.ID == id) := by
        apply find?_filter_of_imp
        intro x hx
        simp only [beq_iff_eq] at hx
        simp [hx, hid]
      have hlabels : ∀ x : KeyframeRow, x.ID = id →
          LabelsForKeyframe
            { d with
              keyframes := d.keyframes.filter (fun x => !(x.ID == k.ID)),
              keyframe_labels := d.keyframe_labels.filter (fun kl => !(kl.1 == k.ID)) } x.ID
            = LabelsForKeyframe d x.ID := by
        intro x hx
        unfold LabelsForKeyframe
        simp only
        congr 1
        apply List.flatMap_congr
        intro l _
        rw [filter_filter_of_imp]
        intro kl hkl
        simp only [Bool.and_eq_true, beq_iff_eq] at hkl
        simp [hkl.2, hx, hid]
      unfold GetKeyframe
      simp only [hfind]
      cases hf : d.keyframes.find? (fun x => x.ID == id) with
      | none => rfl
      | some x =>
        have hxid : x.ID = id := by simpa using List.find?_some hf
        simp only [hlabels x hxid]

/-- Witness for C14: deleting the unpinned keyframe 2 of the example catalogue
removes it and its label association; keyframe 9 does not exist. -/
theorem DeleteKeyframe_effect_witness :
    exampleDB.Valid ∧
    DeleteKeyframe exampleDB 9 = (.error .NotFound, exampleDB) ∧
    (DeleteKeyframe exampleDB 2).1 = .ok () ∧
    GetKeyframe (DeleteKeyframe exampleDB 2).2 2 = none ∧
    (DeleteKeyframe exampleDB 2).2.keyframe_labels = [] ∧
    (DeleteKeyframe exampleDB 2).2.labels = [{ ID := 1, Name := "Apple" }] :=
  ⟨by decide,
   ((DeleteKeyframe_effect exampleDB (by decide)).1 9 (by decide)).1,
   ((DeleteKeyframe_effect exampleDB (by decide)).2
     { ID := 2, MediaFileID := 2, TimestampMs := 1500, Description := "", Pinned := false }
     (by decide) rfl).1,
   ((DeleteKeyframe_effect exampleDB (by decide)).2
     { ID := 2, MediaFileID := 2, TimestampMs := 1500, Description := "", Pinned := false }
     (by decide) rfl).2.1,
   by decide, by decide⟩

/-! ## Open and migrate -/

theorem txExec_file (fails : Stmt → Bool) (c : Conn) (s : Stmt) :
    (c.txExec fails s).2.file = c.file := by
  unfold Conn.txExec
  split
  · rfl
  · split
    · rfl
    · split <;> rfl

theorem txExec_ok_tx (fails : Stmt → Bool) (c : Conn) (s : Stmt)
    (h : (c.txExec fails s).1 = .ok ()) :
    fails s = false ∧ ∃ view, (c.txExec fails s).2.tx = some view := by
  unfold Conn.txExec at h ⊢
  split at h
  · cases h
  · split at h
    · cases h
    · rename_i hf
      split at h
      · cases h
      · rename_i view' hv
        simp only [hf, hv]
        exact ⟨trivial, view', rfl⟩

theorem execAll_file (fails : Stmt → Bool) (stmts : List Stmt) (c : Conn) :
    (execAll fails stmts c).2.file = c.file := by
  induction stmts generalizing c with
  | nil => rfl
  | cons s rest ih =>
    unfold execAll
    have hf := txExec_file fails c s
    rcases hx : c.txExec fails s with ⟨r, c'⟩
    rw [hx] at hf
    cases r with
    | error e => exact hf
    | ok u => exact (ih c').trans hf

theorem execAll_error_of_fails (fails : Stmt → Bool) (stmts : List Stmt) (c : Conn)
    (h : ∃ s ∈ stmts, fails s = true) : ∃ e, (execAll fails stmts c).1 = .error e := by
  induction stmts generalizing c with
  | nil =>
    obtain ⟨s, hs, _⟩ := h
    cases hs
  | cons s rest ih =>
    unfold execAll
    have hok := txExec_ok_tx fails c s
    rcases hx : c.txExec fails s with ⟨r, c'⟩
    rw [hx] at hok
    cases r with
    | error e => exact ⟨e, rfl⟩
    | ok u =>
      obtain ⟨t, ht, hft⟩ := h
      rcases List.mem_cons.mp ht with rfl | ht'
      · have := (hok rfl).1
        rw [hft] at this
        cases this
      · exact ih c' ⟨t, ht', hft⟩

theorem migrate_of_current (fails : Stmt → Bool) (c : Conn)
    (h : c.file.user_version ≥ currentVersion) : migrate fails c = (.ok (), c) := by
  simp only [migrate, h, if_true]

theorem migrate_error_file (fails : Stmt → Bool) (c : Conn) (e : OpenError)
    (h : (migrate fails c).1 = .error e) :
    (migrate fails c).2.file = c.file ∧ (migrate fails c).2.tx = none := by
  unfold migrate at h ⊢
  simp only at h ⊢
  split at h
  · cases h
  · rw [if_neg (by assumption)]
    have hv1 : c.file.user_version < 1 := by
      rename_i hn
      unfold currentVersion at hn
      omega
    simp only [hv1, if_true] at h ⊢
    have hf1 := execAll_file fails migrateV1Statements c.begin
    unfold migrateV1 at h ⊢
    rcases hx : execAll fails migrateV1Statements c.begin with ⟨r, c2⟩
    rw [hx] at h hf1
    cases r with
    | error e1 => exact ⟨hf1, rfl⟩
    | ok u =>
      simp only at h ⊢
      have hf2 := txExec_file fails c2 (.setUserVersion currentVersion)
      rcases hy : c2.txExec fails (.setUserVersion currentVersion) with ⟨r3, c3⟩
      rw [hy] at h hf2
      cases r3 with
      | error e3 => exact ⟨hf2.trans hf1, rfl⟩
      | ok u3 => cases h

theorem migrate_error_of_fails (fails : Stmt → Bool) (c : Conn)
    (hold : c.file.user_version < currentVersion)
    (h : ∃ s ∈ migrateV1Statements ++ [.setUserVersion currentVersion], fails s = true) :
    ∃ e, (migrate fails c).1 = .error e := by
  have hv1 : c.file.user_version < 1 := hold
  have hnot : ¬ c.file.user_version ≥ currentVersion := not_le.mpr hold
  unfold migrate
  simp only [hnot, if_false, hv1, if_true]
  unfold migrateV1
  have herr := execAll_error_of_fails fails migrateV1Statements c.begin
  rcases hx : execAll fails migrateV1Statements c.begin with ⟨r, c2⟩
  rw [hx] at herr
  cases r with
  | error e1 => exact ⟨e1, rfl⟩
  | ok u =>
    simp only
    have hok := txExec_ok_tx fails c2 (.setUserVersion currentVersion)
    rcases hy : c2.txExec fails (.setUserVersion currentVersion) with ⟨r3, c3⟩
    rw [hy] at hok
    cases r3 with
    | error e3 => exact ⟨e3, rfl⟩
    | ok u3 =>
      obtain ⟨t, ht, hft⟩ := h
      rcases List.mem_append.mp ht with ht' | ht'
      · obtain ⟨e, he⟩ := herr ⟨t, ht', hft⟩
        cases he
      · rw [List.mem_singleton.mp ht'] at hft
        have := (hok rfl).1
        rw [hft] at this
        cases this

theorem exec_version_tables (fails : Stmt → Bool) (c : Conn) (s : Stmt)
    (hs : s = .journalModeWAL ∨ s = .foreignKeysOn) :
    (c.exec fails s).2.file.user_version = c.file.user_version ∧
    (c.exec fails s).2.file.tables = c.file.tables ∧
    (c.exec fails s).2.tx = c.tx := by
  unfold Conn.exec
  split
  · exact ⟨rfl, rfl, rfl⟩
  · rcases hs with rfl | rfl <;> exact ⟨rfl, rfl, rfl⟩

/-- C15: for every database file whose persisted schema version is below the
current version, whatever statement the engine fails to execute: if one of the
migration statements or the version update fails, `migrate` returns an error;
whenever `migrate` returns an error the committed content of the file (schema
version and schema) is what it was before and no transaction is left open;
`Open` then fails too, with the persisted schema version and schema as before
the attempt.  When the persisted version is already at least the current
version, `migrate` succeeds without passing any statement to the engine and
changes nothing. -/
theorem migrate_atomic (fails : Stmt → Bool) (c : Conn) (file : DBFile) :
    (c.file.user_version < currentVersion →
      (∃ s ∈ migrateV1Statements ++ [.setUserVersion currentVersion], fails s = true) →
      ∃ e, (migrate fails c).1 = .error e) ∧
    (∀ e, (migrate fails c).1 = .error e →
      (migrate fails c).2.file = c.file ∧ (migrate fails c).2.tx = none) ∧
    (file.user_version < currentVersion →
      (∃ s ∈ migrateV1Statements ++ [.setUserVersion currentVersion], fails s = true) →
      ∃ e, (Open fails file).1 = .error e) ∧
    (∀ e, (Open fails file).1 = .error e →
      (Open fails file).2.file.user_version = file.user_version ∧
      (Open fails file).2.file.tables = file.tables ∧
      (Open fails file).2.tx = none) ∧
    (c.file.user_version ≥ currentVersion → migrate fails c = (.ok (), c)) := by
  refine ⟨migrate_error_of_fails fails c, migrate_error_file fails c, ?_, ?_,
    migrate_of_current fails c⟩
  · intro hold hf
    unfold Open
    simp only
    have h1 := exec_version_tables fails
      { file := file, tx := none, foreign_keys := false, log := [] } .journalModeWAL (Or.inl rfl)
    rcases hx : Conn.exec fails
      { file := file, tx := none, foreign_keys := false, log := [] } .journalModeWAL with ⟨r1, c1⟩
    rw [hx] at h1
    cases r1 with
    | error e1 => exact ⟨e1, rfl⟩
    | ok u1 =>
      simp only
      have h2 := exec_version_tables fails c1 .foreignKeysOn (Or.inr rfl)
      rcases hy : Conn.exec fails c1 .foreignKeysOn with ⟨r2, c2⟩
      rw [hy] at h2
      cases r2 with
      | error e2 => exact ⟨e2, rfl⟩
      | ok u2 =>
        simp only
        have hver : c2.file.user_version < currentVersion := by
          rw [h2.1, h1.1]
          exact hold
        obtain ⟨e, he⟩ := migrate_error_of_fails fails c2 hver hf
        rcases hz : migrate fails c2 with ⟨r3, c3⟩
        rw [hz] at he
        cases r3 with
        | error e3 => exact ⟨e3, rfl⟩
        | ok u3 => cases he
  · intro e he
    unfold Open at he ⊢
    simp only at he ⊢
    have h1 := exec_version_tables fails
      { file := file, tx := none, foreign_keys := false, log := [] } .journalModeWAL (Or.inl rfl)
    rcases hx : Conn.exec fails
      { file := file, tx := none, foreign_keys := false, log := [] } .journalModeWAL with ⟨r1, c1⟩
    rw [hx] at he h1
    cases r1 with
    | error e1 => exact ⟨h1.1, h1.2.1, rfl⟩
    | ok u1 =>
      simp only at he ⊢
      have h2 := exec_version_tables fails c1 .foreignKeysOn (Or.inr rfl)
      rcases hy : Conn.exec fails c1 .foreignKeysOn with ⟨r2, c2⟩
      rw [hy] at he h2
      cases r2 with
      | error e2 => exact ⟨h2.1.trans h1.1, h2.2.1.trans h1.2.1, rfl⟩
      | ok u2 =>
        simp only at he ⊢
        have h3 := migrate_error_file fails c2
        rcases hz : migrate fails c2 with ⟨r3, c3⟩
        rw [hz] at he h3
        cases r3 with
        | error e3 =>
          have h3' := h3 e3 rfl
          simp only at h3'
          refine ⟨?_, ?_, rfl⟩
          · show c3.file.user_version = file.user_version
            rw [h3'.1, h2.1, h1.1]
          · show c3.file.tables = file.tables
            rw [h3'.1, h2.2.1, h1.2.1]
        | ok u3 => cases he

/-- Witness for C15: on a fresh file, with the engine made to fail on the
fourth `CREATE TABLE`, `Open` fails and the file keeps version 0 and an empty
schema; a file at version 1 is left alone even if every statement would fail. -/
theorem migrate_atomic_witness :
    (∃ e, (Open (fun s => s == .createTable "keyframes")
      { user_version := 0, tables := [], wal := false }).1 = .error e) ∧
    (Open (fun s => s == .createTable "keyframes")
      { user_version := 0, tables := [], wal := false }).2.file.user_version = 0 ∧
    (Open (fun s => s == .createTable "keyframes")
      { user_version := 0, tables := [], wal := false }).2.file.tables = [] ∧
    migrate (fun _ => true)
      { file := { user_version := 1, tables := ["media_files"], wal := true }, tx := none,
        foreign_keys := true, log := [] }
      = (.ok (),
         { file := { user_version := 1, tables := ["media_files"], wal := true }, tx := none,
           foreign_keys := true, log := [] }) :=
  ⟨(migrate_atomic (fun s => s == .createTable "keyframes")
      { file := { user_version := 0, tables := [], wal := false }, tx := none,
        foreign_keys := false, log := [] }
      { user_version := 0, tables := [], wal := false }).2.2.1 (by decide)
      ⟨.createTable "keyframes", by decide, by decide⟩,
   by decide, by decide,
   (migrate_atomic (fun _ => true)
      { file := { user_version := 1, tables := ["media_files"], wal := true }, tx := none,
        foreign_keys := true, log := [] }
      { user_version := 0, tables := [], wal := false }).2.2.2.2 (by decide)⟩

/-! ## What the operations do to keyframes and media files -/

theorem Op.run_keyframes_eq (d : DB) (op : Op)
    (h : match op with
      | .upsertMediaFile _ _ _ => True
      | .updateDescription _ _ _ => True
      | .findOrCreateLabel _ => True
      | .addMediaLabel _ _ => True
      | .removeMediaLabel _ _ => True
      | .addKeyframeLabel _ _ => True
      | .removeKeyframeLabel _ _ => True
      | _ => False) : (op.run d).keyframes = d.keyframes := by
  cases op with
  | upsertMediaFile now path mediaType =>
    show (UpsertMediaFile d now path mediaType).2.keyframes = d.keyframes
    unfold UpsertMediaFile
    dsimp only
    split <;> rfl
  | updateDescription now id description =>
    show (UpdateDescription d now id description).2.keyframes = d.keyframes
    unfold UpdateDescription
    dsimp only
    split <;> rfl
  | findOrCreateLabel name =>
    show (FindOrCreateLabel d name).2.keyframes = d.keyframes
    rw [FindOrCreateLabel_snd]
    split <;> rfl
  | addMediaLabel f l =>
    show (AddMediaLabel d f l).2.keyframes = d.keyframes
    unfold AddMediaLabel
    split
    · rfl
    · split <;> rfl
  | removeMediaLabel f l => rfl
  | addKeyframeLabel k l =>
    show (AddKeyframeLabel d k l).2.keyframes = d.keyframes
    unfold AddKeyframeLabel
    split
    · rfl
    · split <;> rfl
  | removeKeyframeLabel k l => rfl
  | ensurePinnedKeyframe f => cases h
  | createKeyframe f t => cases h
  | updateKeyframeTimestamp id t => cases h
  | updateKeyframeDescription id description => cases h
  | deleteKeyframe id => cases h

theorem insertKeyframe_keyframes (d : DB) (f t : Int) (pinned : Bool) :
    (insertKeyframe d f t pinned).2.keyframes = d.keyframes ∨
    ((∃ m ∈ d.media_files, m.ID = f) ∧ ∃ id : Int,
      (insertKeyframe d f t pinned).2.keyframes = d.keyframes ++
        [{ ID := id, MediaFileID := f, TimestampMs := t, Description := "", Pinned := pinned }]) := by
  by_cases hf : ∃ m ∈ d.media_files, m.ID = f
  · right
    rw [insertKeyframe_of_exists d f t pinned hf]
    exact ⟨hf, _, rfl⟩
  · left
    rw [insertKeyframe_of_missing d f t pinned (fun m hm he => hf ⟨m, hm, he⟩)]

theorem Op.run_media (d : DB) (op : Op) :
    ∀ m ∈ d.media_files, ∃ m' ∈ (op.run d).media_files,
      m'.ID = m.ID ∧ m'.MediaType = m.MediaType := by
  intro m hm
  have same : (op.run d).media_files = d.media_files →
      ∃ m' ∈ (op.run d).media_files, m'.ID = m.ID ∧ m'.MediaType = m.MediaType :=
    fun h => ⟨m, h ▸ hm, rfl, rfl⟩
  cases op with
  | upsertMediaFile now path mediaType =>
    show ∃ m' ∈ (UpsertMediaFile d now path mediaType).2.media_files, _
    unfold UpsertMediaFile
    dsimp only
    split
    · exact ⟨m, hm, rfl, rfl⟩
    · exact ⟨m, List.mem_append_left _ hm, rfl, rfl⟩
  | updateDescription now id description =>
    show ∃ m' ∈ (UpdateDescription d now id description).2.media_files, _
    have hmem : (if m.ID = id then { m with Description := description, UpdatedAt := now }
        else m) ∈ d.media_files.map (fun m =>
          if m.ID = id then { m with Description := description, UpdatedAt := now } else m) :=
      List.mem_map_of_mem _ hm
    have hprops : (if m.ID = id then { m with Description := description, UpdatedAt := now }
        else m).ID = m.ID ∧
        (if m.ID = id then { m with Description := description, UpdatedAt := now }
        else m).MediaType = m.MediaType := by
      by_cases h : m.ID = id <;> simp [h]
    unfold UpdateDescription
    dsimp only
    split
    · exact ⟨_, hmem, hprops⟩
    · exact ⟨_, hmem, hprops⟩
  | ensurePinnedKeyframe f =>
    apply same
    show (EnsurePinnedKeyframe d f).2.media_files = d.media_files
    rcases EnsurePinnedKeyframe_snd d f with h | h <;> rw [h]
    unfold insertKeyframe
    split <;> rfl
  | createKeyframe f t =>
    apply same
    show (CreateKeyframe d f t).2.media_files = d.media_files
    rw [CreateKeyframe_snd]
    unfold insertKeyframe
    split <;> rfl
  | updateKeyframeTimestamp id t =>
    apply same
    show (UpdateKeyframeTimestamp d id t).2.media_files = d.media_files
    unfold UpdateKeyframeTimestamp
    split
    · rfl
    · split <;> rfl
  | updateKeyframeDescription id description =>
    apply same
    show (UpdateKeyframeDescription d id description).2.media_files = d.media_files
    unfold UpdateKeyframeDescription
    dsimp only
    split <;> rfl
  | deleteKeyframe id =>
    apply same
    show (DeleteKeyframe d id).2.media_files = d.media_files
    unfold DeleteKeyframe
    split
    · rfl
    · split <;> rfl
  | findOrCreateLabel name =>
    apply same
    show (FindOrCreateLabel d name).2.media_files = d.media_files
    rw [FindOrCreateLabel_snd]
    split <;> rfl
  | addMediaLabel f l =>
    apply same
    show (AddMediaLabel d f l).2.media_files = d.media_files
    unfold AddMediaLabel
    split
    · rfl
    · split <;> rfl
  | removeMediaLabel f l => exact same rfl
  | addKeyframeLabel k l =>
    apply same
    show (AddKeyframeLabel d k l).2.media_files = d.media_files
    unfold AddKeyframeLabel
    split
    · rfl
    · split <;> rfl
  | removeKeyframeLabel k l => exact same rfl

/-- Every keyframe after an operation other than `EnsurePinnedKeyframe` is
unpinned, or continues a keyframe stored before with the same owner and the
same pinned flag. -/
theorem Op.run_pinned_origin (d : DB) (op : Op) (hop : ∀ f, op ≠ .ensurePinnedKeyframe f) :
    ∀ k ∈ (op.run d).keyframes, k.Pinned = true →
      ∃ k0 ∈ d.keyframes, k0.Pinned = true ∧ k0.ID = k.ID ∧ k0.MediaFileID = k.MediaFileID := by
  intro k hk hp
  have same : (op.run d).keyframes = d.keyframes →
      ∃ k0 ∈ d.keyframes, k0.Pinned = true ∧ k0.ID = k.ID ∧ k0.MediaFileID = k.MediaFileID :=
    fun h => ⟨k, h ▸ hk, hp, rfl, rfl⟩
  cases op with
  | upsertMediaFile now path mediaType => exact same (Op.run_keyframes_eq d _ trivial)
  | updateDescription now id description => exact same (Op.run_keyframes_eq d _ trivial)
  | findOrCreateLabel name => exact same (Op.run_keyframes_eq d _ trivial)
  | addMediaLabel f l => exact same (Op.run_keyframes_eq d _ trivial)
  | removeMediaLabel f l => exact same (Op.run_keyframes_eq d _ trivial)
  | addKeyframeLabel k l => exact same (Op.run_keyframes_eq d _ trivial)
  | removeKeyframeLabel k l => exact same (Op.run_keyframes_eq d _ trivial)
  | ensurePinnedKeyframe f => exact absurd rfl (hop f)
  | createKeyframe f t =>
    have hk' : k ∈ (CreateKeyframe d f t).2.keyframes := hk
    rw [CreateKeyframe_snd] at hk'
    rcases insertKeyframe_keyframes d f t false with h | ⟨_, id, h⟩
    · rw [h] at hk'
      exact ⟨k, hk', hp, rfl, rfl⟩
    · rw [h] at hk'
      rcases List.mem_append.mp hk' with h1 | h1
      · exact ⟨k, h1, hp, rfl, rfl⟩
      · rw [List.mem_singleton.mp h1] at hp
        cases hp
  | updateKeyframeTimestamp id t =>
    have hk' : k ∈ (UpdateKeyframeTimestamp d id t).2.keyframes := hk
    unfold UpdateKeyframeTimestamp at hk'
    split at hk'
    · exact ⟨k, hk', hp, rfl, rfl⟩
    · split at hk'
      · exact ⟨k, hk', hp, rfl, rfl⟩
      · obtain ⟨x, hx, rfl⟩ := List.mem_map.mp hk'
        refine ⟨x, hx, ?_, ?_, ?_⟩
        · by_cases h : x.ID = id <;> simpa [h] using hp
        · by_cases h : x.ID = id <;> simp [h]
        · by_cases h : x.ID = id <;> simp [h]
  | updateKeyframeDescription id description =>
    have hk' : k ∈ (UpdateKeyframeDescription d id description).2.keyframes := hk
    have hk2 : k ∈ d.keyframes.map (fun x =>
        if x.ID = id then { x with Description := description } else x) := by
      unfold UpdateKeyframeDescription at hk'
      dsimp only at hk'
      split at hk' <;> exact hk'
    obtain ⟨x, hx, rfl⟩ := List.mem_map.mp hk2
    refine ⟨x, hx, ?_, ?_, ?_⟩
    · by_cases h : x.ID = id <;> simpa [h] using hp
    · by_cases h : x.ID = id <;> simp [h]
    · by_cases h : x.ID = id <;> simp [h]
  | deleteKeyframe id =>
    have hk' : k ∈ (DeleteKeyframe d id).2.keyframes := hk
    unfold DeleteKeyframe at hk'
    split at hk'
    · exact ⟨k, hk', hp, rfl, rfl⟩
    · split at hk'
      · exact ⟨k, hk', hp, rfl, rfl⟩
      · exact ⟨k, List.mem_of_mem_filter hk', hp, rfl, rfl⟩

theorem Op.run_nonneg (d : DB) (op : Op) (hop : op.timestampNonneg)
    (hi : NonnegTimestamps d) : NonnegTimestamps (op.run d) := by
  intro k hk
  have same : (op.run d).keyframes = d.keyframes → 0 ≤ k.TimestampMs :=
    fun h => hi k (h ▸ hk)
  cases op with
  | upsertMediaFile now path mediaType => exact same (Op.run_keyframes_eq d _ trivial)
  | updateDescription now id description => exact same (Op.run_keyframes_eq d _ trivial)
  | findOrCreateLabel name => exact same (Op.run_keyframes_eq d _ trivial)
  | addMediaLabel f l => exact same (Op.run_keyframes_eq d _ trivial)
  | removeMediaLabel f l => exact same (Op.run_keyframes_eq d _ trivial)
  | addKeyframeLabel k l => exact same (Op.run_keyframes_eq d _ trivial)
  | removeKeyframeLabel k l => exact same (Op.run_keyframes_eq d _ trivial)
  | ensurePinnedKeyframe f =>
    have hk' : k ∈ (EnsurePinnedKeyframe d f).2.keyframes := hk
    rcases EnsurePinnedKeyframe_snd d f with h | h
    · rw [h] at hk'
      exact hi k hk'
    · rw [h] at hk'
      rcases insertKeyframe_keyframes d f 0 true with h2 | ⟨_, id, h2⟩
      · rw [h2] at hk'
        exact hi k hk'
      · rw [h2] at hk'
        rcases List.mem_append.mp hk' with h1 | h1
        · exact hi k h1
        · rw [List.mem_singleton.mp h1]
  | createKeyframe f t =>
    have hk' : k ∈ (CreateKeyframe d f t).2.keyframes := hk
    rw [CreateKeyframe_snd] at hk'
    rcases insertKeyframe_keyframes d f t false with h | ⟨_, id, h⟩
    · rw [h] at hk'
      exact hi k hk'
    · rw [h] at hk'
      rcases List.mem_append.mp hk' with h1 | h1
      · exact hi k h1
      · rw [List.mem_singleton.mp h1]
        exact hop
  | updateKeyframeTimestamp id t =>
    have hk' : k ∈ (UpdateKeyframeTimestamp d id t).2.keyframes := hk
    unfold UpdateKeyframeTimestamp at hk'
    split at hk'
    · exact hi k hk'
    · split at hk'
      · exact hi k hk'
      · obtain ⟨x, hx, rfl⟩ := List.mem_map.mp hk'
        by_cases h : x.ID = id
        · simp only [h, if_true]
          exact hop
        · simp only [h, if_false]
          exact hi x hx
  | updateKeyframeDescription id description =>
    have hk' : k ∈ (UpdateKeyframeDescription d id description).2.keyframes := hk
    have hk2 : k ∈ d.keyframes.map (fun x =>
        if x.ID = id then { x with Description := description } else x) := by
      unfold UpdateKeyframeDescription at hk'
      dsimp only at hk'
      split at hk' <;> exact hk'
    obtain ⟨x, hx, rfl⟩ := List.mem_map.mp hk2
    by_cases h : x.ID = id
    · simp only [h, if_true]
      exact hi x hx
    · simp only [h, if_false]
      exact hi x hx
  | deleteKeyframe id =>
    have hk' : k ∈ (DeleteKeyframe d id).2.keyframes := hk
    unfold DeleteKeyframe at hk'
    split at hk'
    · exact hi k hk'
    · split at hk'
      · exact hi k hk'
      · exact hi k (List.mem_of_mem_filter hk')

/-! ## The handlers as sequences of store operations -/

theorem GetMediaFile_eq_some (d : DB) (id : Int) (m : MediaFile)
    (h : GetMediaFile d id = some m) : m ∈ d.media_files ∧ m.ID = id := by
  unfold GetMediaFile at h
  exact ⟨List.mem_of_find?_eq_some h, by simpa using List.find?_some h⟩

/-- The operations a request performs on the store: none, one operation other
than `EnsurePinnedKeyframe` (or a label creation followed by an attachment),
or, for a view of a stored video or audio file, `EnsurePinnedKeyframe` on it.
A timestamp among the operations is the one decoded from the request. -/
theorem Server.handle_ops (s : Server) (wd : Option String) (d : DB) (now : Nat)
    (r : Request) :
    ∃ ops : List Op, (s.handle wd d now r).2 = runOps d ops ∧
      (r.timestampNonneg → ∀ op ∈ ops, op.timestampNonneg) ∧
      ((∀ op ∈ ops, ∀ f, op ≠ .ensurePinnedKeyframe f) ∨
        ∃ id m, r = .viewFile (some id) ∧ ops = [.ensurePinnedKeyframe id] ∧
          m ∈ d.media_files ∧ m.ID = id ∧
          (m.MediaType = "video" ∨ m.MediaType = "audio")) := by
  have none_ : (s.handle wd d now r).2 = d →
      ∃ ops : List Op, (s.handle wd d now r).2 = runOps d ops ∧
      (r.timestampNonneg → ∀ op ∈ ops, op.timestampNonneg) ∧
      ((∀ op ∈ ops, ∀ f, op ≠ .ensurePinnedKeyframe f) ∨
        ∃ id m, r = .viewFile (some id) ∧ ops = [.ensurePinnedKeyframe id] ∧
          m ∈ d.media_files ∧ m.ID = id ∧
          (m.MediaType = "video" ∨ m.MediaType = "audio")) := by
    intro h
    exact ⟨[], h, (fun _ op hop => by cases hop), Or.inl (fun op hop => by cases hop)⟩
  cases r with
  | index =>
    apply none_
    show (handleIndex d).2 = d
    unfold handleIndex
    split <;> rfl
  | serveMedia path => exact none_ rfl
  | searchLabels q =>
    apply none_
    show (handleSearchLabels d q).2 = d
    unfold handleSearchLabels
    split
    · rfl
    · split <;> rfl
  | viewFile id =>
    cases id with
    | none => exact none_ rfl
    | some id =>
      cases hg : GetMediaFile d id with
      | none =>
        apply none_
        show (handleViewFile d (some id)).2 = d
        simp only [handleViewFile, hg]
      | some file =>
        cases hn : GetNavigation d id with
        | error e =>
          apply none_
          show (handleViewFile d (some id)).2 = d
          simp only [handleViewFile, hg, hn]
        | ok nav =>
          by_cases ht : file.MediaType = "video" ∨ file.MediaType = "audio"
          · refine ⟨[.ensurePinnedKeyframe id], ?_, ?_, Or.inr ⟨id, file, rfl, rfl,
              (GetMediaFile_eq_some d id file hg).1, (GetMediaFile_eq_some d id file hg).2, ht⟩⟩
            · show (handleViewFile d (some id)).2 = (EnsurePinnedKeyframe d id).2
              simp only [handleViewFile, hg, hn, ht, if_true]
              rcases EnsurePinnedKeyframe d id with ⟨r1, d1⟩
              cases r1 <;> rfl
            · intro _ op hop
              rw [List.mem_singleton.mp hop]
              trivial
          · apply none_
            show (handleViewFile d (some id)).2 = d
            simp only [handleViewFile, hg, hn, ht, if_false]
  | addFileLabel id name =>
    cases id with
    | none => exact none_ rfl
    | some id =>
      cases name with
      | none => exact none_ rfl
      | some name =>
        by_cases he : name = ""
        · apply none_
          show (handleAddFileLabel d (some id) (some name)).2 = d
          simp only [handleAddFileLabel, he, if_true]
        · rcases hx : FindOrCreateLabel d (TrimSpace name) with ⟨r1, d1⟩
          have hd1 : d1 = (FindOrCreateLabel d (TrimSpace name)).2 := by rw [hx]
          cases r1 with
          | error e =>
            refine ⟨[.findOrCreateLabel (TrimSpace name)], ?_, ?_, Or.inl ?_⟩
            · show (handleAddFileLabel d (some id) (some name)).2 = _
              simp only [handleAddFileLabel, he, if_false, hx]
              exact hd1
            · intro _ op hop
              rw [List.mem_singleton.mp hop]
              trivial
            · intro op hop f
              rw [List.mem_singleton.mp hop]
              intro hc
              cases hc
          | ok label =>
            refine ⟨[.findOrCreateLabel (TrimSpace name), .addMediaLabel id label.ID], ?_, ?_,
              Or.inl ?_⟩
            · show (handleAddFileLabel d (some id) (some name)).2 = (AddMediaLabel
                (FindOrCreateLabel d (TrimSpace name)).2 id label.ID).2
              simp only [handleAddFileLabel, he, if_false, hx]
              rcases AddMediaLabel d1 id label.ID with ⟨r2, d2⟩
              cases r2 <;> rfl
            · intro _ op hop
              simp only [List.mem_cons, List.mem_singleton, List.not_mem_nil, or_false] at hop
              rcases hop with rfl | rfl <;> trivial
            · intro op hop f
              simp only [List.mem_cons, List.mem_singleton, List.not_mem_nil, or_false] at hop
              rcases hop with rfl | rfl <;> intro hc <;> cases hc
  | addKeyframeLabel id name =>
    cases id with
    | none => exact none_ rfl
    | some id =>
      cases name with
      | none => exact none_ rfl
      | some name =>
        by_cases he : name = ""
        · apply none_
          show (handleAddKeyframeLabel d (some id) (some name)).2 = d
          simp only [handleAddKeyframeLabel, he, if_true]
        · rcases hx : FindOrCreateLabel d (TrimSpace name) with ⟨r1, d1⟩
          have hd1 : d1 = (FindOrCreateLabel d (TrimSpace name)).2 := by rw [hx]
          cases r1 with
          | error e =>
            refine ⟨[.findOrCreateLabel (TrimSpace name)], ?_, ?_, Or.inl ?_⟩
            · show (handleAddKeyframeLabel d (some id) (some name)).2 = _
              simp only [handleAddKeyframeLabel, he, if_false, hx]
              exact hd1
            · intro _ op hop
              rw [List.mem_singleton.mp hop]
              trivial
            · intro op hop f
              rw [List.mem_singleton.mp hop]
              intro hc
              cases hc
          | ok label =>
            refine ⟨[.findOrCreateLabel (TrimSpace name), .addKeyframeLabel id label.ID], ?_, ?_,
              Or.inl ?_⟩
            · show (handleAddKeyframeLabel d (some id) (some name)).2 = (AddKeyframeLabel
                (FindOrCreateLabel d (TrimSpace name)).2 id label.ID).2
              simp only [handleAddKeyframeLabel, he, if_false, hx]
              rcases AddKeyframeLabel d1 id label.ID with ⟨r2, d2⟩
              cases r2 <;> rfl
            · intro _ op hop
              simp only [List.mem_cons, List.mem_singleton, List.not_mem_nil, or_false] at hop
              rcases hop with rfl | rfl <;> trivial
            · intro op hop f
              simp only [List.mem_cons, List.mem_singleton, List.not_mem_nil, or_false] at hop
              rcases hop with rfl | rfl <;> intro hc <;> cases hc
  | removeFileLabel id lid =>
    cases id with
    | none => exact none_ rfl
    | some id =>
      cases lid with
      | none => exact none_ rfl
      | some lid =>
        refine ⟨[.removeMediaLabel id lid], rfl, ?_, Or.inl ?_⟩
        · intro _ op hop
          rw [List.mem_singleton.mp hop]
          trivial
        · intro op hop f
          rw [List.mem_singleton.mp hop]
          intro hc
          cases hc
  | removeKeyframeLabel id lid =>
    cases id with
    | none => exact none_ rfl
    | some id =>
      cases lid with
      | none => exact none_ rfl
      | some lid =>
        refine ⟨[.removeKeyframeLabel id lid], rfl, ?_, Or.inl ?_⟩
        · intro _ op hop
          rw [List.mem_singleton.mp hop]
          trivial
        · intro op hop f
          rw [List.mem_singleton.mp hop]
          intro hc
          cases hc
  | updateFileDescription id description =>
    cases id with
    | none => exact none_ rfl
    | some id =>
      cases description with
      | none => exact none_ rfl
      | some description =>
        refine ⟨[.updateDescription now id description], ?_, ?_, Or.inl ?_⟩
        · show (handleUpdateFileDescription d now (some id) (some description)).2
            = (UpdateDescription d now id description).2
          simp only [handleUpdateFileDescription]
          rcases UpdateDescription d now id description with ⟨r1, d1⟩
          cases r1 <;> rfl
        · intro _ op hop
          rw [List.mem_singleton.mp hop]
          trivial
        · intro op hop f
          rw [List.mem_singleton.mp hop]
          intro hc
          cases hc
  | updateKeyframeDescription id description =>
    cases id with
    | none => exact none_ rfl
    | some id =>
      cases description with
      | none => exact none_ rfl
      | some description =>
        refine ⟨[.updateKeyframeDescription id description], ?_, ?_, Or.inl ?_⟩
        · show (handleUpdateKeyframeDescription d (some id) (some description)).2
            = (UpdateKeyframeDescription d id description).2
          simp only [handleUpdateKeyframeDescription]
          rcases UpdateKeyframeDescription d id description with ⟨r1, d1⟩
          cases r1 <;> rfl
        · intro _ op hop
          rw [List.mem_singleton.mp hop]
          trivial
        · intro op hop f
          rw [List.mem_singleton.mp hop]
          intro hc
          cases hc
  | createKeyframe id timestampMs =>
    cases id with
    | none => exact none_ rfl
    | some id =>
      cases timestampMs with
      | none => exact none_ rfl
      | some t =>
        refine ⟨[.createKeyframe id t], ?_, ?_, Or.inl ?_⟩
        · show (handleCreateKeyframe d (some id) (some t)).2 = (CreateKeyframe d id t).2
          simp only [handleCreateKeyframe]
          rcases CreateKeyframe d id t with ⟨r1, d1⟩
          cases r1 <;> rfl
        · intro hr op hop
          rw [List.mem_singleton.mp hop]
          exact hr
        · intro op hop f
          rw [List.mem_singleton.mp hop]
          intro hc
          cases hc
  | updateKeyframe id timestampMs =>
    cases id with
    | none => exact none_ rfl
    | some id =>
      cases timestampMs with
      | none => exact none_ rfl
      | some t =>
        refine ⟨[.updateKeyframeTimestamp id t], ?_, ?_, Or.inl ?_⟩
        · show (handleUpdateKeyframe d (some id) (some t)).2 = (UpdateKeyframeTimestamp d id t).2
          simp only [handleUpdateKeyframe]
          rcases UpdateKeyframeTimestamp d id t with ⟨r1, d1⟩
          cases r1 with
          | error e => by_cases h : e = .ErrPinnedKeyframe <;> simp [h]
          | ok u => rfl
        · intro hr op hop
          rw [List.mem_singleton.mp hop]
          exact hr
        · intro op hop f
          rw [List.mem_singleton.mp hop]
          intro hc
          cases hc
  | deleteKeyframe id =>
    cases id with
    | none => exact none_ rfl
    | some id =>
      refine ⟨[.deleteKeyframe id], ?_, ?_, Or.inl ?_⟩
      · show (handleDeleteKeyframe d (some id)).2 = (DeleteKeyframe d id).2
        simp only [handleDeleteKeyframe]
        rcases DeleteKeyframe d id with ⟨r1, d1⟩
        cases r1 with
        | error e => by_cases h : e = .ErrPinnedKeyframe <;> simp [h]
        | ok u => rfl
      · intro _ op hop
        rw [List.mem_singleton.mp hop]
        trivial
      · intro op hop f
        rw [List.mem_singleton.mp hop]
        intro hc
        cases hc

theorem upsertScanned_eq_runOps (d : DB) (now : Nat) (files : List File) :
    upsertScanned d now files
      = runOps d (files.map (fun f => .upsertMediaFile now f.Path f.MediaType)) := by
  unfold upsertScanned runOps
  rw [List.foldl_map]
  rfl

theorem Event.run_ops (s : Server) (wd : Option String) (d : DB) (e : Event) :
    ∃ ops : List Op, e.run s wd d = runOps d ops ∧
      (e.timestampNonneg → ∀ op ∈ ops, op.timestampNonneg) ∧
      ((∀ op ∈ ops, ∀ f, op ≠ .ensurePinnedKeyframe f) ∨
        ∃ id m, ops = [.ensurePinnedKeyframe id] ∧ m ∈ d.media_files ∧ m.ID = id ∧
          (m.MediaType = "video" ∨ m.MediaType = "audio")) := by
  cases e with
  | startup now files =>
    refine ⟨_, upsertScanned_eq_runOps d now files, ?_, Or.inl ?_⟩
    · intro _ op hop
      obtain ⟨f, _, rfl⟩ := List.mem_map.mp hop
      trivial
    · intro op hop f
      obtain ⟨x, _, rfl⟩ := List.mem_map.mp hop
      intro hc
      cases hc
  | request now r =>
    obtain ⟨ops, h1, h2, h3⟩ := s.handle_ops wd d now r
    refine ⟨ops, h1, h2, ?_⟩
    rcases h3 with h3 | ⟨id, m, _, h3⟩
    · exact Or.inl h3
    · exact Or.inr ⟨id, m, h3⟩

theorem Served.reachable {s : Server} {wd : Option String} {d : DB} (h : Served s wd d) :
    Reachable d := by
  induction h with
  | empty => exact Reachable.empty
  | step e _ ih =>
    obtain ⟨ops, h1, _⟩ := e.run_ops s wd _
    rw [h1]
    exact reachable_runOps _ ops ih

theorem served_runEvents (s : Server) (wd : Option String) (d : DB) (events : List Event)
    (h : Served s wd d) : Served s wd (runEvents s wd d events) := by
  induction events generalizing d with
  | nil => exact h
  | cons e rest ih => exact ih (e.run s wd d) (Served.step e h)

/-! ## Invariants of the served store -/

theorem runOps_nonneg (d : DB) (ops : List Op) (hops : ∀ op ∈ ops, op.timestampNonneg)
    (hi : NonnegTimestamps d) : NonnegTimestamps (runOps d ops) := by
  induction ops generalizing d with
  | nil => exact hi
  | cons op rest ih =>
    exact ih (op.run d) (fun o ho => hops o (List.mem_cons_of_mem _ ho))
      (Op.run_nonneg d op (hops op (List.mem_cons_self _ _)) hi)

theorem runEvents_nonneg (s : Server) (wd : Option String) (d : DB) (events : List Event)
    (hev : ∀ e ∈ events, e.timestampNonneg) (hi : NonnegTimestamps d) :
    NonnegTimestamps (runEvents s wd d events) := by
  induction events generalizing d with
  | nil => exact hi
  | cons e rest ih =>
    apply ih (e.run s wd d) (fun x hx => hev x (List.mem_cons_of_mem _ hx))
    obtain ⟨ops, h1, h2, _⟩ := e.run_ops s wd d
    rw [h1]
    exact runOps_nonneg d ops (h2 (hev e (List.mem_cons_self _ _))) hi

/-- C16, the claim as stated fails: after a start that discovers a video and an
image, a view of each and the request to create a keyframe on the video with
`timestamp_ms = -5` in its body, the handler answers 201 and the store holds a
keyframe with timestamp -5. -/
theorem negative_timestamp_counterexample :
    Served exampleServer none (runEvents exampleServer none DB.empty negativeTimestampEvents) ∧
    (runEvents exampleServer none DB.empty negativeTimestampEvents).keyframes =
      [{ ID := 1, MediaFileID := 1, TimestampMs := 0, Description := "", Pinned := true },
       { ID := 2, MediaFileID := 1, TimestampMs := -5, Description := "", Pinned := false }] ∧
    ∃ k ∈ (runEvents exampleServer none DB.empty negativeTimestampEvents).keyframes,
      k.TimestampMs < 0 :=
  ⟨served_runEvents _ _ _ _ .empty, by decide, by decide⟩

/-- C16 as amended: in every store state reached from the empty store through
starts of the program and requests whose decoded timestamps are all
non-negative, every stored keyframe has `timestamp_ms ≥ 0`. -/
theorem nonneg_timestamps_kept (s : Server) (wd : Option String) (events : List Event)
    (hev : ∀ e ∈ events, e.timestampNonneg) :
    ∀ k ∈ (runEvents s wd DB.empty events).keyframes, 0 ≤ k.TimestampMs :=
  runEvents_nonneg s wd DB.empty events hev (fun k hk => by cases hk)

/-- Witness for amended C16: the example events carry the timestamps 1500, 20,
30 and 40. -/
theorem nonneg_timestamps_kept_witness :
    (∀ e ∈ exampleEvents, e.timestampNonneg) ∧
    (runEvents exampleServer none DB.empty exampleEvents).keyframes =
      [{ ID := 1, MediaFileID := 1, TimestampMs := 0, Description := "", Pinned := true },
       { ID := 2, MediaFileID := 1, TimestampMs := 30, Description := "", Pinned := false },
       { ID := 3, MediaFileID := 2, TimestampMs := 20, Description := "", Pinned := false }] ∧
    ∀ k ∈ (runEvents exampleServer none DB.empty exampleEvents).keyframes, 0 ≤ k.TimestampMs :=
  ⟨by decide, by decide, nonneg_timestamps_kept exampleServer none exampleEvents (by decide)⟩

theorem runOps_pinned_origin (d : DB) (ops : List Op)
    (hops : ∀ op ∈ ops, ∀ f, op ≠ .ensurePinnedKeyframe f) :
    ∀ k ∈ (runOps d ops).keyframes, k.Pinned = true →
      ∃ k0 ∈ d.keyframes, k0.Pinned = true ∧ k0.ID = k.ID ∧ k0.MediaFileID = k.MediaFileID := by
  induction ops generalizing d with
  | nil =>
    intro k hk hp
    exact ⟨k, hk, hp, rfl, rfl⟩
  | cons op rest ih =>
    intro k hk hp
    obtain ⟨k1, hk1, hp1, hid1, hf1⟩ :=
      ih (op.run d) (fun o ho => hops o (List.mem_cons_of_mem _ ho)) k hk hp
    obtain ⟨k0, hk0, hp0, hid0, hf0⟩ :=
      Op.run_pinned_origin d op (hops op (List.mem_cons_self _ _)) k1 hk1 hp1
    exact ⟨k0, hk0, hp0, hid0.trans hid1, hf0.trans hf1⟩

theorem runOps_media (d : DB) (ops : List Op) :
    ∀ m ∈ d.media_files, ∃ m' ∈ (runOps d ops).media_files,
      m'.ID = m.ID ∧ m'.MediaType = m.MediaType := by
  induction ops generalizing d with
  | nil =>
    intro m hm
    exact ⟨m, hm, rfl, rfl⟩
  | cons op rest ih =>
    intro m hm
    obtain ⟨m1, hm1, hid1, ht1⟩ := Op.run_media d op m hm
    obtain ⟨m2, hm2, hid2, ht2⟩ := ih (op.run d) m1 hm1
    exact ⟨m2, hm2, hid2.trans hid1, ht2.trans ht1⟩

theorem EnsurePinnedKeyframe_pinned_origin (d : DB) (f : Int) :
    ∀ k ∈ (EnsurePinnedKeyframe d f).2.keyframes, k ∈ d.keyframes ∨ k.MediaFileID = f := by
  intro k hk
  rcases EnsurePinnedKeyframe_snd d f with h | h
  · rw [h] at hk
    exact Or.inl hk
  · rw [h] at hk
    rcases insertKeyframe_keyframes d f 0 true with h2 | ⟨_, id, h2⟩
    · rw [h2] at hk
      exact Or.inl hk
    · rw [h2] at hk
      rcases List.mem_append.mp hk with h1 | h1
      · exact Or.inl h1
      · right
        rw [List.mem_singleton.mp h1]

theorem Event.run_pinnedTemporal (s : Server) (wd : Option String) (d : DB) (e : Event)
    (hi : PinnedTemporal d) : PinnedTemporal (e.run s wd d) := by
  obtain ⟨ops, h1, _, h3⟩ := e.run_ops s wd d
  rw [h1]
  intro k hk hp
  rcases h3 with h3 | ⟨id, m, rfl, hm, hmid, hmt⟩
  · obtain ⟨k0, hk0, hp0, _, hf0⟩ := runOps_pinned_origin d ops h3 k hk hp
    obtain ⟨m, hm, hmid, hmt⟩ := hi k0 hk0 hp0
    obtain ⟨m', hm', hid', ht'⟩ := runOps_media d ops m hm
    exact ⟨m', hm', by rw [hid', hmid, hf0], by rw [ht']; exact hmt⟩
  · have hk' : k ∈ (EnsurePinnedKeyframe d id).2.keyframes := hk
    rcases EnsurePinnedKeyframe_pinned_origin d id k hk' with h | h
    · obtain ⟨m0, hm0, hmid0, hmt0⟩ := hi k h hp
      obtain ⟨m', hm', hid', ht'⟩ := runOps_media d [.ensurePinnedKeyframe id] m0 hm0
      exact ⟨m', hm', by rw [hid', hmid0], by rw [ht']; exact hmt0⟩
    · obtain ⟨m', hm', hid', ht'⟩ := runOps_media d [.ensurePinnedKeyframe id] m hm
      exact ⟨m', hm', by rw [hid', hmid, h], by rw [ht']; exact hmt⟩

theorem Served.pinnedTemporal {s : Server} {wd : Option String} {d : DB}
    (h : Served s wd d) : PinnedTemporal d := by
  induction h with
  | empty =>
    intro k hk
    cases hk
  | step e _ ih => exact Event.run_pinnedTemporal s wd _ e ih

/-- C19: in every state reachable from the empty store through starts of the
program (which feed the scanned files to the store) and requests, no media
file whose type is "image" owns a pinned keyframe; and a pinned keyframe found
after a request either continues a pinned keyframe stored before (same id,
same owner) or belongs to the file that the request views, which is a stored
file of type "video" or "audio". -/
theorem image_never_pinned (s : Server) (wd : Option String) (d : DB) (h : Served s wd d) :
    (∀ m ∈ d.media_files, m.MediaType = "image" →
      ∀ k ∈ d.keyframes, k.MediaFileID = m.ID → k.Pinned = false) ∧
    (∀ (now : Nat) (r : Request), ∀ k ∈ (s.handle wd d now r).2.keyframes, k.Pinned = true →
      (∃ k0 ∈ d.keyframes, k0.Pinned = true ∧ k0.ID = k.ID ∧ k0.MediaFileID = k.MediaFileID) ∨
      (∃ id m, r = .viewFile (some id) ∧ m ∈ d.media_files ∧ m.ID = id ∧
        (m.MediaType = "video" ∨ m.MediaType = "audio") ∧ k.MediaFileID = id)) := by
  constructor
  · intro m hm himg k hk hown
    cases hp : k.Pinned with
    | false => rfl
    | true =>
      obtain ⟨m', hm', hid', ht'⟩ := h.pinnedTemporal k hk hp
      have hmm : m' = m :=
        eq_of_mem_of_key_eq (fun x : MediaFile => x.ID) d.media_files h.reachable.valid.1 hm' hm
          (hid'.trans hown)
      rw [hmm, himg] at ht'
      rcases ht' with h1 | h1 <;> exact absurd h1 (by decide)
  · intro now r k hk hp
    obtain ⟨ops, h1, _, h3⟩ := s.handle_ops wd d now r
    rw [h1] at hk
    rcases h3 with h3 | ⟨id, m, hr, rfl, hm, hmid, hmt⟩
    · exact Or.inl (runOps_pinned_origin d ops h3 k hk hp)
    · have hk' : k ∈ (EnsurePinnedKeyframe d id).2.keyframes := hk
      rcases EnsurePinnedKeyframe_pinned_origin d id k hk' with h4 | h4
      · exact Or.inl ⟨k, h4, hp, rfl, rfl⟩
      · exact Or.inr ⟨id, m, hr, hm, hmid, hmt, h4⟩

/-- Witness for C19: after the example events the image (file 2) has been viewed
and owns one keyframe, which is not pinned; the video owns the pinned one. -/
theorem image_never_pinned_witness :
    Served exampleServer none (runEvents exampleServer none DB.empty exampleEvents) ∧
    (runEvents exampleServer none DB.empty exampleEvents).keyframes =
      [{ ID := 1, MediaFileID := 1, TimestampMs := 0, Description := "", Pinned := true },
       { ID := 2, MediaFileID := 1, TimestampMs := 30, Description := "", Pinned := false },
       { ID := 3, MediaFileID := 2, TimestampMs := 20, Description := "", Pinned := false }] ∧
    ∀ m ∈ (runEvents exampleServer none DB.empty exampleEvents).media_files,
      m.MediaType = "image" →
      ∀ k ∈ (runEvents exampleServer none DB.empty exampleEvents).keyframes,
        k.MediaFileID = m.ID → k.Pinned = false :=
  ⟨served_runEvents _ _ _ _ .empty, by decide,
   (image_never_pinned exampleServer none _ (served_runEvents _ _ _ _ .empty)).1⟩

/-! ## handleServeMedia -/


theorem modifyHead_append_of_ne_nil {α : Type} (f : α → α) (l₁ l₂ : List α) (h : l₁ ≠ []) :
    (l₁ ++ l₂).modifyHead f = l₁.modifyHead f ++ l₂ := by
  cases l₁ with
  | nil => exact absurd rfl h
  | cons a t => rfl

theorem splitOnP_append_sep (p : Char → Bool) (a b : List Char) (sep : Char)
    (hsep : p sep = true) :
    (a ++ sep :: b).splitOnP p = a.splitOnP p ++ b.splitOnP p := by
  induction a with
  | nil =>
    rw [List.nil_append, List.splitOnP_cons, if_pos hsep, List.splitOnP_nil]
    rfl
  | cons c a ih =>
    rw [List.cons_append, List.splitOnP_cons, List.splitOnP_cons, ih]
    by_cases hc : p c = true
    · rw [if_pos hc, if_pos hc]
      rfl
    · rw [if_neg hc, if_neg hc, modifyHead_append_of_ne_nil _ _ _ (List.splitOnP_ne_nil p a)]

theorem not_sep_of_mem_splitOnP (p : Char → Bool) (l : List Char) :
    ∀ e ∈ l.splitOnP p, ∀ c ∈ e, p c = false := by
  induction l with
  | nil =>
    intro e he c hc
    rw [List.splitOnP_nil, List.mem_singleton] at he
    rw [he] at hc
    cases hc
  | cons x l ih =>
    intro e he c hc
    rw [List.splitOnP_cons] at he
    by_cases hx : p x = true
    · rw [if_pos hx] at he
      rcases List.mem_cons.mp he with rfl | he'
      · cases hc
      · exact ih e he' c hc
    · rw [if_neg hx] at he
      cases hs : l.splitOnP p with
      | nil => exact absurd hs (List.splitOnP_ne_nil p l)
      | cons h t =>
        rw [hs] at he ih
        rcases List.mem_cons.mp he with rfl | he'
        · rcases List.mem_cons.mp hc with rfl | hc'
          · simpa using hx
          · exact ih h (List.mem_cons_self _ _) c hc'
        · exact ih e (List.mem_cons_of_mem _ he') c hc

theorem splitOnP_refine (p q : Char → Bool) (hpq : ∀ c, p c = true → q c = true)
    (l : List Char) : l.splitOnP q = (l.splitOnP p).flatMap (fun e => e.splitOnP q) := by
  induction l with
  | nil => simp [List.splitOnP_nil]
  | cons c l ih =>
    rw [List.splitOnP_cons, List.splitOnP_cons]
    cases hs : l.splitOnP p with
    | nil => exact absurd hs (List.splitOnP_ne_nil p l)
    | cons h t =>
      rw [hs] at ih
      by_cases hp : p c = true
      · rw [if_pos hp, if_pos (hpq c hp), ih]
        simp [List.flatMap_cons, List.splitOnP_nil]
      · rw [if_neg hp]
        have hmh : List.modifyHead (List.cons c) (h :: t) = (c :: h) :: t := rfl
        rw [hmh, List.flatMap_cons, List.splitOnP_cons]
        by_cases hq : q c = true
        · rw [if_pos hq, if_pos hq, ih, List.flatMap_cons]
          rfl
        · rw [if_neg hq, if_neg hq, ih, List.flatMap_cons,
            modifyHead_append_of_ne_nil _ _ _ (List.splitOnP_ne_nil q h)]

theorem cleanStep_proper (st : List (List Char)) (e : List Char) (he : properElem e) :
    cleanStep true st e = e :: st := by
  obtain ⟨h1, h2, h3, _⟩ := he
  simp [cleanStep, h1, h2, h3]

theorem foldl_cleanStep_push (elems st : List (List Char)) (h : ∀ e ∈ elems, properElem e) :
    elems.foldl (cleanStep true) st = elems.reverse ++ st := by
  induction elems generalizing st with
  | nil => rfl
  | cons e rest ih =>
    rw [List.foldl_cons, cleanStep_proper st e (h e (List.mem_cons_self _ _)),
      ih _ (fun x hx => h x (List.mem_cons_of_mem _ hx))]
    simp

theorem cleanStep_rooted_mem (st : List (List Char)) (e : List Char) :
    ∀ x ∈ cleanStep true st e,
      x ∈ st ∨ (x = e ∧ e ≠ [] ∧ e ≠ ['.'] ∧ e ≠ ['.', '.']) := by
  intro x hx
  unfold cleanStep at hx
  split at hx
  · exact Or.inl hx
  · rename_i h1
    split at hx
    · split at hx
      · simp at hx
      · simp only [Bool.not_true, Bool.false_and, Bool.false_eq_true, if_false] at hx
        exact Or.inl (List.mem_cons_of_mem _ hx)
    · rename_i h2
      rcases List.mem_cons.mp hx with rfl | hx'
      · right
        simp only [not_or] at h1
        exact ⟨rfl, h1.1, h1.2, h2⟩
      · exact Or.inl hx'

theorem foldl_cleanStep_proper (elems st : List (List Char))
    (hst : ∀ e ∈ st, properElem e) (hel : ∀ e ∈ elems, '/' ∉ e) :
    ∀ e ∈ elems.foldl (cleanStep true) st, properElem e := by
  induction elems generalizing st with
  | nil => exact hst
  | cons a rest ih =>
    rw [List.foldl_cons]
    apply ih _ _ (fun x hx => hel x (List.mem_cons_of_mem _ hx))
    intro x hx
    rcases cleanStep_rooted_mem st a x hx with h | ⟨rfl, h1, h2, h3⟩
    · exact hst x h
    · exact ⟨h1, h2, h3, hel x (List.mem_cons_self _ _)⟩

theorem foldl_cleanStep_no_dotdot (elems st : List (List Char))
    (h : ['.', '.'] ∉ elems) :
    ∃ X : List (List Char), (∀ e ∈ X, e ∈ elems) ∧
      elems.foldl (cleanStep true) st = X ++ st := by
  induction elems generalizing st with
  | nil => exact ⟨[], (fun e he => by cases he), rfl⟩
  | cons a rest ih =>
    have ha : a ≠ ['.', '.'] := fun hc => h (hc ▸ List.mem_cons_self _ _)
    have hrest : ['.', '.'] ∉ rest := fun hc => h (List.mem_cons_of_mem _ hc)
    rw [List.foldl_cons]
    by_cases hskip : a = [] ∨ a = ['.']
    · have : cleanStep true st a = st := by simp [cleanStep, hskip]
      rw [this]
      obtain ⟨X, hX, hfold⟩ := ih st hrest
      exact ⟨X, fun e he => List.mem_cons_of_mem _ (hX e he), hfold⟩
    · have : cleanStep true st a = a :: st := by simp [cleanStep, hskip, ha]
      rw [this]
      obtain ⟨X, hX, hfold⟩ := ih (a :: st) hrest
      refine ⟨X ++ [a], ?_, ?_⟩
      · intro e he
        rcases List.mem_append.mp he with h1 | h1
        · exact List.mem_cons_of_mem _ (hX e h1)
        · rw [List.mem_singleton.mp h1]
          exact List.mem_cons_self _ _
      · rw [hfold]
        simp


theorem not_slash_of_mem_splitOn (l : List Char) : ∀ e ∈ l.splitOn '/', '/' ∉ e := by
  intro e he hc
  have := not_sep_of_mem_splitOnP (fun c => c == '/') l e he '/' hc
  simp at this

theorem cleanElems_split_proper (l : List Char) :
    ∀ e ∈ cleanElems true (l.splitOn '/'), properElem e := by
  intro e he
  unfold cleanElems at he
  exact foldl_cleanStep_proper _ [] (fun x hx => by cases hx) (not_slash_of_mem_splitOn l) e
    (List.mem_reverse.mp he)

theorem splitOn_renderAbs (R : List (List Char)) (hR : ∀ e ∈ R, properElem e) :
    (renderAbs R).splitOn '/' = [] :: (if R = [] then [[]] else R) := by
  unfold renderAbs List.splitOn
  rw [List.splitOnP_cons, if_pos (by simp)]
  by_cases hnil : R = []
  · subst hnil
    simp [List.intercalate, List.splitOnP_nil]
  · rw [if_neg hnil]
    have := List.splitOn_intercalate R '/' (fun e he => (hR e he).2.2.2) hnil
    unfold List.splitOn at this
    rw [this]

theorem foldl_split_renderAbs (R : List (List Char)) (hR : ∀ e ∈ R, properElem e) :
    ((renderAbs R).splitOn '/').foldl (cleanStep true) [] = R.reverse := by
  rw [splitOn_renderAbs R hR]
  by_cases hnil : R = []
  · subst hnil
    rfl
  · rw [if_neg hnil, List.foldl_cons]
    have : cleanStep true [] [] = [] := rfl
    rw [this, foldl_cleanStep_push R [] hR, List.append_nil]

theorem filter_split_renderAbs (R : List (List Char)) (hR : ∀ e ∈ R, properElem e) :
    ((renderAbs R).splitOn '/').filter (fun e => e != []) = R := by
  rw [splitOn_renderAbs R hR]
  by_cases hnil : R = []
  · subst hnil
    rfl
  · rw [if_neg hnil, List.filter_cons_of_neg (by simp), List.filter_eq_self]
    intro e he
    simpa using (hR e he).1

theorem Clean_rooted (p : String) (rest : List Char) (h : p.toList = '/' :: rest) :
    (Clean p).toList = renderAbs (cleanElems true (p.toList.splitOn '/')) := by
  have h' : p.data = '/' :: rest := h
  unfold Clean
  simp [h', renderAbs]

theorem toList_join3 (a b : String) : (a ++ "/" ++ b).toList = a.toList ++ '/' :: b.toList := by
  show (a ++ "/" ++ b).data = a.data ++ '/' :: b.data
  rw [String.data_append, String.data_append]
  simp

theorem cleanElems_join (R : List (List Char)) (hR : ∀ e ∈ R, properElem e) (rel : List Char)
    (hrel : ['.', '.'] ∉ rel.splitOn '/') :
    ∃ Y : List (List Char),
      cleanElems true ((renderAbs R ++ '/' :: rel).splitOn '/') = R ++ Y := by
  have hsplit : (renderAbs R ++ '/' :: rel).splitOn '/'
      = (renderAbs R).splitOn '/' ++ rel.splitOn '/' := by
    unfold List.splitOn
    exact splitOnP_append_sep _ _ _ '/' (by simp)
  obtain ⟨X, _, hX⟩ := foldl_cleanStep_no_dotdot (rel.splitOn '/') R.reverse hrel
  refine ⟨X.reverse, ?_⟩
  unfold cleanElems
  rw [hsplit, List.foldl_append, foldl_split_renderAbs R hR, hX]
  simp

theorem dotdot_of_containsDotDot (rel : String)
    (h : ['.', '.'] ∈ rel.toList.splitOn '/') : containsDotDot ("/media/" ++ rel) = true := by
  unfold containsDotDot
  rw [List.any_eq_true]
  refine ⟨['.', '.'], ?_, by simp⟩
  have hl : ("/media/" ++ rel).toList = "/media".toList ++ '/' :: rel.toList := by
    show ("/media/" ++ rel).data = _
    rw [String.data_append]
    rfl
  rw [hl, splitOnP_refine (fun c => c == '/') (fun c => c == '/' || c == Char.ofNat 92)
    (fun c hc => by simp [hc])]
  rw [List.mem_flatMap]
  refine ⟨['.', '.'], ?_, by decide⟩
  have := splitOnP_append_sep (fun c => c == '/') "/media".toList rel.toList '/' (by simp)
  rw [this]
  exact List.mem_append_right _ h


theorem Clean_rooted_form (p : String) (h : IsAbs p = true) :
    ∃ R : List (List Char), (∀ e ∈ R, properElem e) ∧ (Clean p).toList = renderAbs R := by
  unfold IsAbs at h
  cases hp : p.toList with
  | nil => rw [hp] at h; simp at h
  | cons c rest =>
    rw [hp] at h
    have hc : c = '/' := by simpa using h
    subst hc
    refine ⟨_, cleanElems_split_proper p.toList, Clean_rooted p rest hp⟩

theorem IsAbs_of_renderAbs (p : String) (R : List (List Char)) (h : p.toList = renderAbs R) :
    IsAbs p = true := by
  unfold IsAbs
  rw [h]
  rfl

theorem Clean_renderAbs_fixed (p : String) (R : List (List Char))
    (hR : ∀ e ∈ R, properElem e) (h : p.toList = renderAbs R) : Clean p = p := by
  apply String.ext
  show (Clean p).toList = p.toList
  rw [Clean_rooted p _ h, h]
  unfold cleanElems
  rw [foldl_split_renderAbs R hR, List.reverse_reverse]

theorem Join_form (root rel : String) (R : List (List Char)) (hroot : root.toList = renderAbs R) :
    Join root rel = Clean (root ++ "/" ++ rel) ∧
    (root ++ "/" ++ rel).toList = renderAbs R ++ '/' :: rel.toList := by
  constructor
  · unfold Join
    rw [if_pos]
    rw [hroot]
    simp [renderAbs]
  · rw [toList_join3, hroot]

theorem New_root_form (wd : Option String) (arg : String) (s : Server)
    (hwd : ∀ w, wd = some w → IsAbs w = true) (hs : New wd arg = some s) :
    ∃ R : List (List Char), (∀ e ∈ R, properElem e) ∧ s.mediaRoot.toList = renderAbs R := by
  unfold New at hs
  cases ha : Abs wd arg with
  | none => rw [ha] at hs; cases hs
  | some absRoot =>
    rw [ha] at hs
    cases hs
    show ∃ R : List (List Char), (∀ e ∈ R, properElem e) ∧ absRoot.toList = renderAbs R
    unfold Abs at ha
    by_cases habs : IsAbs arg = true
    · rw [if_pos habs] at ha
      cases ha
      exact Clean_rooted_form arg habs
    · rw [if_neg habs] at ha
      cases hw : wd with
      | none => rw [hw] at ha; cases ha
      | some w =>
        rw [hw] at ha
        cases ha
        have hwabs := hwd w hw
        have hne : w.toList ≠ [] := by
          intro hc
          unfold IsAbs at hwabs
          rw [hc] at hwabs
          simp at hwabs
        unfold Join
        rw [if_pos hne]
        apply Clean_rooted_form
        unfold IsAbs at hwabs ⊢
        rw [toList_join3]
        cases hl : w.toList with
        | nil => exact absurd hl hne
        | cons c rest =>
          rw [hl] at hwabs
          simpa using hwabs

/-- C17 as amended: for every media root that `New` accepts and every requested
relative path, `handleServeMedia` answers Bad Request (an empty path, or a
path with a `..` element that `http.ServeFile` rejects), answers Forbidden, or
serves a file whose cleaned absolute path is the media root or lies below it
(the elements of the root are the first elements of the path, and no element
of the path is `.` or `..`); so no path outside the root is served, a sibling
directory whose name begins with the name of the root included. -/
theorem handleServeMedia_within_root (wd : Option String) (arg relPath : String) (s : Server)
    (hwd : ∀ w, wd = some w → IsAbs w = true) (hs : New wd arg = some s) :
    handleServeMedia wd s relPath = .error 400 ∨
    handleServeMedia wd s relPath = .error 403 ∨
    ∃ name : String, handleServeMedia wd s relPath = .file name ∧
      isWithin s.mediaRoot name = true ∧ IsAbs name = true ∧
      ∀ e ∈ pathElems name, e ≠ ['.', '.'] ∧ e ≠ ['.'] := by
  obtain ⟨R, hR, hroot⟩ := New_root_form wd arg s hwd hs
  obtain ⟨hjoin, hlist⟩ := Join_form s.mediaRoot relPath R hroot
  have hjabs : IsAbs (s.mediaRoot ++ "/" ++ relPath) = true := by
    unfold IsAbs
    rw [hlist]
    rfl
  have hJ := Clean_rooted (s.mediaRoot ++ "/" ++ relPath) _ hlist
  have hE := cleanElems_split_proper (s.mediaRoot ++ "/" ++ relPath).toList
  have hfix := Clean_renderAbs_fixed (Clean (s.mediaRoot ++ "/" ++ relPath)) _ hE hJ
  have hJabs := IsAbs_of_renderAbs _ _ hJ
  unfold handleServeMedia
  by_cases hempty : relPath.toList = []
  · left
    rw [if_pos hempty]
  · rw [if_neg hempty, hjoin]
    have habs : Abs wd (Clean (s.mediaRoot ++ "/" ++ relPath))
        = some (Clean (s.mediaRoot ++ "/" ++ relPath)) := by
      unfold Abs
      rw [if_pos hJabs, hfix]
    rw [habs]
    simp only
    by_cases hpre : (!HasPrefix (Clean (s.mediaRoot ++ "/" ++ relPath)) s.mediaRoot) = true
    · right; left
      rw [if_pos hpre]
    · rw [if_neg hpre]
      by_cases hdd : containsDotDot ("/media/" ++ relPath) = true
      · left
        rw [if_pos hdd]
      · right; right
        rw [if_neg hdd]
        refine ⟨_, rfl, ?_, hJabs, ?_⟩
        · have hno : ['.', '.'] ∉ relPath.toList.splitOn '/' :=
            fun hc => hdd (dotdot_of_containsDotDot relPath hc)
          obtain ⟨Y, hY⟩ := cleanElems_join R hR relPath.toList hno
          rw [← hlist] at hY
          unfold isWithin pathElems
          rw [hroot, hJ, filter_split_renderAbs R hR, filter_split_renderAbs _ hE, hY]
          rw [List.isPrefixOf_iff_prefix]
          exact List.prefix_append R Y
        · intro e he
          unfold pathElems at he
          rw [hJ, filter_split_renderAbs _ hE] at he
          exact ⟨(hE e he).2.2.1, (hE e he).2.1⟩

/-- Witness for amended C17: the program started in `/srv` on the directory
`media` serves `clips/./a.mp4` from below `/srv/media`. -/
theorem handleServeMedia_within_root_witness :
    New (some "/srv") "media" = some exampleServer ∧
    handleServeMedia (some "/srv") exampleServer "clips/./a.mp4"
      = .file "/srv/media/clips/a.mp4" ∧
    isWithin "/srv/media" "/srv/media/clips/a.mp4" = true ∧
    (handleServeMedia (some "/srv") exampleServer "clips/./a.mp4" = .error 400 ∨
      handleServeMedia (some "/srv") exampleServer "clips/./a.mp4" = .error 403 ∨
      ∃ name : String,
        handleServeMedia (some "/srv") exampleServer "clips/./a.mp4" = .file name ∧
        isWithin exampleServer.mediaRoot name = true ∧ IsAbs name = true ∧
        ∀ e ∈ pathElems name, e ≠ ['.', '.'] ∧ e ≠ ['.']) :=
  ⟨by decide, by decide, by decide,
   handleServeMedia_within_root (some "/srv") "media" "clips/./a.mp4" exampleServer
     (fun w hw => by cases hw; decide) (by decide)⟩

/-- C17, the claim as stated fails: with the media root `/srv/media`, the empty
path and the path `../media-secret/x` (whose cleaned absolute path
`/srv/media-secret/x` passes the prefix check) are both answered with Bad
Request, which is neither Forbidden nor a served file. -/
theorem handleServeMedia_counterexample :
    New none "/srv/media" = some exampleServer ∧
    handleServeMedia none exampleServer "" = .error 400 ∧
    Join "/srv/media" "../media-secret/x" = "/srv/media-secret/x" ∧
    HasPrefix "/srv/media-secret/x" "/srv/media" = true ∧
    handleServeMedia none exampleServer "../media-secret/x" = .error 400 ∧
    handleServeMedia none exampleServer "../media-secret/x" ≠ .error 403 ∧
    (∀ name : String, handleServeMedia none exampleServer "../media-secret/x" ≠ .file name) :=
  ⟨by decide, by decide, by decide, by decide, by decide, by decide,
   fun name h => by
    have h400 : handleServeMedia none exampleServer "../media-secret/x" = .error 400 := by
      decide
    rw [h400] at h
    cases h⟩

end JustLabelIt
